import Mathlib

/-! # Singer tap output parser and catalog discovery

A shallow embedding of `src/singer/parser.go` (`ParseOutput`, `parseRecord`,
`parseSchema`, `parseProperties`) and of the catalog post-processing of
`Bridge.Discover` in `src/server/singer/bridge.go`.

Conventions of the embedding:

* A decoded JSON value (`interface{}` filled by `encoding/json`) is a `JVal`.
  `JVal.null` is the Go `nil` interface.  A decoded number is kept as the text
  `fmt.Sprint` prints for it, the only way the code ever inspects a number.
* A Go `map[string]T` is an association list `GoMap T`; a write `m[k] = v`
  is `GoMap.set`, a read `m[k]` is `GoMap.get`.  The order of the entries of a
  `map[string]*Property` stands for the order in which one run of
  `for name, property := range properties` visits them; Go leaves that order
  unspecified, so statements that quantify over the list hold for every order.
* A Go call that may return an error or crash yields an `Outcome`:
  `ok` (normal return), `error` (the returned `error` is non-nil, the value
  is `nil`) or `panic` (a run-time panic such as a nil pointer dereference).
* `encoding/json`, `bufio` and `fmt` are library code: the embedding takes
  the result of decoding a line's bytes (`Option JVal`, `none` for bytes that
  are not JSON).  An object is given by its members in the order of the JSON
  text, each name once.  Decoding into a `map[string]interface{}` gives these
  members.  Decoding into a struct follows the documentation of
  `json.Unmarshal`: the members are read in the order of the text; a member is
  assigned to the field whose name matches it, also when they differ in case
  only; a member that matches no field is skipped; `null` has no effect on a
  `string` and sets a pointer, map, slice or interface to nil; an object
  assigned to a pointer that is not nil, or to a map that is not nil, is
  decoded into the struct or map that is there, whose other entries are kept;
  an array assigned to a slice resets it; a member whose JSON type does not
  fit its field makes the call return an error.
-/

/-! ## Decoded JSON values -/

/-- A JSON value as `encoding/json` decodes it into an `interface{}`. -/
inductive JVal where
  | null
  | bool (b : Bool)
  | num (text : String)
  | str (s : String)
  | arr (items : List JVal)
  | obj (members : List (String × JVal))

/-- A Go `map[string]T`, as an association list. -/
abbrev GoMap (α : Type) := List (String × α)

namespace GoMap

/-- The read `v, ok := m[k]`. -/
def get {α : Type} (m : GoMap α) (k : String) : Option α :=
  match m with
  | [] => none
  | (k', v) :: rest => if k' = k then some v else get rest k

/-- The write `m[k] = v`: replaces the entry of `k`, or adds one. -/
def set {α : Type} (m : GoMap α) (k : String) (v : α) : GoMap α :=
  match m with
  | [] => [(k, v)]
  | (k', v') :: rest => if k' = k then (k, v) :: rest else (k', v') :: set rest k v

/-- The removal `delete(m, k)`. -/
def delete {α : Type} (m : GoMap α) (k : String) : GoMap α :=
  match m with
  | [] => []
  | (k', v') :: rest => if k' = k then delete rest k else (k', v') :: delete rest k

/-- The keys of the map. -/
def keys {α : Type} (m : GoMap α) : List String := m.map Prod.fst

end GoMap

/-- The three ways a Go call that returns `(value, error)` can end. -/
inductive Outcome (ε α : Type) where
  | ok (value : α)
  | error (err : ε)
  | panic

namespace JVal

/-- Byte-wise `<` on strings, the order in which `fmt` prints map keys. -/
def keyLess : List Char → List Char → Bool
  | _, [] => false
  | [], _ :: _ => true
  | a :: as, b :: bs =>
    if a.toNat < b.toNat then true
    else if b.toNat < a.toNat then false
    else keyLess as bs

/-- Insertion of one printed member into the key-sorted printed members. -/
def insertMember (k v : String) : List (String × String) → List (String × String)
  | [] => [(k, v)]
  | (k', v') :: rest =>
    if keyLess k.data k'.data then (k, v) :: (k', v') :: rest
    else (k', v') :: insertMember k v rest

mutual
/-- The text of `fmt.Sprint(v)` for a decoded JSON value. -/
def sprint : JVal → String
  | null => "<nil>"
  | bool b => if b then "true" else "false"
  | num text => text
  | str s => s
  | arr items => "[" ++ " ".intercalate (sprintItems items) ++ "]"
  | obj members =>
    "map[" ++ " ".intercalate ((sprintMembers members).map fun kv => kv.1 ++ ":" ++ kv.2) ++ "]"
/-- The printed elements of a slice. -/
def sprintItems : List JVal → List String
  | [] => []
  | v :: rest => sprint v :: sprintItems rest
/-- The printed members of a map, sorted by key. -/
def sprintMembers : List (String × JVal) → List (String × String)
  | [] => []
  | (k, v) :: rest => insertMember k (sprint v) (sprintMembers rest)
end

/-- The comparison `v == "s"` of an `interface{}` with a string constant. -/
def isStr (v : JVal) (s : String) : Bool :=
  match v with
  | str t => decide (t = s)
  | _ => false

/-- The code of a character of a member name with case folded away: a small
letter counts as its capital, and so do the two letters outside ASCII that
fold to one, the long s (U+017F) and the Kelvin sign (U+212A). -/
def foldCode (c : Char) : Nat :=
  if c.toNat = 383 then 83
  else if c.toNat = 8490 then 75
  else if 97 ≤ c.toNat ∧ c.toNat ≤ 122 then c.toNat - 32
  else c.toNat

/-- The match of a member name with the name of a struct field, which may
differ in case. -/
def equalFold (name key : String) : Bool :=
  decide (name.data.map foldCode = key.data.map foldCode)

end JVal

namespace Singer

/-! ## Data model of `src/singer/parser.go` -/

/-- Modelled from the spec: the declaration of `typing.DataType` is not under
`src/`.  The five canonical types are those of the spec's CanonicalField;
`UNKNOWN` stands for the zero value of the type, which is what
`var fieldType typing.DataType` holds until a case assigns it. -/
inductive DataType where
  | UNKNOWN
  | BOOL
  | INT64
  | FLOAT64
  | STRING
  | TIMESTAMP
  deriving DecidableEq, Repr

/-- Modelled from the spec: `schema.Field` is not under `src/`; a canonical
field is its type, and its name is its key in `Fields`. -/
structure Field where
  dataType : DataType
  deriving DecidableEq, Repr

/-- Modelled from the spec: `schema.NewField` is not under `src/`; it builds
the field of the given type. -/
def NewField (t : DataType) : Field := ⟨t⟩

/-- The map `schema.Fields` from field name to field. -/
abbrev Fields := GoMap Field

/-- The struct `Property`; a `*Property` is an `Option Property`, `none`
being the nil pointer. -/
inductive Property where
  | mk (type : JVal) (format : String) (properties : List (String × Option Property))

/-- The struct `Schema`. -/
structure Schema where
  Properties : List (String × Option Property)

/-- The struct `SchemaRecord`; `Schema` is a pointer, `none` when nil. -/
structure SchemaRecord where
  type : String
  Stream : String
  Schema : Option Schema
  KeyProperties : List String

/-- The struct `schema.BatchHeader`, as `parseSchema` fills it. -/
structure BatchHeader where
  TableName : String
  Fields : Fields

/-- The struct `StreamRepresentation`. -/
structure StreamRepresentation where
  BatchHeader : BatchHeader
  KeyFields : List String
  Objects : List (GoMap JVal)

/-- The struct `OutputRepresentation`. -/
structure OutputRepresentation where
  State : JVal
  Streams : GoMap StreamRepresentation

/-! ## Schema type inference: `parseProperties` -/

/-- Lines 138-150: the candidate type names of a property. -/
def propertyTypes : JVal → List String
  | .str s => [s]
  | .arr items => items.map JVal.sprint
  | _ => []

/-- Lines 152-180: the loop `for _, t := range types` for one property, with
`recurse` the call `parseProperties(prefix+name+"_", property.Properties, resultFields)`.
`none` is a panic inside that call. -/
def parseTypes (key : String) (format : String) (recurse : Fields → Option Fields) :
    List String → Fields → Option Fields
  | [], resultFields => some resultFields
  | t :: types, resultFields =>
    if t = "null" then parseTypes key format recurse types resultFields
    else if t = "string" then
      if format = "date-time" then some (resultFields.set key (NewField .TIMESTAMP))
      else some (resultFields.set key (NewField .STRING))
    else if t = "number" then some (resultFields.set key (NewField .FLOAT64))
    else if t = "integer" then some (resultFields.set key (NewField .INT64))
    else if t = "boolean" then some (resultFields.set key (NewField .BOOL))
    else if t = "array" then some (resultFields.set key (NewField .STRING))
    else if t = "object" then
      match recurse resultFields with
      | none => none
      | some resultFields' => some (resultFields'.set key (NewField .UNKNOWN))
    else parseTypes key format recurse types resultFields

mutual
/-- The function `parseProperties`: `some` of the fields map after the call,
`none` when the call panics on a nil `*Property` (line 140). -/
def parseProperties (pfx : String) :
    List (String × Option Property) → Fields → Option Fields
  | [], resultFields => some resultFields
  | (_, none) :: _, _ => none
  | (name, some property) :: rest, resultFields =>
    match parseProperty pfx name property resultFields with
    | none => none
    | some resultFields' => parseProperties pfx rest resultFields'
/-- One round of `for name, property := range properties` (lines 138-180). -/
def parseProperty (pfx name : String) : Property → Fields → Option Fields
  | .mk type format properties, resultFields =>
    parseTypes (pfx ++ name) format
      (fun fields => parseProperties (pfx ++ name ++ "_") properties fields)
      (propertyTypes type) resultFields
end

/-! ## Struct decoding of a SCHEMA line (`json.Unmarshal(schemaBytes, sr)`)

`none` is a decoding error (a member whose JSON type does not fit the field). -/

/-- A `string` field after a member is assigned to it: `null` has no
effect. -/
def decodeString (current : String) : JVal → Option String
  | .null => some current
  | .str s => some s
  | _ => none

/-- One element of a `[]string` field. -/
def decodeStringItem : JVal → Option String
  | .null => some ""
  | .str s => some s
  | _ => none

/-- The elements of a `[]string` field. -/
def decodeStringItems : List JVal → Option (List String)
  | [] => some []
  | v :: rest =>
    match decodeStringItem v, decodeStringItems rest with
    | some s, some ss => some (s :: ss)
    | _, _ => none

/-- A `[]string` field after a member is assigned to it: `null` sets it to
nil, an array resets it. -/
def decodeStrings : JVal → Option (List String)
  | .null => some []
  | .arr items => decodeStringItems items
  | _ => none

mutual
/-- A `*Property` map element: `null` is the nil pointer, an object a new
`Property` filled from its members. -/
def decodeProperty : JVal → Option (Option Property)
  | .null => some none
  | .obj members =>
    match decodePropertyMembers members .null "" [] with
    | some property => some (some property)
    | none => none
  | _ => none
/-- The members of an object assigned one after the other to the fields of a
`Property`, whose `Type`, `Format` and `Properties` so far are given. -/
def decodePropertyMembers : List (String × JVal) → JVal → String →
    List (String × Option Property) → Option Property
  | [], type, format, properties => some (.mk type format properties)
  | (k, v) :: rest, type, format, properties =>
    if JVal.equalFold "type" k then decodePropertyMembers rest v format properties
    else if JVal.equalFold "format" k then
      match decodeString format v with
      | none => none
      | some format' => decodePropertyMembers rest type format' properties
    else if JVal.equalFold "properties" k then
      match decodePropertyMap v properties with
      | none => none
      | some properties' => decodePropertyMembers rest type format properties'
    else decodePropertyMembers rest type format properties
/-- A `map[string]*Property` field after a member is assigned to it: `null`
sets it to nil, an object adds its entries to the map. -/
def decodePropertyMap : JVal → List (String × Option Property) →
    Option (List (String × Option Property))
  | .null, _ => some []
  | .obj members, current => decodePropertyEntries members current
  | _, _ => none
/-- The entries of an object written one after the other into a
`map[string]*Property`. -/
def decodePropertyEntries : List (String × JVal) → List (String × Option Property) →
    Option (List (String × Option Property))
  | [], current => some current
  | (k, v) :: rest, current =>
    match decodeProperty v with
    | none => none
    | some property => decodePropertyEntries rest (GoMap.set current k property)
end

/-- The members of an object assigned one after the other to the field
`Properties` of a `Schema`. -/
def decodeSchemaMembers : List (String × JVal) → List (String × Option Property) →
    Option (List (String × Option Property))
  | [], properties => some properties
  | (k, v) :: rest, properties =>
    if JVal.equalFold "properties" k then
      match decodePropertyMap v properties with
      | none => none
      | some properties' => decodeSchemaMembers rest properties'
    else decodeSchemaMembers rest properties

/-- The field `Schema *Schema` after a member is assigned to it: `null` sets
it to nil, an object is decoded into the `Schema` that is there, or into a
new one when the pointer is nil. -/
def decodeSchema (current : Option Schema) : JVal → Option (Option Schema)
  | .null => some none
  | .obj members =>
    match decodeSchemaMembers members
        (match current with
         | some schema => schema.Properties
         | none => []) with
    | some properties => some (some ⟨properties⟩)
    | none => none
  | _ => none

/-- The members of the line's object assigned one after the other to the
fields of the `SchemaRecord`. -/
def decodeSchemaRecordMembers : List (String × JVal) → SchemaRecord → Option SchemaRecord
  | [], sr => some sr
  | (k, v) :: rest, sr =>
    if JVal.equalFold "type" k then
      match decodeString sr.type v with
      | none => none
      | some type => decodeSchemaRecordMembers rest { sr with type := type }
    else if JVal.equalFold "stream" k then
      match decodeString sr.Stream v with
      | none => none
      | some stream => decodeSchemaRecordMembers rest { sr with Stream := stream }
    else if JVal.equalFold "schema" k then
      match decodeSchema sr.Schema v with
      | none => none
      | some schema => decodeSchemaRecordMembers rest { sr with Schema := schema }
    else if JVal.equalFold "key_properties" k then
      match decodeStrings v with
      | none => none
      | some keyProperties =>
        decodeSchemaRecordMembers rest { sr with KeyProperties := keyProperties }
    else decodeSchemaRecordMembers rest sr

/-- The struct `SchemaRecord` from the members of the line's object, decoded
into `&SchemaRecord{}`. -/
def decodeSchemaRecord (members : GoMap JVal) : Option SchemaRecord :=
  decodeSchemaRecordMembers members ⟨"", "", none, []⟩

/-! ## `parseSchema`, `parseRecord`, `ParseOutput` -/

/-- The errors `parseRecord` returns (lines 104, 109, 114). -/
inductive RecordError where
  | streamMissing
  | recordMissing
  | recordNotObject
  deriving DecidableEq, Repr

/-- The errors `ParseOutput` returns, one per `return nil, ...` of the function. -/
inductive ParseError where
  | unmarshalLine
  | typeMissing
  | schema
  | stateValueMissing
  | record (cause : RecordError)
  | unknownLineType
  | scanner
  deriving DecidableEq, Repr

/-- The function `parseSchema`, on the decoded members of the line.  It
panics when `sr.Schema` is nil (line 128) or inside `parseProperties`. -/
def parseSchema (members : GoMap JVal) : Outcome Unit StreamRepresentation :=
  match decodeSchemaRecord members with
  | none => .error ()
  | some sr =>
    match sr.Schema with
    | none => .panic
    | some schema =>
      match parseProperties "" schema.Properties [] with
      | none => .panic
      | some fields =>
        .ok { BatchHeader := { TableName := sr.Stream, Fields := fields },
              KeyFields := sr.KeyProperties,
              Objects := [] }

/-- The function `parseRecord`. -/
def parseRecord (line : GoMap JVal) : Except RecordError (String × GoMap JVal) :=
  match GoMap.get line "stream" with
  | none => .error .streamMissing
  | some streamName =>
    match GoMap.get line "record" with
    | none => .error .recordMissing
    | some (.obj object) => .ok (JVal.sprint streamName, object)
    | some _ => .error .recordNotObject

/-- The decoding `json.Unmarshal(lineBytes, &lineObject)` into a
`map[string]interface{}` (line 56): `none` is the error; the JSON literal
`null` decodes without error into the nil map. -/
def unmarshalLine : Option JVal → Option (GoMap JVal)
  | some (.obj members) => some members
  | some .null => some []
  | _ => none

/-- The body of the scanning loop of `ParseOutput` (lines 53-90) for one
line, `decoded` being the JSON value of the line's bytes. -/
def processLine (out : OutputRepresentation) (decoded : Option JVal) :
    Outcome ParseError OutputRepresentation :=
  match unmarshalLine decoded with
  | none => .error .unmarshalLine
  | some lineObject =>
    match GoMap.get lineObject "type" with
    | none => .error .typeMissing
    | some objectType =>
      if objectType.isStr "" then .error .typeMissing
      else if objectType.isStr "SCHEMA" then
        match parseSchema lineObject with
        | .error _ => .error .schema
        | .panic => .panic
        | .ok streamRepresentation =>
          .ok { out with
                Streams := out.Streams.set streamRepresentation.BatchHeader.TableName
                  streamRepresentation }
      else if objectType.isStr "STATE" then
        match GoMap.get lineObject "value" with
        | none => .error .stateValueMissing
        | some state => .ok { out with State := state }
      else if objectType.isStr "RECORD" then
        match parseRecord lineObject with
        | .error e => .error (.record e)
        | .ok (tableName, object) =>
          match out.Streams.get tableName with
          | none => .panic
          | some stream =>
            .ok { out with
                  Streams := out.Streams.set tableName
                    { stream with Objects := stream.Objects ++ [object] } }
      else .error .unknownLineType

/-- One token of the `bufio.Scanner`: a line within the 1 MiB limit, given
by the outcome of decoding its bytes as JSON, or a line over the limit, at
which `Scan` stops and `scanner.Err()` is non-nil. -/
inductive Line where
  | text (decoded : Option JVal)
  | tooLong

/-- The loop `for scanner.Scan()` followed by the check of `scanner.Err()`
(lines 52-98). -/
def scanLines : List Line → OutputRepresentation → Outcome ParseError OutputRepresentation
  | [], out => .ok out
  | .tooLong :: _, _ => .error .scanner
  | .text decoded :: rest, out =>
    match processLine out decoded with
    | .ok out' => scanLines rest out'
    | .error e => .error e
    | .panic => .panic

/-- The function `ParseOutput`, on the lines the scanner yields. -/
def ParseOutput (stdout : List Line) : Outcome ParseError OutputRepresentation :=
  scanLines stdout { State := .null, Streams := [] }

end Singer

namespace Bridge

/-! ## Catalog discovery: `Bridge.Discover` in `src/server/singer/bridge.go` -/

/-- Modelled from the spec: the declaration of `RawCatalog` is not under
`src/`.  The spec gives the catalog JSON as an object whose member
`streams` is the list of streams, and `Discover` reads each stream as a
`map[string]interface{}`. -/
structure RawCatalog where
  Streams : List (GoMap JVal)

/-- One element of `Streams`: an object, or `null` for the nil map; `none` is
a decoding error. -/
def decodeStream : JVal → Option (GoMap JVal)
  | .null => some []
  | .obj members => some members
  | _ => none

/-- The elements of `Streams`. -/
def decodeStreams : List JVal → Option (List (GoMap JVal))
  | [] => some []
  | v :: rest =>
    match decodeStream v, decodeStreams rest with
    | some s, some ss => some (s :: ss)
    | _, _ => none

/-- The field `Streams` after a member is assigned to it: `null` sets it to
nil, an array resets it. -/
def decodeStreamsField : JVal → Option (List (GoMap JVal))
  | .null => some []
  | .arr items => decodeStreams items
  | _ => none

/-- The members of the output's object assigned one after the other to the
field `Streams` of the `RawCatalog`; the name of a member may differ in case
from `streams`. -/
def decodeCatalogMembers : List (String × JVal) → RawCatalog → Option RawCatalog
  | [], catalog => some catalog
  | (k, v) :: rest, catalog =>
    if JVal.equalFold "streams" k then
      match decodeStreamsField v with
      | none => none
      | some streams => decodeCatalogMembers rest ⟨streams⟩
    else decodeCatalogMembers rest catalog

/-- The decoding `json.Unmarshal(outWriter.Bytes(), &catalog)` of line 211
into the pointer `catalog`, which points to `&RawCatalog{}`: the outer `none`
is the error, the inner `none` the nil pointer the JSON literal `null` leaves
in `catalog`. -/
def unmarshalCatalog : Option JVal → Option (Option RawCatalog)
  | some .null => some none
  | some (.obj members) =>
    match decodeCatalogMembers members ⟨[]⟩ with
    | some catalog => some (some catalog)
    | none => none
  | _ => none

/-- The errors `Discover` returns, one per `return nil, ...`. -/
inductive DiscoverError where
  | saveConfig
  | execCmd
  | unmarshalCatalog
  | schemaMissing
  | schemaNotObject
  deriving DecidableEq, Repr

/-- Lines 234-243: the body of `for _, metadata := range metadataArray`. -/
def selectMetadata : JVal → JVal
  | .obj metadataObj =>
    match GoMap.get metadataObj "metadata" with
    | some (.obj innerMetadataObj) =>
      .obj (GoMap.set metadataObj "metadata"
        (.obj (GoMap.set innerMetadataObj "selected" (.bool true))))
    | _ => .obj metadataObj
  | metadata => metadata

/-- Lines 229-246: the update of the member `metadata` of a stream. -/
def selectMetadataArray (stream : GoMap JVal) : GoMap JVal :=
  match GoMap.get stream "metadata" with
  | some (.arr metadataArray) =>
    GoMap.set stream "metadata" (.arr (metadataArray.map selectMetadata))
  | _ => stream

/-- Lines 216-246: the body of `for _, stream := range catalog.Streams`. -/
def selectStream (stream : GoMap JVal) : Except DiscoverError (GoMap JVal) :=
  match GoMap.get stream "schema" with
  | none => .error .schemaMissing
  | some (.obj schemaObj) =>
    .ok (selectMetadataArray
      (GoMap.set stream "schema" (.obj (GoMap.set schemaObj "selected" (.bool true)))))
  | some _ => .error .schemaNotObject

/-- Lines 215-247: the loop over the streams of the catalog. -/
def selectStreams : List (GoMap JVal) → Except DiscoverError (List (GoMap JVal))
  | [] => .ok []
  | stream :: rest =>
    match selectStream stream with
    | .error e => .error e
    | .ok stream' =>
      match selectStreams rest with
      | .error e => .error e
      | .ok rest' => .ok (stream' :: rest')

/-- What the environment does during one call of `Discover`: whether
`saveConfig` and the tap's `--discover` process succeed, and the JSON value
of the bytes the process wrote to stdout (`none` when they are not JSON). -/
structure DiscoverRun where
  saveConfigFails : Bool
  execCmdFails : Bool
  stdout : Option JVal

/-- The method `Bridge.Discover`. -/
def Discover (singerConfigPath : String) (run : DiscoverRun) :
    Outcome DiscoverError RawCatalog :=
  if singerConfigPath = "" ∧ run.saveConfigFails = true then .error .saveConfig
  else if run.execCmdFails = true then .error .execCmd
  else
    match unmarshalCatalog run.stdout with
    | none => .error .unmarshalCatalog
    | some none => .panic
    | some (some catalog) =>
      match selectStreams catalog.Streams with
      | .error e => .error e
      | .ok streams => .ok ⟨streams⟩

end Bridge

namespace Singer

/-! ## Inputs and reference definitions used in the statements -/

/-- The property `"a":{"type":"string"}` of the inference example. -/
def exampleA : String × Option Property :=
  ("a", some (.mk (.str "string") "" []))

/-- The property `"b":{"type":["null","integer"]}` of the inference example. -/
def exampleB : String × Option Property :=
  ("b", some (.mk (.arr [.str "null", .str "integer"]) "" []))

/-- The property `"c":{"type":"object","properties":{"d":{"type":"number"}}}`
of the inference example. -/
def exampleC : String × Option Property :=
  ("c", some (.mk (.str "object") "" [("d", some (.mk (.str "number") "" []))]))

/-- The six orders in which a `range` over the example tree can visit its
three properties. -/
def exampleOrders : List (List (String × Option Property)) :=
  [[exampleA, exampleB, exampleC], [exampleA, exampleC, exampleB],
   [exampleB, exampleA, exampleC], [exampleB, exampleC, exampleA],
   [exampleC, exampleA, exampleB], [exampleC, exampleB, exampleA]]

/-- The type names the `switch` of lines 154-176 has a case for, `"null"`
apart. -/
def recognizedTypes : List String :=
  ["string", "number", "integer", "boolean", "array", "object"]

/-- The candidate that decides a property, in the words of the
specification: `"null"` candidates and unrecognized candidates are skipped,
and the first remaining candidate in declaration order is taken. -/
def firstRecognized : List String → Option String
  | [] => none
  | t :: candidates =>
    if t = "null" then firstRecognized candidates
    else if t ∈ recognizedTypes then some t
    else firstRecognized candidates

/-- A SCHEMA line: a JSON object whose `type` is `"SCHEMA"` and that decodes
into a `SchemaRecord` with the given stream name, property tree and key
properties. -/
def IsSchemaLine (line : Line) (stream : String)
    (properties : List (String × Option Property)) (keyProperties : List String) : Prop :=
  ∃ members sr, line = .text (some (.obj members)) ∧
    GoMap.get members "type" = some (.str "SCHEMA") ∧
    decodeSchemaRecord members = some sr ∧
    sr.Stream = stream ∧ sr.Schema = some ⟨properties⟩ ∧ sr.KeyProperties = keyProperties

/-- A SCHEMA line that decodes into a `SchemaRecord` with the given stream
name, whatever else it holds. -/
def DeclaresStream (line : Line) (stream : String) : Prop :=
  ∃ members sr, line = .text (some (.obj members)) ∧
    GoMap.get members "type" = some (.str "SCHEMA") ∧
    decodeSchemaRecord members = some sr ∧ sr.Stream = stream

/-- A RECORD line: a JSON object whose `type` is `"RECORD"`, whose `stream`
prints as the given stream name and whose `record` is the given JSON
object. -/
def IsRecordLine (line : Line) (stream : String) (record : GoMap JVal) : Prop :=
  ∃ members streamName, line = .text (some (.obj members)) ∧
    GoMap.get members "type" = some (.str "RECORD") ∧
    GoMap.get members "stream" = some streamName ∧
    JVal.sprint streamName = stream ∧
    GoMap.get members "record" = some (.obj record)

/-- The `value` member of a line that is a STATE line, `none` for any other
line. -/
def stateValue : Line → Option JVal
  | .text (some (.obj members)) =>
    match GoMap.get members "type" with
    | some (.str t) => if t = "STATE" then GoMap.get members "value" else none
    | _ => none
  | _ => none

/-- The checkpoint in the words of the specification: the `value` of the last
STATE line of the input, nil when there is none. -/
def lastStateValue (lines : List Line) : JVal :=
  ((lines.filterMap stateValue).getLast?).getD .null

/-- A line the protocol rejects: its bytes are not a JSON object, or the
object has no `type`, or its `type` is none of `"SCHEMA"`, `"STATE"`,
`"RECORD"` (the empty string included). -/
def BadLine (decoded : Option JVal) : Prop :=
  match decoded with
  | some (.obj members) =>
    match GoMap.get members "type" with
    | none => True
    | some objectType =>
      objectType ≠ .str "SCHEMA" ∧ objectType ≠ .str "STATE" ∧ objectType ≠ .str "RECORD"
  | _ => True

/-- A STATE line: a JSON object whose `type` is `"STATE"`. -/
def IsStateLine (line : Line) : Prop :=
  ∃ members, line = .text (some (.obj members)) ∧
    GoMap.get members "type" = some (.str "STATE")

/-- The line `{"type":"SCHEMA","stream":"s","schema":{"properties":{<name>:{"type":<type>}}},"key_properties":[<name>]}`. -/
def exampleSchemaLine (name type : String) : Line :=
  .text (some (.obj
    [("type", .str "SCHEMA"), ("stream", .str "s"),
     ("schema", .obj [("properties", .obj [(name, .obj [("type", .str type)])])]),
     ("key_properties", .arr [.str name])]))

/-- The line `{"type":"RECORD","stream":"s","record":{"a":<value>}}`. -/
def exampleRecordLine (value : String) : Line :=
  .text (some (.obj
    [("type", .str "RECORD"), ("stream", .str "s"), ("record", .obj [("a", .str value)])]))

/-- The line `{"type":"STATE","value":<value>}`. -/
def exampleStateLine (value : String) : Line :=
  .text (some (.obj [("type", .str "STATE"), ("value", .str value)]))

end Singer

namespace Singer

/-! ## Reference definitions used in the statements about type inference -/

/-- The canonical type of a declared non-object type, in the words of the
specification: TIMESTAMP for `"string"` with format `"date-time"`, STRING for
`"string"` with any other format, FLOAT64 for `"number"`, INT64 for
`"integer"`, BOOL for `"boolean"`, STRING for `"array"`. -/
def canonicalTypes (format : String) : List (String × DataType) :=
  [("string", if format = "date-time" then .TIMESTAMP else .STRING),
   ("number", .FLOAT64), ("integer", .INT64), ("boolean", .BOOL), ("array", .STRING)]

mutual
/-- No property in the tree under this property is `null` (a nil
`*Property`). -/
def NoNilProperty : Property → Prop
  | .mk _ _ properties => NoNilProperties properties
/-- None of these properties, and no property in the trees under them, is
`null`. -/
def NoNilProperties : List (String × Option Property) → Prop
  | [] => True
  | (_, none) :: _ => False
  | (_, some property) :: rest => NoNilProperty property ∧ NoNilProperties rest
end

mutual
/-- The names under which a call of `parseProperties` with the given prefix
writes a field (line 178) for these properties: the flattened names of the
properties that have a recognized candidate, in the trees of objects too. -/
def writtenKeys (pfx : String) : List (String × Option Property) → List String
  | [] => []
  | (_, none) :: _ => []
  | (name, some property) :: rest => writtenKeysOf pfx name property ++ writtenKeys pfx rest
/-- The names under which the round of the loop for one property writes a
field. -/
def writtenKeysOf (pfx name : String) : Property → List String
  | .mk type _ properties =>
    match firstRecognized (propertyTypes type) with
    | none => []
    | some t =>
      if t = "object" then writtenKeys (pfx ++ name ++ "_") properties ++ [pfx ++ name]
      else [pfx ++ name]
end

/-- An object property that encloses others, as the call that visits it
finds it: its name and format, and the properties the call visits before it
and after it. -/
structure Enclosing where
  before : List (String × Option Property)
  name : String
  format : String
  after : List (String × Option Property)

/-- The properties `inner` inside a chain of enclosing object properties,
outermost first, each among the properties visited before and after it. -/
def nestUnder : List Enclosing → List (String × Option Property) →
    List (String × Option Property)
  | [], inner => inner
  | e :: path, inner =>
    e.before ++ (e.name, some (.mk (.str "object") e.format (nestUnder path inner))) :: e.after

/-- The prefix of the specification: each enclosing object property's name
followed by `"_"`, appended to the prefix of the outermost call. -/
def prefixAlong (pfx : String) : List Enclosing → String
  | [] => pfx
  | e :: path => prefixAlong (pfx ++ e.name ++ "_") path

/-- At every level of the chain, none of the properties around the enclosing
object is `null`, and none visited after the enclosing object writes a field
named `key`. -/
def SettledAlong (pfx key : String) : List Enclosing → Prop
  | [] => True
  | e :: path =>
    NoNilProperties e.before ∧ NoNilProperties e.after ∧ key ∉ writtenKeys pfx e.after ∧
      SettledAlong (pfx ++ e.name ++ "_") key path

/-- The property `"c":{"type":"object","properties":{"d":{"type":"number"}}}`,
whose nested property has the flattened name `c_d`. -/
def exampleNested : String × Option Property :=
  ("c", some (.mk (.str "object") "" [("d", some (.mk (.str "number") "" []))]))

/-- The property `"c_d":{"type":"string"}`. -/
def exampleFlatString : String × Option Property :=
  ("c_d", some (.mk (.str "string") "" []))

/-- The property `"c_d":{"type":["null","integer"]}`. -/
def exampleFlatCandidates : String × Option Property :=
  ("c_d", some (.mk (.arr [.str "null", .str "integer"]) "" []))

end Singer

namespace Singer

/-- The line `{"type":"SCHEMA","stream":"s"}`, which has no `schema`. -/
def exampleBareSchemaLine : Line :=
  .text (some (.obj [("type", .str "SCHEMA"), ("stream", .str "s")]))

/-- The line `{"type":"SCHEMA","stream":"s","schema":{"properties":{"a":null}}}`. -/
def exampleNullPropertyLine : Line :=
  .text (some (.obj
    [("type", .str "SCHEMA"), ("stream", .str "s"),
     ("schema", .obj [("properties", .obj [("a", .null)])])]))

/-- The line `{"type":"SCHEMA","Stream":"s","SCHEMA":{"Properties":{"a":{"Type":"string"}}},"Key_Properties":["a"]}`,
whose member names differ in case from the names of the struct fields. -/
def exampleCapitalSchemaLine : Line :=
  .text (some (.obj
    [("type", .str "SCHEMA"), ("Stream", .str "s"),
     ("SCHEMA", .obj [("Properties", .obj [("a", .obj [("Type", .str "string")])])]),
     ("Key_Properties", .arr [.str "a"])]))

end Singer

namespace Bridge

/-! ## Reference definitions used in the statements about `Discover` -/

/-- The schema of the stream is an object whose `selected` is `true`. -/
def SchemaSelected (stream : GoMap JVal) : Prop :=
  ∃ schemaObj, GoMap.get stream "schema" = some (.obj schemaObj) ∧
    GoMap.get schemaObj "selected" = some (.bool true)

/-- In every entry of the stream's `metadata` list, the nested `metadata`
object has `selected` equal to `true`. -/
def MetadataSelected (stream : GoMap JVal) : Prop :=
  ∀ metadataArray, GoMap.get stream "metadata" = some (.arr metadataArray) →
    ∀ metadata ∈ metadataArray, ∀ metadataObj innerMetadataObj,
      metadata = .obj metadataObj →
      GoMap.get metadataObj "metadata" = some (.obj innerMetadataObj) →
      GoMap.get innerMetadataObj "selected" = some (.bool true)

/-- A JSON value that is not a stream: neither an object nor `null`. -/
def NotAStream : JVal → Prop
  | .null => False
  | .obj _ => False
  | _ => True

/-- A JSON value that is not a list of streams: neither `null` nor a list, or
a list with an element that is not a stream. -/
def BadStreams : JVal → Prop
  | .null => False
  | .arr items => ∃ item ∈ items, NotAStream item
  | _ => True

/-- A discovery output that is not catalog JSON: bytes that are not JSON, a
JSON value that is neither an object nor `null`, or an object with a member
named `streams`, in any letter case, that is not a list of streams. -/
def NotCatalogJSON (stdout : Option JVal) : Prop :=
  match stdout with
  | none => True
  | some .null => False
  | some (.obj members) =>
    ∃ member ∈ members, JVal.equalFold "streams" member.1 = true ∧ BadStreams member.2
  | some _ => True

/-- The value of the last member of the object that is named `streams`, in
any letter case. -/
def streamsMember : List (String × JVal) → Option JVal
  | [] => none
  | (k, v) :: rest =>
    match streamsMember rest with
    | some w => some w
    | none => if JVal.equalFold "streams" k then some v else none

/-- The stream `{"schema":{"selected":false},"metadata":[{"metadata":{}}]}`
as a tap may emit it. -/
def exampleStreamUnselected : JVal :=
  .obj [("schema", .obj [("selected", .bool false)]),
        ("metadata", .arr [.obj [("metadata", .obj [])]])]

/-- The stream `{"schema":{},"metadata":[{"metadata":{"selected":false}}]}`
as a tap may emit it. -/
def exampleStreamAbsent : JVal :=
  .obj [("schema", .obj []),
        ("metadata", .arr [.obj [("metadata", .obj [("selected", .bool false)])]])]

/-- A run of the discovery process that succeeds and prints the given JSON
value. -/
def exampleRun (stdout : JVal) : DiscoverRun :=
  { saveConfigFails := false, execCmdFails := false, stdout := some stdout }

end Bridge

namespace FirebaseDriver

/-! ## Data model of `src/server/drivers/firebase/firebase.go` -/

/-- A `float64`, given by its 64 bits; the code only copies such values. -/
structure Float64 where
  bits : Nat
  deriving DecidableEq, Repr

/-- The struct `latlng.LatLng` of the geographic point type. -/
structure LatLng where
  Latitude : Float64
  Longitude : Float64
  deriving DecidableEq, Repr

/-- The getter `GetLatitude` of `*latlng.LatLng`, which returns 0 on the nil
pointer. -/
def GetLatitude : Option LatLng → Float64
  | none => ⟨0⟩
  | some v => v.Latitude

/-- The getter `GetLongitude` of `*latlng.LatLng`, which returns 0 on the nil
pointer. -/
def GetLongitude : Option LatLng → Float64
  | none => ⟨0⟩
  | some v => v.Longitude

/-- A value of a document body (`interface{}` in a `map[string]interface{}`
returned by `doc.Data()`): `latLngPtr` is a `*latlng.LatLng`, `latLngVal` a
`latlng.LatLng`, `arr` a `[]interface{}`, `map` a `map[string]interface{}`,
and `other` any Go value of another type (time, bytes, reference). -/
inductive Value where
  | null
  | bool (b : Bool)
  | int (i : Int)
  | float (x : Float64)
  | str (s : String)
  | other (description : String)
  | latLngPtr (v : Option LatLng)
  | latLngVal (v : LatLng)
  | arr (items : List Value)
  | map (fields : List (String × Value))

/-! ## `convertSpecificTypes`

The function ranges over the map it mutates.  The entries of the map when the
loop starts are visited once each, in an order Go leaves unspecified: the list
given to `convertRange` is that order.  An entry the loop creates holds a
`float64`, for which the `switch` has no case, so whether Go visits it does not
matter.  The value the loop reads when it visits a key is the value the map
holds then: it is the value the entry started with, unless an earlier round
wrote a coordinate over it, and then it is a `float64`. -/

mutual
/-- The loop `for name, value := range source` of lines 319-332, over the
entries still to visit, with the map as it stands. -/
def convertRange : List (String × Value) → GoMap Value → GoMap Value
  | [], source => source
  | (name, value) :: rest, source =>
    convertRange rest
      (match GoMap.get source name with
       | some (.float _) => source
       | _ => convertCase value name source)
/-- The `switch v := value.(type)` of lines 320-331 for one entry. -/
def convertCase : Value → String → GoMap Value → GoMap Value
  | .latLngPtr v, name, source =>
    GoMap.delete
      (GoMap.set (GoMap.set source (name ++ ".latitude") (.float (GetLatitude v)))
        (name ++ ".longitude") (.float (GetLongitude v)))
      name
  | .latLngVal v, name, source =>
    GoMap.delete
      (GoMap.set (GoMap.set source (name ++ ".latitude") (.float v.Latitude))
        (name ++ ".longitude") (.float v.Longitude))
      name
  | .map fields, name, source => GoMap.set source name (.map (convertRange fields fields))
  | _, _, source => source
end

/-- The function `convertSpecificTypes`, the entries of `source` being listed
in the order the loop visits them. -/
def convertSpecificTypes (source : GoMap Value) : GoMap Value :=
  convertRange source source

end FirebaseDriver

namespace FirebaseDriver

/-! ## Reference definitions used in the statements about `convertSpecificTypes` -/

mutual
/-- No geographic point is the value of a field of this value's map, or of a
map nested in it through fields; arrays are not looked into. -/
def NoLatLngValue : Value → Prop
  | .latLngPtr _ => False
  | .latLngVal _ => False
  | .map fields => NoLatLngFields fields
  | _ => True
/-- No geographic point is the value of one of these fields, or of a field of
a map nested in them. -/
def NoLatLngFields : List (String × Value) → Prop
  | [] => True
  | (_, value) :: rest => NoLatLngValue value ∧ NoLatLngFields rest
end

mutual
/-- Every map in the value, nested through fields, has each key once, as a
Go map does. -/
def UniqueKeysValue : Value → Prop
  | .map fields => UniqueKeys fields
  | _ => True
/-- The fields have each key once, and so has every map nested in them. -/
def UniqueKeys : List (String × Value) → Prop
  | [] => True
  | (name, value) :: rest =>
    name ∉ GoMap.keys rest ∧ UniqueKeysValue value ∧ UniqueKeys rest
end

/-- The value is a geographic point, a `*latlng.LatLng` or a `latlng.LatLng`. -/
def IsPoint : Value → Prop
  | .latLngPtr _ => True
  | .latLngVal _ => True
  | _ => False

/-- The value is neither a geographic point nor a map: a scalar, a value of
another type, or an array. -/
def IsPlain : Value → Prop
  | .latLngPtr _ => False
  | .latLngVal _ => False
  | .map _ => False
  | _ => True

/-- No field of the map is named so that its coordinates would be written
under `name`. -/
def NoCollision (source : GoMap Value) (name : String) : Prop :=
  ∀ k ∈ GoMap.keys source, k ++ ".latitude" ≠ name ∧ k ++ ".longitude" ≠ name

/-- A document body with a point in a field, a point in a nested map and a
point inside an array. -/
def exampleBody : GoMap Value :=
  [("home", .latLngPtr (some ⟨⟨1⟩, ⟨2⟩⟩)),
   ("office", .map [("gate", .latLngVal ⟨⟨3⟩, ⟨4⟩⟩)]),
   ("track", .arr [.latLngPtr (some ⟨⟨5⟩, ⟨6⟩⟩)])]

end FirebaseDriver

namespace Lifecycle

/-! ## Tap lifecycle: `Init`, `IsTapReady`, `ensureTap` in `src/server/singer/bridge.go`

The two `sync.Map` sets are maps from the tap name to the stored `1`; their
methods `Load`, `Store`, `LoadOrStore` and `Delete` are atomic.  The error map
is read and written under the mutex.  The fields `mutex`, `TmpDir` and
`LogWriter` play no part in the lifecycle and are left out. -/

/-- The errors of `installTap`, by the step that failed, with the error of the
command. -/
inductive InstallError where
  | createVenv (cause : String)
  | updatePip (cause : String)
  | installTap (cause : String)
  deriving DecidableEq, Repr

/-- The method `installTap`: the three commands in turn, each given by the
error `runner.ExecCmd` returns for it (`none` when it succeeds). -/
def installTap (createVenv updatePip install : Option String) : Option InstallError :=
  match createVenv with
  | some cause => some (.createVenv cause)
  | none =>
    match updatePip with
    | some cause => some (.updatePip cause)
    | none =>
      match install with
      | some cause => some (.installTap cause)
      | none => none

/-- The struct `Bridge`. -/
structure Bridge where
  PythonExecPath : String
  VenvDir : String
  installTaps : Bool
  updateTaps : Bool
  installedTaps : GoMap Nat
  installInProgressTaps : GoMap Nat
  installErrorsByTap : GoMap InstallError

/-- The errors of `Init`: `pythonExecPathEmpty` is
"Singer bridge python exec path can't be empty" (line 42) and `venvDirEmpty`
is "Singer bridge venv dir can't be empty" (line 46). -/
inductive InitError where
  | pythonExecPathEmpty
  | venvDirEmpty
  deriving DecidableEq, Repr

/-- The white space of `unicode.IsSpace`. -/
def isSpace (c : Char) : Bool :=
  let n := c.toNat
  (9 ≤ n && n ≤ 13) || n = 32 || n = 133 || n = 160 || n = 5760 ||
    (8192 ≤ n && n ≤ 8202) || n = 8232 || n = 8233 || n = 8239 || n = 8287 || n = 12288

/-- The function `strings.TrimSpace`. -/
def TrimSpace (s : String) : String :=
  ⟨((s.data.dropWhile isSpace).reverse.dropWhile isSpace).reverse⟩

/-- The test `strings.HasPrefix(f.Name(), "tap-")` of line 59. -/
def isTapName (name : String) : Bool :=
  "tap-".data.isPrefixOf name.data

/-- Lines 58-62: the loop over the entries of the venv directory, each given
by its name and whether it is a directory. -/
def loadInstalled : List (String × Bool) → GoMap Nat → GoMap Nat
  | [], installedTaps => installedTaps
  | (name, isDir) :: files, installedTaps =>
    if isDir && isTapName name then loadInstalled files (installedTaps.set (TrimSpace name) 1)
    else loadInstalled files installedTaps

/-- Lines 53-63: the installed set `Init` starts with; a failed `ReadDir`
leaves it empty. -/
def scanVenvDir : Option (List (String × Bool)) → GoMap Nat
  | some files => loadInstalled files []
  | none => []

/-- The function `Init`; `readDir` is what `ioutil.ReadDir(venvDir)` returns,
`none` when it fails.  The result is the bridge stored in `Instance`. -/
def Init (pythonExecPath venvDir : String) (installTaps updateTaps : Bool)
    (readDir : Option (List (String × Bool))) : Except InitError Bridge :=
  if pythonExecPath = "" then .error .pythonExecPathEmpty
  else if pythonExecPath = "" then .error .venvDirEmpty
  else
    .ok { PythonExecPath := pythonExecPath,
          VenvDir := venvDir,
          installTaps := installTaps,
          updateTaps := updateTaps,
          installedTaps := scanVenvDir readDir,
          installInProgressTaps := [],
          installErrorsByTap := [] }

/-- The method `ensureTap` up to the start of the goroutine: the bridge after
the call, and whether `safego.Run` started an installer. -/
def ensureTap (b : Bridge) (tap : String) : Bridge × Bool :=
  if b.installTaps then
    match b.installedTaps.get tap with
    | some _ => (b, false)
    | none =>
      match b.installInProgressTaps.get tap with
      | some _ => (b, false)
      | none => ({ b with installInProgressTaps := b.installInProgressTaps.set tap 1 }, true)
  else ({ b with installedTaps := b.installedTaps.set tap 1 }, false)

/-- What a call of `IsTapReady` returns and does. -/
structure ReadyResult where
  ready : Bool
  err : Option InstallError
  bridge : Bridge
  installerStarted : Bool

/-- The method `IsTapReady`, run without another goroutine in between. -/
def IsTapReady (b : Bridge) (tap : String) : ReadyResult :=
  match b.installedTaps.get tap with
  | some _ => ⟨true, none, b, false⟩
  | none =>
    ⟨false, (ensureTap b tap).1.installErrorsByTap.get tap, (ensureTap b tap).1,
      (ensureTap b tap).2⟩

/-- The body of the goroutine `ensureTap` starts (lines 118-132), run without
another goroutine in between, `err` being what `installTap` returned. -/
def installerBody (b : Bridge) (tap : String) (err : Option InstallError) : Bridge :=
  match err with
  | some e =>
    { b with
      installErrorsByTap := b.installErrorsByTap.set tap e,
      installInProgressTaps := b.installInProgressTaps.delete tap }
  | none =>
    { b with
      installErrorsByTap := b.installErrorsByTap.delete tap,
      installedTaps := b.installedTaps.set tap 1,
      installInProgressTaps := b.installInProgressTaps.delete tap }

/-- The bridges that calls of `IsTapReady` and the completions of the
installers they started lead to, from a bridge `Init` created, each call and
each completion running without another in between. -/
inductive Reachable (installTaps : Bool) : Bridge → Prop where
  | init (pythonExecPath venvDir : String) (updateTaps : Bool)
      (readDir : Option (List (String × Bool))) (b : Bridge) :
      Init pythonExecPath venvDir installTaps updateTaps readDir = .ok b →
      Reachable installTaps b
  | call (b : Bridge) (tap : String) :
      Reachable installTaps b → Reachable installTaps (IsTapReady b tap).bridge
  | completion (b : Bridge) (tap : String) (err : Option InstallError) :
      Reachable installTaps b → b.installInProgressTaps.get tap ≠ none →
      Reachable installTaps (installerBody b tap err)

/-- The bridge after calls of `IsTapReady` for the given taps, one after the
other. -/
def afterCalls (b : Bridge) : List String → Bridge
  | [] => b
  | tap :: taps => afterCalls (IsTapReady b tap).bridge taps

/-- A bridge with installs enabled on which `tap-github` is installed. -/
def exampleBridge : Bridge :=
  { PythonExecPath := "python3", VenvDir := "/venv", installTaps := true,
    updateTaps := false, installedTaps := [("tap-github", 1)],
    installInProgressTaps := [], installErrorsByTap := [] }

end Lifecycle

namespace Lifecycle

/-- The bridge `Init("python3", "/venv", installTaps, false, ...)` creates
when the venv directory cannot be read. -/
def exampleFresh (installTaps : Bool) : Bridge :=
  { PythonExecPath := "python3", VenvDir := "/venv", installTaps := installTaps,
    updateTaps := false, installedTaps := [],
    installInProgressTaps := [], installErrorsByTap := [] }

end Lifecycle

namespace Lifecycle

/-! ## Concurrent readiness checks

Each goroutine advances by atomic steps: a `sync.Map` method, or a section of
the error map under the mutex.  A caller of `IsTapReady` and the installer
goroutine are given by the line they are about to run; any number of them
run interleaved, in any order. -/

/-- Where a call `IsTapReady(tap)` stands: about to run line 83 (`Load` of
the installed set), lines 104-106 (in `ensureTap`, the flag and the second
`Load`), line 112 (`LoadOrStore` on the in-flight set), line 117 (start of
the goroutine, the claim held), lines 90-92 (read of the error map), or
returned. -/
inductive Caller where
  | line83
  | line104
  | line112
  | line117
  | line90
  | returned (ready : Bool) (err : Option InstallError)
  deriving DecidableEq, Repr

/-- Where an installer goroutine stands: in `installTap` (line 120), about to
record the error (lines 123-125), about to clear the error (lines 129-131),
about to `Store` the tap as installed (line 132), about to run the deferred
`Delete` of the in-flight claim (line 118), or ended. -/
inductive Installer where
  | line120
  | line123 (err : InstallError)
  | line129
  | line132
  | line118
  | done
  deriving DecidableEq, Repr

/-- One atomic step of a caller: the bridge and the caller after it, and
whether the step started an installer goroutine. -/
def callerStep (tap : String) (b : Bridge) : Caller → Bridge × Caller × Bool
  | .line83 =>
    match b.installedTaps.get tap with
    | some _ => (b, .returned true none, false)
    | none => (b, .line104, false)
  | .line104 =>
    if b.installTaps then
      match b.installedTaps.get tap with
      | some _ => (b, .line90, false)
      | none => (b, .line112, false)
    else ({ b with installedTaps := b.installedTaps.set tap 1 }, .line90, false)
  | .line112 =>
    match b.installInProgressTaps.get tap with
    | some _ => (b, .line90, false)
    | none =>
      ({ b with installInProgressTaps := b.installInProgressTaps.set tap 1 }, .line117, false)
  | .line117 => (b, .line90, true)
  | .line90 => (b, .returned false (b.installErrorsByTap.get tap), false)
  | .returned ready err => (b, .returned ready err, false)

/-- One atomic step of an installer; `outcome` is what `installTap` returns,
read when the installer is in `installTap`. -/
def installerStep (tap : String) (b : Bridge) (outcome : Option InstallError) :
    Installer → Bridge × Installer
  | .line120 =>
    match outcome with
    | some e => (b, .line123 e)
    | none => (b, .line129)
  | .line123 e => ({ b with installErrorsByTap := b.installErrorsByTap.set tap e }, .line118)
  | .line129 => ({ b with installErrorsByTap := b.installErrorsByTap.delete tap }, .line132)
  | .line132 => ({ b with installedTaps := b.installedTaps.set tap 1 }, .line118)
  | .line118 =>
    ({ b with installInProgressTaps := b.installInProgressTaps.delete tap }, .done)
  | .done => (b, .done)

/-- The bridge with the callers of `IsTapReady(tap)` and the installers they
started so far. -/
structure System where
  bridge : Bridge
  callers : List Caller
  installers : List Installer

/-- The choice of the scheduler: the goroutine that runs its next step. -/
inductive Move where
  | caller (i : Nat)
  | installer (i : Nat) (outcome : Option InstallError)

/-- One step of the system. -/
def move (tap : String) (s : System) : Move → System
  | .caller i =>
    match s.callers[i]? with
    | none => s
    | some c =>
      { bridge := (callerStep tap s.bridge c).1,
        callers := s.callers.set i (callerStep tap s.bridge c).2.1,
        installers :=
          if (callerStep tap s.bridge c).2.2 then s.installers ++ [.line120]
          else s.installers }
  | .installer i outcome =>
    match s.installers[i]? with
    | none => s
    | some x =>
      { bridge := (installerStep tap s.bridge outcome x).1,
        callers := s.callers,
        installers := s.installers.set i (installerStep tap s.bridge outcome x).2 }

/-- The system after the moves of a schedule. -/
def run (tap : String) (s : System) : List Move → System
  | [] => s
  | m :: schedule => run tap (move tap s m) schedule

/-- The system when `n` callers enter `IsTapReady(tap)` at once. -/
def start (b : Bridge) (n : Nat) : System :=
  { bridge := b, callers := List.replicate n .line83, installers := [] }

/-- The caller holds the in-flight claim and has not started its installer
yet. -/
def Caller.claimed : Caller → Bool
  | .line117 => true
  | _ => false

/-- The installer has not ended: its install is in flight. -/
def Installer.inFlight : Installer → Bool
  | .done => false
  | _ => true

/-- A schedule of two callers in which the installer is started twice: both
callers pass the installed checks, the first claims the tap, starts an
installer and returns, the installer succeeds and ends, and then the second
caller claims the tap and starts another installer. -/
def raceSchedule : List Move :=
  [.caller 0, .caller 1, .caller 1, .caller 0, .caller 0, .caller 0, .caller 0,
   .installer 0 none, .installer 0 none, .installer 0 none, .installer 0 none,
   .caller 1, .caller 1]

/-- The schedule `raceSchedule` followed by the second installer, whose
`installTap` fails: it records the error and releases its claim. -/
def lateFailureSchedule : List Move :=
  raceSchedule ++
    [.installer 1 (some (.installTap "exit status 1")),
     .installer 1 (some (.installTap "exit status 1")),
     .installer 1 (some (.installTap "exit status 1"))]

end Lifecycle

namespace Lifecycle

/-- The number of in-flight claims that goroutines hold: the callers that
claimed the tap and have not started their installer yet, and the installers
that have not ended. -/
def holders (s : System) : Nat :=
  s.callers.countP Caller.claimed + s.installers.countP Installer.inFlight

/-- The holders of the claim are as many as the in-flight set says: one when
the tap is in the set, none when it is not. -/
def ClaimHeldOnce (tap : String) (s : System) : Prop :=
  holders s = if s.bridge.installInProgressTaps.get tap = none then 0 else 1

end Lifecycle

namespace FirebaseDriver

/-! ## The Firestore traversal: `loadCollection`, `diveAndFetch`

The backing service is given by what its client returns: a collection
reference for a path, the sub-collection reference of a document, and the
documents of a collection in the order of its queries.  The content does not
change during a traversal.  A query `Offset(o).Limit(batchSize)` iterates over
the `batchSize` documents from position `o` on; an `Item` that is a failure
makes `iter.Next()` return that error when the iterator reaches it. -/

/-- The constant `batchSize`. -/
def batchSize : Nat := 100

/-- The constant `firestoreDocumentIDField`. -/
def firestoreDocumentIDField : String := "_firestore_document_id"

/-- The constant `FirestoreCollection`. -/
def FirestoreCollection : String := "firestore"

/-- The constant `UsersCollection`. -/
def UsersCollection : String := "users"

/-- The constant `userIDField`. -/
def userIDField : String := "uid"

/-- A `*firestore.CollectionRef`, given by the path of the collection. -/
abbrev CollectionRef := List String

/-- What `iter.Next()` returns at a position of a collection: a document, with
its `Ref.ID` and its `Data()` (`none` for nil), or an error. -/
inductive Item where
  | doc (ID : String) (Data : Option (GoMap Value))
  | fail (err : String)

/-- The Firestore client. -/
structure Firestore where
  Collection : String → Option CollectionRef
  SubCollection : CollectionRef → String → String → Option CollectionRef
  Documents : CollectionRef → List Item

/-- The documents the query `Offset(offset).Limit(batchSize)` iterates
over. -/
def page (docs : List Item) (offset : Nat) : List Item :=
  (docs.drop offset).take batchSize

/-- The struct `subCollectionResult`. -/
structure subCollectionResult where
  objects : List (GoMap Value)

/-- Modelled from the spec: `maputils.CopyMap` is not under `src/`; the spec
has the map copied, never mutated in place, and a copy of a map has the
entries of the map. -/
def CopyMap (m : GoMap Value) : GoMap Value := m

/-- The variables the loop of `diveAndFetch` carries from one document to the
next: the local `parentIDs` and the shared `result`. -/
structure LevelState where
  parentIDs : GoMap Value
  result : subCollectionResult

/-- The loop `for { doc, err := iter.Next() ... }` of lines 215-269 over one
collection, whose documents are `docs`.  `iter` is what the current iterator
still has to return, `visit` is the body of the loop for a document (lines
234-268), and `offsets` records the offsets of the queries made so far. -/
def levelLoop (visit : String → Option (GoMap Value) → LevelState → Except String LevelState)
    (docs : List Item) :
    List Item → Nat → Nat → List Nat → LevelState → Except String (LevelState × List Nat)
  | [], current, batchesCount, offsets, st =>
    if batchSize = current then
      levelLoop visit docs (page docs (batchSize * (batchesCount + 1))) 0 (batchesCount + 1)
        (offsets ++ [batchSize * (batchesCount + 1)]) st
    else .ok (st, offsets)
  | .fail err :: _, _, _, _, _ => .error err
  | .doc id data :: iter, current, batchesCount, offsets, st =>
    match visit id data st with
    | .error err => .error err
    | .ok st' => levelLoop visit docs iter (current + 1) batchesCount offsets st'
termination_by iter current batchesCount =>
  (docs.length - batchSize * batchesCount,
    2 * iter.length + if batchSize = current then 1 else 0)
decreasing_by
  all_goals simp_wf
  · rw [Prod.lex_def]
    by_cases h : batchSize * batchesCount < docs.length
    · left
      simp only [batchSize] at h ⊢
      omega
    · right
      refine ⟨by simp only [batchSize] at h ⊢; omega, ?_⟩
      have hnil : page docs (batchSize * (batchesCount + 1)) = [] := by
        simp only [page, batchSize] at h ⊢
        rw [List.drop_eq_nil_of_le (by omega)]
        rfl
      rename_i hcur
      simp only [hnil]
      rw [if_pos hcur]
      simp [batchSize]
  · rw [Prod.lex_def]
    right
    refine ⟨rfl, ?_⟩
    simp only
    split <;> split <;> omega

end FirebaseDriver

namespace FirebaseDriver

/-- Lines 263-265: the loop `for parentIDKey, parentIDValue := range parentIDs`
that writes the ancestor ids into the record. -/
def mergeParentIDs : List (String × Value) → GoMap Value → GoMap Value
  | [], data => data
  | (parentIDKey, parentIDValue) :: rest, data =>
    mergeParentIDs rest (GoMap.set data parentIDKey parentIDValue)

/-- Lines 254-267: the record of a document at the deepest level. -/
def leafRecord (parentIDs : GoMap Value) (idFieldName id : String) (data : GoMap Value) :
    GoMap Value :=
  mergeParentIDs parentIDs (GoMap.set (convertSpecificTypes data) idFieldName (.str id))

/-- Lines 252-268: the body of the loop for a document when no path segment
remains. -/
def fetchDocument (idFieldName : String) (id : String) (data : Option (GoMap Value))
    (st : LevelState) : Except String LevelState :=
  match data with
  | none => .ok st
  | some data =>
    .ok { st with
          result := ⟨st.result.objects ++ [leafRecord st.parentIDs idFieldName id data]⟩ }

/-- The method `diveAndFetch`, by the remaining path segments `paths`.  It
returns the result, and the offsets of the queries it made on `collection`. -/
def diveAndFetch (fs : Firestore) :
    List String → CollectionRef → GoMap Value → String → subCollectionResult →
      Except String (subCollectionResult × List Nat)
  | [], collection, parentIDs, idFieldName, result =>
    match levelLoop (fetchDocument idFieldName) (fs.Documents collection)
        (page (fs.Documents collection) 0) 0 0 [0] ⟨parentIDs, result⟩ with
    | .error err => .error err
    | .ok (st, offsets) => .ok (st.result, offsets)
  | subCollectionName :: paths, collection, parentIDs, idFieldName, result =>
    match levelLoop
        (fun id _ st =>
          match fs.SubCollection collection id subCollectionName with
          | none => .ok st
          | some subCollection =>
            match diveAndFetch fs paths subCollection
                (GoMap.set (CopyMap st.parentIDs) idFieldName (.str id))
                (idFieldName ++ "_" ++ subCollectionName) st.result with
            | .error err => .error err
            | .ok (result', _) =>
              .ok ⟨GoMap.set (CopyMap st.parentIDs) idFieldName (.str id), result'⟩)
        (fs.Documents collection)
        (page (fs.Documents collection) 0) 0 0 [0] ⟨parentIDs, result⟩ with
    | .error err => .error err
    | .ok (st, offsets) => .ok (st.result, offsets)

/-- The body of the loop of `diveAndFetch` for one document (lines 232-268),
by the remaining path segments: the dive into the sub-collection of the
document, or the fetch of the document when no segment remains. -/
def levelBody (fs : Firestore) (paths : List String) (collection : CollectionRef)
    (idFieldName : String) :
    String → Option (GoMap Value) → LevelState → Except String LevelState :=
  match paths with
  | [] => fetchDocument idFieldName
  | subCollectionName :: paths => fun id _ st =>
    match fs.SubCollection collection id subCollectionName with
    | none => .ok st
    | some subCollection =>
      match diveAndFetch fs paths subCollection
          (GoMap.set (CopyMap st.parentIDs) idFieldName (.str id))
          (idFieldName ++ "_" ++ subCollectionName) st.result with
      | .error err => .error err
      | .ok (result', _) =>
        .ok ⟨GoMap.set (CopyMap st.parentIDs) idFieldName (.str id), result'⟩

/-- The errors of `loadCollection` and `loadUsers`: the error of line 191, or
the error the backing service returned, passed on as it is. -/
inductive LoadError where
  | collectionMissing
  | backend (err : String)
  deriving DecidableEq, Repr

/-- The method `loadCollection`; `firstPathPart` and `collectionPaths` are the
first and the other parts of `strings.Split(f.firestoreCollectionKey, "/*/")`. -/
def loadCollection (fs : Firestore) (firstPathPart : String) (collectionPaths : List String) :
    Except LoadError (List (GoMap Value)) :=
  match fs.Collection firstPathPart with
  | none => .error .collectionMissing
  | some firebaseCollection =>
    match diveAndFetch fs collectionPaths firebaseCollection [] firestoreDocumentIDField
        ⟨[]⟩ with
    | .error err => .error (.backend err)
    | .ok (result, _) => .ok result.objects

/-- The fields of `auth.ExportedUserRecord` that `loadUsers` reads. -/
structure UserRecord where
  Email : String
  UID : String
  PhoneNumber : String
  ProviderIDs : List String
  Disabled : Bool
  CreationTimestamp : Int
  LastLogInTimestamp : Int
  LastRefreshTimestamp : Int

/-- What the iterator of `authClient.Users` returns at a position: a user or
an error; `iterator.Done` is the end of the list. -/
inductive UserItem where
  | user (authUser : UserRecord)
  | fail (err : String)

/-- The method `unixTimestampToISOString`; `ToISOFormat` stands for
`timestamp.ToISOFormat(time.Unix(seconds, 0))`, which is not under `src/`. -/
def unixTimestampToISOString (ToISOFormat : Int → String) (nanoseconds : Int) : String :=
  ToISOFormat (Int.tdiv nanoseconds 1000)

/-- Lines 295-307: the map built for one user. -/
def userObject (ToISOFormat : Int → String) (authUser : UserRecord) : GoMap Value :=
  let user : GoMap Value := []
  let user := GoMap.set user "email" (.str authUser.Email)
  let user := GoMap.set user userIDField (.str authUser.UID)
  let user := GoMap.set user "phone" (.str authUser.PhoneNumber)
  let user := GoMap.set user "sign_in_methods" (.arr (authUser.ProviderIDs.map .str))
  let user := GoMap.set user "disabled" (.bool authUser.Disabled)
  let user := GoMap.set user "created_at"
    (.str (unixTimestampToISOString ToISOFormat authUser.CreationTimestamp))
  let user := GoMap.set user "last_login"
    (.str (unixTimestampToISOString ToISOFormat authUser.LastLogInTimestamp))
  GoMap.set user "last_refresh"
    (.str (unixTimestampToISOString ToISOFormat authUser.LastRefreshTimestamp))

/-- The loop of `loadUsers` (lines 287-309) over what the iterator returns,
with the users collected so far. -/
def loadUsersLoop (ToISOFormat : Int → String) :
    List UserItem → List (GoMap Value) → Except LoadError (List (GoMap Value))
  | [], users => .ok users
  | .fail err :: _, _ => .error (.backend err)
  | .user authUser :: rest, users =>
    loadUsersLoop ToISOFormat rest (users ++ [userObject ToISOFormat authUser])

/-- The method `loadUsers`. -/
def loadUsers (ToISOFormat : Int → String) (iter : List UserItem) :
    Except LoadError (List (GoMap Value)) :=
  loadUsersLoop ToISOFormat iter []

/-- The fields of the struct `Firebase` that `GetObjectsFor` reads: the type
of the collection and the parts of the collection key. -/
structure Firebase where
  collectionType : String
  firstPathPart : String
  collectionPaths : List String

/-- The errors `GetObjectsFor` returns: the error of the load, the error of
the callback, each passed on as it is, or the error of line 180. -/
inductive DriverError where
  | load (err : LoadError)
  | callback (err : String)
  | unknownStreamType
  deriving DecidableEq, Repr

/-- One call of the callback `objectsLoader(objects, pos, total, percent)`. -/
structure LoaderCall where
  objects : List (GoMap Value)
  pos : Int
  total : Int
  percent : Int

/-- Lines 172 and 178: the call of the callback and the return of its
result. -/
def deliver (objectsLoader : List (GoMap Value) → Int → Int → Int → Option String)
    (array : List (GoMap Value)) : List LoaderCall × Option DriverError :=
  ([⟨array, 0, array.length, 0⟩],
    (objectsLoader array 0 array.length 0).map DriverError.callback)

/-- The method `GetObjectsFor`: the calls of the callback it makes, and the
error it returns (`none` for nil).  `users` is what the iterator of
`authClient.Users` returns. -/
def GetObjectsFor (f : Firebase) (fs : Firestore) (ToISOFormat : Int → String)
    (users : List UserItem)
    (objectsLoader : List (GoMap Value) → Int → Int → Int → Option String) :
    List LoaderCall × Option DriverError :=
  if f.collectionType = FirestoreCollection then
    match loadCollection fs f.firstPathPart f.collectionPaths with
    | .error err => ([], some (.load err))
    | .ok array => deliver objectsLoader array
  else if f.collectionType = UsersCollection then
    match loadUsers ToISOFormat users with
    | .error err => ([], some (.load err))
    | .ok array => deliver objectsLoader array
  else ([], some .unknownStreamType)

end FirebaseDriver

namespace FirebaseDriver

/-! ## Reference definitions used in the statements about the traversal -/

/-- The body of the loop run on each item of a list once, in the order of
the list, until an item or a run fails. -/
def visitAll (visit : String → Option (GoMap Value) → LevelState → Except String LevelState) :
    List Item → LevelState → Except String LevelState
  | [], st => .ok st
  | .fail err :: _, _ => .error err
  | .doc id data :: rest, st =>
    match visit id data st with
    | .error err => .error err
    | .ok st' => visitAll visit rest st'

/-- The offsets 0, 100, 200, ... up to the first one at which fewer than
`batchSize` of `n` documents remain. -/
def pageOffsets (n : Nat) : List Nat :=
  (List.range (n / batchSize + 1)).map (· * batchSize)

end FirebaseDriver

namespace FirebaseDriver

/-- A store with the collection `A` of 150 documents `0`, ..., `149`, none of
which has a sub-collection with documents. -/
def exampleStore : Firestore :=
  { Collection := fun path => some [path],
    SubCollection := fun collection id name => some (collection ++ [id, name]),
    Documents := fun collection =>
      if collection = ["A"] then (List.range 150).map fun i => .doc (toString i) (some [])
      else [] }

end FirebaseDriver

namespace FirebaseDriver

/-- The leaf of an item at the deepest level: a document that has data. -/
def leafOfItem : Item → Option (List String × String × GoMap Value)
  | .doc id (some data) => some ([], id, data)
  | _ => none

/-- The leaf documents the path `paths` reaches from a collection, each with
the ids of its own ancestors, outermost first, its id and its data. -/
def reachedLeaves (fs : Firestore) :
    List String → CollectionRef → List (List String × String × GoMap Value)
  | [], collection => (fs.Documents collection).filterMap leafOfItem
  | subCollectionName :: paths, collection =>
    (fs.Documents collection).flatMap fun item =>
      match item with
      | .doc id _ =>
        match fs.SubCollection collection id subCollectionName with
        | none => []
        | some subCollection =>
          (reachedLeaves fs paths subCollection).map fun leaf => (id :: leaf.1, leaf.2)
      | .fail _ => []

/-- The names of the id fields of the levels of a path, outermost first:
`idFieldName`, then `idFieldName_S1`, `idFieldName_S1_S2`, ...; the last is
the field of the leaf's own id. -/
def idFieldNames (idFieldName : String) : List String → List String
  | [] => [idFieldName]
  | subCollectionName :: paths =>
    idFieldName :: idFieldNames (idFieldName ++ "_" ++ subCollectionName) paths

/-- The name of the field of the leaf's own id: `idFieldName_S1_..._Sk`. -/
def selfIDField (idFieldName : String) : List String → String
  | [] => idFieldName
  | subCollectionName :: paths => selfIDField (idFieldName ++ "_" ++ subCollectionName) paths

/-- The map `parentIDs` after the ids of the ancestors are written under the
names of their levels. -/
def withAncestors (parentIDs : GoMap Value) : List String → List String → GoMap Value
  | name :: names, id :: ids => withAncestors (GoMap.set parentIDs name (.str id)) names ids
  | _, _ => parentIDs

/-- The record of a reached leaf, for a traversal that starts with the id
field `idFieldName` and the ancestor ids `parentIDs`. -/
def recordOfLeaf (parentIDs : GoMap Value) (idFieldName : String) (paths : List String)
    (leaf : List String × String × GoMap Value) : GoMap Value :=
  leafRecord (withAncestors parentIDs (idFieldNames idFieldName paths) leaf.1)
    (selfIDField idFieldName paths) leaf.2.1 leaf.2.2

/-- No query of the store fails. -/
def NoFailure (fs : Firestore) : Prop :=
  ∀ collection, ∀ item ∈ fs.Documents collection, ∃ id data, item = .doc id data

/-- A store with the collection `A` of the documents `a1` and `a2`, each with
one document in its sub-collection `B`; the document `b1` has a field named
as the id field of its parent. -/
def exampleTree : Firestore :=
  { Collection := fun path => some [path],
    SubCollection := fun collection id name => some (collection ++ [id, name]),
    Documents := fun collection =>
      if collection = ["A"] then [.doc "a1" (some []), .doc "a2" (some [])]
      else if collection = ["A", "a1", "B"] then
        [.doc "b1" (some [("_firestore_document_id", .str "forged")])]
      else if collection = ["A", "a2", "B"] then [.doc "b2" (some [("n", .int 2)])]
      else [] }

end FirebaseDriver

namespace FirebaseDriver

/-- A user of the authentication service. -/
def exampleUser : UserRecord :=
  { Email := "a@example.com", UID := "u1", PhoneNumber := "", ProviderIDs := ["password"],
    Disabled := false, CreationTimestamp := 1000, LastLogInTimestamp := 2000,
    LastRefreshTimestamp := 3000 }

/-- A driver of the users of the authentication service. -/
def exampleUsersDriver : Firebase :=
  { collectionType := UsersCollection, firstPathPart := "", collectionPaths := [] }

end FirebaseDriver

/-! # Theorems -/

/-! ## Properties of maps -/

namespace GoMap

theorem get_set_self {α : Type} (m : GoMap α) (k : String) (v : α) :
    (m.set k v).get k = some v := by
  induction m with
  | nil => simp [set, get]
  | cons e rest ih =>
    obtain ⟨k', v'⟩ := e
    by_cases h : k' = k
    · simp [set, get, h]
    · simp [set, get, h, ih]

theorem get_set_ne {α : Type} (m : GoMap α) (k k' : String) (v : α) (h : k' ≠ k) :
    (m.set k v).get k' = m.get k' := by
  induction m with
  | nil => simp [set, get, Ne.symm h]
  | cons e rest ih =>
    obtain ⟨k₀, v₀⟩ := e
    by_cases h₀ : k₀ = k
    · subst h₀
      simp [set, get, Ne.symm h]
    · by_cases h₁ : k₀ = k'
      · subst h₁
        simp [set, get, h₀]
      · simp [set, get, h₀, h₁, ih]

theorem set_set {α : Type} (m : GoMap α) (k : String) (v v' : α) :
    (m.set k v).set k v' = m.set k v' := by
  induction m with
  | nil => simp [set]
  | cons e rest ih =>
    obtain ⟨k₀, v₀⟩ := e
    by_cases h₀ : k₀ = k
    · simp [set, h₀]
    · simp [set, h₀, ih]

theorem set_of_get {α : Type} (m : GoMap α) (k : String) (v : α) (h : m.get k = some v) :
    m.set k v = m := by
  induction m with
  | nil => simp [get] at h
  | cons e rest ih =>
    obtain ⟨k₀, v₀⟩ := e
    by_cases h₀ : k₀ = k
    · subst h₀
      simp [get] at h
      simp [set, h]
    · simp [get, h₀] at h
      simp [set, h₀, ih h]

end GoMap

namespace Singer

/-! ## Schema type inference -/

/-- The loop over the candidate types does what its first recognized
candidate alone does. -/
theorem parseTypes_firstRecognized (key format : String) (recurse : Fields → Option Fields)
    (types : List String) (fields : Fields) :
    parseTypes key format recurse types fields =
      match firstRecognized types with
      | none => some fields
      | some t => parseTypes key format recurse [t] fields := by
  induction types with
  | nil => simp [parseTypes, firstRecognized]
  | cons t types ih =>
    by_cases h0 : t = "null"
    · simp [parseTypes, firstRecognized, h0, ih]
    · by_cases h1 : t ∈ recognizedTypes
      · simp only [firstRecognized, h0, h1, if_true, if_false]
        simp only [recognizedTypes, List.mem_cons, List.mem_singleton, List.not_mem_nil,
          or_false] at h1
        rcases h1 with h | h | h | h | h | h <;> subst h <;> simp [parseTypes]
      · simp only [firstRecognized, h0, h1, if_false]
        have h1' := h1
        simp only [recognizedTypes, List.mem_cons, List.mem_singleton, List.not_mem_nil,
          or_false, not_or] at h1'
        obtain ⟨a, b, c, d, e, f⟩ := h1'
        simp [parseTypes, h0, a, b, c, d, e, f, ih]

theorem parseProperties_cons (pfx name : String) (type : JVal) (format : String)
    (properties rest : List (String × Option Property)) (fields : Fields) :
    parseProperties pfx ((name, some (.mk type format properties)) :: rest) fields =
      match parseTypes (pfx ++ name) format
          (fun fields => parseProperties (pfx ++ name ++ "_") properties fields)
          (propertyTypes type) fields with
      | none => none
      | some fields' => parseProperties pfx rest fields' := by
  simp [parseProperties, parseProperty]

/-- C1, evaluated on the code: on the example tree
`{"a":{"type":"string"},"b":{"type":["null","integer"]},"c":{"type":"object","properties":{"d":{"type":"number"}}}}`,
in each of the six orders in which the three top-level properties can be
visited, `parseProperties` returns four fields, not three: `a`, `b`, `c_d`,
and a field named `c` that holds the unassigned zero `DataType`.  In general,
for every prefix and every property whose type is `"object"`, the recursive
call on the nested properties is followed by the write of line 178 of a
field named `prefix+name`, with the zero `DataType`. -/
theorem C1_object_property_adds_unassigned_field :
    (exampleOrders.Forall fun properties =>
      ∃ fields, parseProperties "" properties [] = some fields ∧
        fields.length = 4 ∧
        fields.get "a" = some (NewField .STRING) ∧
        fields.get "b" = some (NewField .INT64) ∧
        fields.get "c_d" = some (NewField .FLOAT64) ∧
        fields.get "c" = some (NewField .UNKNOWN)) ∧
    ∀ (pfx name format : String) (properties rest : List (String × Option Property))
      (fields : Fields),
      parseProperties pfx ((name, some (.mk (.str "object") format properties)) :: rest)
          fields =
        match parseProperties (pfx ++ name ++ "_") properties fields with
        | none => none
        | some inner => parseProperties pfx rest (inner.set (pfx ++ name) (NewField .UNKNOWN)) := by
  refine ⟨by decide, ?_⟩
  intro pfx name format properties rest fields
  rw [parseProperties_cons]
  simp only [propertyTypes, parseTypes]
  cases parseProperties (pfx ++ name ++ "_") properties fields <;> simp

/-! ## The fields a call of `parseProperties` returns -/

theorem firstRecognized_mem (types : List String) (t : String)
    (h : firstRecognized types = some t) : t ∈ recognizedTypes := by
  induction types with
  | nil => simp [firstRecognized] at h
  | cons t' types ih =>
    simp only [firstRecognized] at h
    split at h
    · exact ih h
    · split at h
      · rename_i hmem
        injection h with h
        subst h
        exact hmem
      · exact ih h

/-- The loop over the candidates for a single declared non-object type. -/
theorem parseTypes_single (key format : String) (recurse : Fields → Option Fields)
    (t : String) (dt : DataType) (fields : Fields) (ht : (t, dt) ∈ canonicalTypes format) :
    parseTypes key format recurse [t] fields = some (fields.set key (NewField dt)) := by
  simp only [canonicalTypes, List.mem_cons, List.mem_singleton, List.not_mem_nil, or_false,
    Prod.mk.injEq] at ht
  rcases ht with ⟨h1, h2⟩ | ⟨h1, h2⟩ | ⟨h1, h2⟩ | ⟨h1, h2⟩ | ⟨h1, h2⟩ <;> subst h1 <;> subst h2
  · by_cases hf : format = "date-time" <;> simp [parseTypes, hf]
  · simp [parseTypes]
  · simp [parseTypes]
  · simp [parseTypes]
  · simp [parseTypes]

theorem canonicalTypes_ne_object (format t : String) (dt : DataType)
    (ht : (t, dt) ∈ canonicalTypes format) : t ≠ "object" := by
  simp only [canonicalTypes, List.mem_cons, List.mem_singleton, List.not_mem_nil, or_false,
    Prod.mk.injEq] at ht
  rcases ht with ⟨h1, -⟩ | ⟨h1, -⟩ | ⟨h1, -⟩ | ⟨h1, -⟩ | ⟨h1, -⟩ <;> subst h1 <;> decide

/-- What one round of the loop writes: nothing when no candidate is
recognized, the fields of the nested properties and then the property's own
name for an object, the property's own name otherwise. -/
theorem parseTypes_result (key format : String) (recurse : Fields → Option Fields)
    (types : List String) (fields fields' : Fields)
    (h : parseTypes key format recurse types fields = some fields') :
    match firstRecognized types with
    | none => fields' = fields
    | some t =>
      if t = "object" then ∃ inner, recurse fields = some inner ∧
        fields' = inner.set key (NewField .UNKNOWN)
      else ∃ dt, fields' = fields.set key (NewField dt) := by
  rw [parseTypes_firstRecognized] at h
  cases hfirst : firstRecognized types with
  | none =>
    rw [hfirst] at h
    simp only at h ⊢
    injection h with h
    exact h.symm
  | some t =>
    rw [hfirst] at h
    simp only at h ⊢
    have hmem := firstRecognized_mem types t hfirst
    simp only [recognizedTypes, List.mem_cons, List.mem_singleton, List.not_mem_nil,
      or_false] at hmem
    rcases hmem with ht | ht | ht | ht | ht | ht <;> subst ht
    · rw [if_neg (by decide)]
      by_cases hf : format = "date-time"
      · simp [parseTypes, hf] at h
        exact ⟨_, h.symm⟩
      · simp [parseTypes, hf] at h
        exact ⟨_, h.symm⟩
    · simp [parseTypes] at h
      rw [if_neg (by decide)]
      exact ⟨_, h.symm⟩
    · simp [parseTypes] at h
      rw [if_neg (by decide)]
      exact ⟨_, h.symm⟩
    · simp [parseTypes] at h
      rw [if_neg (by decide)]
      exact ⟨_, h.symm⟩
    · simp [parseTypes] at h
      rw [if_neg (by decide)]
      exact ⟨_, h.symm⟩
    · simp only [parseTypes] at h
      rw [if_pos rfl]
      simp at h
      cases hrec : recurse fields with
      | none => simp [hrec] at h
      | some inner =>
        simp [hrec] at h
        exact ⟨inner, rfl, h.symm⟩

theorem parseTypes_total (key format : String) (recurse : Fields → Option Fields)
    (hrec : ∀ fields, ∃ inner, recurse fields = some inner) (types : List String)
    (fields : Fields) :
    ∃ fields', parseTypes key format recurse types fields = some fields' := by
  induction types with
  | nil => exact ⟨fields, rfl⟩
  | cons t types ih =>
    simp only [parseTypes]
    split
    · exact ih
    · split
      · split <;> exact ⟨_, rfl⟩
      · split
        · exact ⟨_, rfl⟩
        · split
          · exact ⟨_, rfl⟩
          · split
            · exact ⟨_, rfl⟩
            · split
              · exact ⟨_, rfl⟩
              · split
                · obtain ⟨inner, hinner⟩ := hrec fields
                  rw [hinner]
                  exact ⟨_, rfl⟩
                · exact ih

/-- A call of `parseProperties` on a tree without a `null` property
returns. -/
theorem parseProperties_total :
    ∀ (properties : List (String × Option Property)) (pfx : String) (fields : Fields),
      NoNilProperties properties → ∃ fields', parseProperties pfx properties fields = some fields'
  | [], pfx, fields, _ => ⟨fields, by simp [parseProperties]⟩
  | (_, none) :: _, _, _, h => by simp [NoNilProperties] at h
  | (name, some (.mk type format properties)) :: rest, pfx, fields, h => by
    simp only [NoNilProperties, NoNilProperty] at h
    rw [parseProperties_cons]
    obtain ⟨mid, hmid⟩ := parseTypes_total (pfx ++ name) format
      (fun fields => parseProperties (pfx ++ name ++ "_") properties fields)
      (fun fields => parseProperties_total properties (pfx ++ name ++ "_") fields h.1)
      (propertyTypes type) fields
    rw [hmid]
    exact parseProperties_total rest pfx mid h.2

/-- A call of `parseProperties` leaves every field as it was, except those
under the names it writes. -/
theorem parseProperties_get_unwritten :
    ∀ (properties : List (String × Option Property)) (pfx : String) (fields fields' : Fields),
      parseProperties pfx properties fields = some fields' →
      ∀ k, k ∉ writtenKeys pfx properties → fields'.get k = fields.get k
  | [], pfx, fields, fields', h, k, _ => by
    simp only [parseProperties] at h
    injection h with h
    rw [h]
  | (_, none) :: _, _, _, _, h, _, _ => by simp [parseProperties] at h
  | (name, some (.mk type format properties)) :: rest, pfx, fields, fields', h, k, hk => by
    rw [parseProperties_cons] at h
    simp only [writtenKeys, writtenKeysOf, List.mem_append, not_or] at hk
    obtain ⟨hk1, hk2⟩ := hk
    split at h
    · cases h
    · rename_i mid hmid
      have hrest := parseProperties_get_unwritten rest pfx mid fields' h k hk2
      rw [hrest]
      have hres := parseTypes_result _ _ _ _ _ _ hmid
      cases hfirst : firstRecognized (propertyTypes type) with
      | none =>
        rw [hfirst] at hres
        simp only at hres
        rw [hres]
      | some t =>
        rw [hfirst] at hres hk1
        simp only at hres hk1
        by_cases hobj : t = "object"
        · rw [if_pos hobj] at hres hk1
          obtain ⟨inner, hinner, heq⟩ := hres
          simp only [List.mem_append, List.mem_singleton, not_or] at hk1
          rw [heq, GoMap.get_set_ne _ _ _ _ hk1.2]
          exact parseProperties_get_unwritten properties (pfx ++ name ++ "_") fields inner
            hinner k hk1.1
        · rw [if_neg hobj] at hres hk1
          obtain ⟨dt, heq⟩ := hres
          simp only [List.mem_singleton] at hk1
          rw [heq, GoMap.get_set_ne _ _ _ _ hk1]

theorem parseProperties_append (pfx : String) (pre post : List (String × Option Property)) :
    ∀ fields : Fields,
      parseProperties pfx (pre ++ post) fields =
        match parseProperties pfx pre fields with
        | none => none
        | some mid => parseProperties pfx post mid := by
  induction pre with
  | nil => intro fields; simp [parseProperties]
  | cons e pre ih =>
    intro fields
    obtain ⟨name, property⟩ := e
    cases property with
    | none => simp [parseProperties]
    | some property =>
      simp only [List.cons_append, parseProperties]
      cases parseProperty pfx name property fields with
      | none => simp
      | some mid => simpa using ih mid

/-- A property whose first recognized candidate is a non-object type ends
with its canonical type in the returned fields, when no property visited
after it writes a field under the same name. -/
theorem parseProperties_decides (pfx name format : String) (type : JVal)
    (pre post properties : List (String × Option Property)) (fields : Fields)
    (t : String) (dt : DataType)
    (hpre : NoNilProperties pre) (hpost : NoNilProperties post)
    (hfirst : firstRecognized (propertyTypes type) = some t)
    (ht : (t, dt) ∈ canonicalTypes format)
    (hlater : pfx ++ name ∉ writtenKeys pfx post) :
    ∃ fields', parseProperties pfx (pre ++ (name, some (.mk type format properties)) :: post)
        fields = some fields' ∧
      fields'.get (pfx ++ name) = some (NewField dt) := by
  obtain ⟨mid, hmid⟩ := parseProperties_total pre pfx fields hpre
  obtain ⟨fields', hfields'⟩ := parseProperties_total post pfx
    (mid.set (pfx ++ name) (NewField dt)) hpost
  refine ⟨fields', ?_, ?_⟩
  · rw [parseProperties_append, hmid]
    simp only
    rw [parseProperties_cons, parseTypes_firstRecognized, hfirst]
    simp only
    rw [parseTypes_single _ _ _ t dt mid ht]
    exact hfields'
  · rw [parseProperties_get_unwritten post pfx _ fields' hfields' _ hlater]
    exact GoMap.get_set_self _ _ _

/-- A property none of whose candidates is recognized adds nothing. -/
theorem parseProperties_skips (pfx name format : String) (type : JVal)
    (pre post properties : List (String × Option Property)) (fields : Fields)
    (hfirst : firstRecognized (propertyTypes type) = none) :
    parseProperties pfx (pre ++ (name, some (.mk type format properties)) :: post) fields =
      parseProperties pfx (pre ++ post) fields := by
  rw [parseProperties_append, parseProperties_append]
  cases parseProperties pfx pre fields with
  | none => rfl
  | some mid =>
    simp only
    rw [parseProperties_cons, parseTypes_firstRecognized, hfirst]

theorem noNilProperties_append (pre post : List (String × Option Property))
    (hpre : NoNilProperties pre) (hpost : NoNilProperties post) :
    NoNilProperties (pre ++ post) := by
  induction pre with
  | nil => exact hpost
  | cons e pre ih =>
    obtain ⟨name, property⟩ := e
    cases property with
    | none => simp [NoNilProperties] at hpre
    | some property =>
      simp only [NoNilProperties] at hpre
      simp only [List.cons_append, NoNilProperties]
      exact ⟨hpre.1, ih hpre.2⟩

/-- C4, refuted as stated: the first recognized candidate of the property
`"c_d":["null","integer"]` is `"integer"`, but when the object property `c`
with the nested property `d` of type `"number"` is visited after it, the
field `c_d` of the returned fields is FLOAT64, not INT64: the flattened name
of the nested property is the same, and its write of line 178 replaces the
field. -/
theorem C4_later_property_overwrites_candidate_type :
    firstRecognized (propertyTypes (.arr [.str "null", .str "integer"])) = some "integer" ∧
    ∃ fields, parseProperties "" [exampleFlatCandidates, exampleNested] [] = some fields ∧
      fields.get "c_d" = some (NewField .FLOAT64) :=
  ⟨rfl, _, rfl, rfl⟩

/-- C4, as the code has it: for a property whose declared type is a list of
candidates, among properties none of which is `null`, the candidates are read
as `fmt.Sprint` prints them, every `"null"` and every unrecognized candidate
is skipped, and the call returns what it returns for the property declared
with the first remaining recognized candidate as its single type, so that
later candidates change nothing.  When that candidate is a non-object type
and no property visited later writes a field under the same name, the
returned fields hold the property's name with the canonical type of that
candidate.  When no candidate is recognized the call returns, with the fields
it returns for the other properties alone.  So `["null","integer"]` gives
INT64 and `["string","integer"]` gives STRING. -/
theorem C4_first_recognized_candidate_decides (pfx name format : String) (items : List JVal)
    (pre post properties : List (String × Option Property)) (fields : Fields)
    (hpre : NoNilProperties pre) (hpost : NoNilProperties post) :
    (parseProperties pfx (pre ++ (name, some (.mk (.arr items) format properties)) :: post)
        fields =
      match firstRecognized (items.map JVal.sprint) with
      | none => parseProperties pfx (pre ++ post) fields
      | some t =>
        parseProperties pfx (pre ++ (name, some (.mk (.str t) format properties)) :: post)
          fields) ∧
    (∀ (t : String) (dt : DataType),
      firstRecognized (items.map JVal.sprint) = some t → (t, dt) ∈ canonicalTypes format →
      pfx ++ name ∉ writtenKeys pfx post →
      ∃ fields', parseProperties pfx
          (pre ++ (name, some (.mk (.arr items) format properties)) :: post) fields =
            some fields' ∧
        fields'.get (pfx ++ name) = some (NewField dt)) ∧
    (firstRecognized (items.map JVal.sprint) = none →
      ∃ fields', parseProperties pfx
          (pre ++ (name, some (.mk (.arr items) format properties)) :: post) fields =
            some fields' ∧
        parseProperties pfx (pre ++ post) fields = some fields') ∧
    parseProperties "" [("x", some (.mk (.arr [.str "null", .str "integer"]) "" []))] [] =
      some [("x", NewField .INT64)] ∧
    parseProperties "" [("x", some (.mk (.arr [.str "string", .str "integer"]) "" []))] [] =
      some [("x", NewField .STRING)] := by
  refine ⟨?_, ?_, ?_, rfl, rfl⟩
  · rw [parseProperties_append]
    cases hfirst : firstRecognized (items.map JVal.sprint) with
    | none =>
      simp only
      rw [parseProperties_append]
      cases parseProperties pfx pre fields with
      | none => rfl
      | some mid =>
        simp only
        rw [parseProperties_cons, parseTypes_firstRecognized]
        simp only [propertyTypes, hfirst]
    | some t =>
      simp only
      rw [parseProperties_append]
      cases parseProperties pfx pre fields with
      | none => rfl
      | some mid =>
        simp only
        rw [parseProperties_cons, parseTypes_firstRecognized, parseProperties_cons]
        simp only [propertyTypes, hfirst]
  · intro t dt hfirst ht hlater
    exact parseProperties_decides pfx name format (.arr items) pre post properties fields t dt
      hpre hpost hfirst ht hlater
  · intro hfirst
    obtain ⟨fields', hfields'⟩ := parseProperties_total (pre ++ post) pfx fields
      (noNilProperties_append pre post hpre hpost)
    refine ⟨fields', ?_, hfields'⟩
    rw [parseProperties_skips pfx name format (.arr items) pre post properties fields hfirst]
    exact hfields'

/-- C4, as the code has it, on the example tree: the property
`"b":["null","integer"]`, visited between `a` and `c`, gives the field `b` of
type INT64. -/
theorem C4_first_recognized_candidate_decides_witness :
    NoNilProperties [exampleA] ∧ NoNilProperties [exampleC] ∧
    ∃ fields', parseProperties ""
        ([exampleA] ++ ("b", some (.mk (.arr [.str "null", .str "integer"]) "" [])) ::
          [exampleC]) [] = some fields' ∧
      fields'.get ("" ++ "b") = some (NewField .INT64) :=
  have hpre : NoNilProperties [exampleA] := by
    simp [NoNilProperties, NoNilProperty, exampleA]
  have hpost : NoNilProperties [exampleC] := by
    simp [NoNilProperties, NoNilProperty, exampleC]
  ⟨hpre, hpost,
   (C4_first_recognized_candidate_decides "" "b" "" [.str "null", .str "integer"]
      [exampleA] [exampleC] [] [] hpre hpost).2.1 "integer" .INT64 rfl
      (by simp [canonicalTypes]) (by decide)⟩

theorem prefixAlong_length (path : List Enclosing) :
    ∀ pfx : String, pfx.length ≤ (prefixAlong pfx path).length := by
  induction path with
  | nil => intro pfx; exact Nat.le_refl _
  | cons e path ih =>
    intro pfx
    have := ih (pfx ++ e.name ++ "_")
    simp only [prefixAlong]
    simp only [String.length_append] at this
    omega

/-- A property whose first recognized candidate is a non-object type, inside
a chain of enclosing object properties, ends with its canonical type in the
fields the outermost call returns, when no property visited after it or after
one of its enclosing objects writes a field under the same name. -/
theorem parseProperties_decides_along (name format : String) (type : JVal)
    (pre post properties : List (String × Option Property)) (t : String) (dt : DataType)
    (hpre : NoNilProperties pre) (hpost : NoNilProperties post)
    (hfirst : firstRecognized (propertyTypes type) = some t)
    (ht : (t, dt) ∈ canonicalTypes format) (path : List Enclosing) :
    ∀ (pfx : String) (fields : Fields),
      SettledAlong pfx (prefixAlong pfx path ++ name) path →
      prefixAlong pfx path ++ name ∉ writtenKeys (prefixAlong pfx path) post →
      ∃ fields', parseProperties pfx
          (nestUnder path (pre ++ (name, some (.mk type format properties)) :: post))
          fields = some fields' ∧
        fields'.get (prefixAlong pfx path ++ name) = some (NewField dt) := by
  induction path with
  | nil =>
    intro pfx fields _ hlater
    exact parseProperties_decides pfx name format type pre post properties fields t dt
      hpre hpost hfirst ht hlater
  | cons e path ih =>
    intro pfx fields hsettled hlater
    simp only [SettledAlong, prefixAlong] at hsettled hlater ⊢
    obtain ⟨hbefore, hafter, hkey, hrest⟩ := hsettled
    obtain ⟨mid, hmid⟩ := parseProperties_total e.before pfx fields hbefore
    obtain ⟨inner, hinner, hget⟩ := ih (pfx ++ e.name ++ "_") mid hrest hlater
    obtain ⟨fields', hfields'⟩ := parseProperties_total e.after pfx
      (inner.set (pfx ++ e.name) (NewField .UNKNOWN)) hafter
    refine ⟨fields', ?_, ?_⟩
    · simp only [nestUnder]
      rw [parseProperties_append, hmid]
      simp only
      rw [parseProperties_cons]
      simp only [propertyTypes, parseTypes]
      rw [hinner]
      exact hfields'
    · rw [parseProperties_get_unwritten e.after pfx _ fields' hfields' _ hkey,
        GoMap.get_set_ne, hget]
      intro heq
      have hlen := congrArg String.length heq
      have hle := prefixAlong_length path (pfx ++ e.name ++ "_")
      simp only [String.length_append] at hlen hle
      have h1 : "_".length = 1 := rfl
      omega

/-- C5, refuted as stated: the top-level property `"c_d"` of type `"string"`
and the property `d` of type `"number"` nested in the object property `c`
have the same flattened name `c_d`, and the returned fields hold one field of
that name: FLOAT64 when `c` is visited last, so that the property of type
`"string"` has no STRING field, and STRING when `c_d` is visited last, so
that the property of type `"number"` has no FLOAT64 field. -/
theorem C5_colliding_names_share_one_field :
    (∃ fields, parseProperties "" [exampleFlatString, exampleNested] [] = some fields ∧
      fields.get "c_d" = some (NewField .FLOAT64)) ∧
    (∃ fields, parseProperties "" [exampleNested, exampleFlatString] [] = some fields ∧
      fields.get ("c" ++ "_" ++ "d") = some (NewField .STRING)) :=
  ⟨⟨_, rfl, rfl⟩, ⟨_, rfl, rfl⟩⟩

/-- C5, as the code has it: a property with a single declared non-object
type, in a tree in which none of the properties around it and around its
enclosing object properties is `null`, is visited by the call whose prefix is
the concatenation of each enclosing object property's name followed by `"_"`;
when no property visited after it, or after one of its enclosing objects,
writes a field under the same name, the outermost call returns, and the
fields it returns hold the prefix followed by the property's name with the
canonical type: TIMESTAMP for `"string"` with format `"date-time"` and STRING
with any other format, FLOAT64 for `"number"`, INT64 for `"integer"`, BOOL
for `"boolean"`, STRING for `"array"` (whose items are not visited). -/
theorem C5_single_type_gives_canonical_field (pfx name format t : String) (dt : DataType)
    (path : List Enclosing) (pre post properties : List (String × Option Property))
    (fields : Fields)
    (hpre : NoNilProperties pre) (hpost : NoNilProperties post)
    (ht : (t, dt) ∈
      [("string", if format = "date-time" then DataType.TIMESTAMP else DataType.STRING),
       ("number", .FLOAT64), ("integer", .INT64), ("boolean", .BOOL), ("array", .STRING)])
    (hsettled : SettledAlong pfx (prefixAlong pfx path ++ name) path)
    (hlater : prefixAlong pfx path ++ name ∉ writtenKeys (prefixAlong pfx path) post) :
    ∃ fields', parseProperties pfx
        (nestUnder path (pre ++ (name, some (.mk (.str t) format properties)) :: post))
        fields = some fields' ∧
      fields'.get (prefixAlong pfx path ++ name) = some (NewField dt) := by
  have hfirst : firstRecognized (propertyTypes (.str t)) = some t := by
    have ht' := ht
    simp only [List.mem_cons, List.mem_singleton, List.not_mem_nil, or_false,
      Prod.mk.injEq] at ht'
    rcases ht' with ⟨h1, -⟩ | ⟨h1, -⟩ | ⟨h1, -⟩ | ⟨h1, -⟩ | ⟨h1, -⟩ <;> subst h1 <;> rfl
  exact parseProperties_decides_along name format (.str t) pre post properties t dt hpre hpost
    hfirst ht path pfx fields hsettled hlater

/-- C5, as the code has it, on a concrete tree: the property `d` of type
`"number"` inside the object property `c`, which is visited between the
properties `a` and `b`, gives the field `c_d` of type FLOAT64. -/
theorem C5_single_type_gives_canonical_field_witness :
    NoNilProperties [("e", some (.mk (.str "boolean") "" []))] ∧
    SettledAlong "" (prefixAlong "" [⟨[exampleA], "c", "", [exampleB]⟩] ++ "d")
      [⟨[exampleA], "c", "", [exampleB]⟩] ∧
    ∃ fields', parseProperties ""
        (nestUnder [⟨[exampleA], "c", "", [exampleB]⟩]
          ([("e", some (.mk (.str "boolean") "" []))] ++
            ("d", some (.mk (.str "number") "" [])) :: [])) [] = some fields' ∧
      fields'.get (prefixAlong "" [⟨[exampleA], "c", "", [exampleB]⟩] ++ "d") =
        some (NewField .FLOAT64) :=
  have hpre : NoNilProperties [("e", some (.mk (.str "boolean") "" []))] := by
    simp [NoNilProperties, NoNilProperty]
  have hsettled : SettledAlong "" (prefixAlong "" [⟨[exampleA], "c", "", [exampleB]⟩] ++ "d")
      [⟨[exampleA], "c", "", [exampleB]⟩] := by
    refine ⟨?_, ?_, ?_, trivial⟩
    · simp [NoNilProperties, NoNilProperty, exampleA]
    · simp [NoNilProperties, NoNilProperty, exampleB]
    · decide
  ⟨hpre, hsettled,
   C5_single_type_gives_canonical_field "" "d" "" "number" .FLOAT64
     [⟨[exampleA], "c", "", [exampleB]⟩]
     [("e", some (.mk (.str "boolean") "" []))] [] [] [] hpre (by simp [NoNilProperties])
     (by simp) hsettled (by simp [writtenKeys])⟩

/-! ## The streaming output parser -/

theorem isStr_iff (v : JVal) (s : String) : v.isStr s = true ↔ v = .str s := by
  cases v <;> simp [JVal.isStr]

theorem scanLines_append (pre post : List Line) :
    ∀ out : OutputRepresentation,
      scanLines (pre ++ post) out =
        match scanLines pre out with
        | .ok out' => scanLines post out'
        | .error e => .error e
        | .panic => .panic := by
  induction pre with
  | nil => intro out; simp [scanLines]
  | cons line pre ih =>
    intro out
    cases line with
    | tooLong => simp [scanLines]
    | text decoded =>
      simp only [List.cons_append, scanLines]
      cases processLine out decoded with
      | ok out' => simpa using ih out'
      | error e => simp
      | panic => simp

/-- What the loop body does on a SCHEMA line. -/
theorem processLine_schema (out : OutputRepresentation) (decoded : Option JVal)
    (stream : String) (properties : List (String × Option Property))
    (keyProperties : List String) (fields : Fields)
    (hline : IsSchemaLine (.text decoded) stream properties keyProperties)
    (hfields : parseProperties "" properties [] = some fields) :
    processLine out decoded =
      .ok { out with
            Streams := out.Streams.set stream
              { BatchHeader := { TableName := stream, Fields := fields },
                KeyFields := keyProperties, Objects := [] } } := by
  obtain ⟨members, sr, hl, htype, hdec, hs, hsch, hk⟩ := hline
  injection hl with hl
  subst hl
  obtain ⟨t, st, sc, ks⟩ := sr
  simp only at hs hsch hk
  subst hs hsch hk
  simp [processLine, unmarshalLine, htype, JVal.isStr, parseSchema, hdec, hfields]

/-- What the loop body does on a RECORD line of a stream that has a
representation. -/
theorem processLine_record (out : OutputRepresentation) (decoded : Option JVal)
    (stream : String) (record : GoMap JVal) (sr : StreamRepresentation)
    (hline : IsRecordLine (.text decoded) stream record)
    (hget : out.Streams.get stream = some sr) :
    processLine out decoded =
      .ok { out with
            Streams := out.Streams.set stream { sr with Objects := sr.Objects ++ [record] } } := by
  obtain ⟨members, streamName, hl, htype, hstream, hsprint, hrecord⟩ := hline
  injection hl with hl
  subst hl
  subst hsprint
  simp [processLine, unmarshalLine, htype, JVal.isStr, parseRecord, hstream, hrecord, hget]

/-- What the loop body does on a RECORD line of a stream that has no
representation: the nil pointer of line 87 is dereferenced. -/
theorem processLine_record_unknown (out : OutputRepresentation) (decoded : Option JVal)
    (stream : String) (record : GoMap JVal)
    (hline : IsRecordLine (.text decoded) stream record)
    (hget : out.Streams.get stream = none) :
    processLine out decoded = .panic := by
  obtain ⟨members, streamName, hl, htype, hstream, hsprint, hrecord⟩ := hline
  injection hl with hl
  subst hl
  subst hsprint
  simp [processLine, unmarshalLine, htype, JVal.isStr, parseRecord, hstream, hrecord, hget]

/-- RECORD lines of one stream are appended to its buffered records in
arrival order. -/
theorem scanLines_records (stream : String) (lines : List Line) :
    ∀ (records : List (GoMap JVal)) (out : OutputRepresentation) (sr : StreamRepresentation),
      List.Forall₂ (fun line record => IsRecordLine line stream record) lines records →
      out.Streams.get stream = some sr →
      scanLines lines out =
        .ok { out with
              Streams := out.Streams.set stream { sr with Objects := sr.Objects ++ records } } := by
  induction lines with
  | nil =>
    intro records out sr hall hget
    cases hall
    simp [scanLines, GoMap.set_of_get _ _ _ hget]
  | cons line lines ih =>
    intro records out sr hall hget
    cases hall with
    | cons hline hrest =>
      rename_i record records
      have hline' := hline
      obtain ⟨members, streamName, hl, -⟩ := hline'
      subst hl
      simp only [scanLines]
      rw [processLine_record out _ stream record sr hline hget]
      simp only
      rw [ih records _ { sr with Objects := sr.Objects ++ [record] } hrest
        (GoMap.get_set_self _ _ _)]
      simp [GoMap.set_set, List.append_assoc]

/-- A SCHEMA line followed by RECORD lines of its stream. -/
theorem scanLines_schema_records (out : OutputRepresentation) (schemaLine : Line)
    (recordLines : List Line) (stream : String)
    (properties : List (String × Option Property)) (keyProperties : List String)
    (fields : Fields) (records : List (GoMap JVal))
    (hschema : IsSchemaLine schemaLine stream properties keyProperties)
    (hfields : parseProperties "" properties [] = some fields)
    (hrecords : List.Forall₂ (fun line record => IsRecordLine line stream record)
      recordLines records) :
    scanLines (schemaLine :: recordLines) out =
      .ok { State := out.State,
            Streams := out.Streams.set stream
              { BatchHeader := { TableName := stream, Fields := fields },
                KeyFields := keyProperties, Objects := records } } := by
  have hschema' := hschema
  obtain ⟨members, sr, hl, -⟩ := hschema'
  subst hl
  simp only [scanLines]
  rw [processLine_schema out _ stream properties keyProperties fields hschema hfields]
  simp only
  rw [scanLines_records stream recordLines records _ _ hrecords (GoMap.get_set_self _ _ _)]
  simp [GoMap.set_set]

/-- A line that is accepted and does not declare the stream leaves the
stream without a representation. -/
theorem processLine_get_none (out out' : OutputRepresentation) (decoded : Option JVal)
    (stream : String)
    (hstep : processLine out decoded = .ok out')
    (hno : ¬ DeclaresStream (.text decoded) stream)
    (hget : out.Streams.get stream = none) :
    out'.Streams.get stream = none := by
  unfold processLine at hstep
  split at hstep
  · cases hstep
  · rename_i lineObject hline
    split at hstep
    · cases hstep
    · rename_i objectType htype
      split at hstep
      · cases hstep
      · split at hstep
        · rename_i hschema
          rw [isStr_iff] at hschema
          subst hschema
          split at hstep
          · cases hstep
          · cases hstep
          · rename_i streamRepresentation hparse
            injection hstep with hstep
            subst hstep
            have hmem : decoded = some (.obj lineObject) := by
              cases decoded with
              | none => simp [unmarshalLine] at hline
              | some v =>
                cases v <;> simp [unmarshalLine] at hline
                · subst hline
                  simp [GoMap.get] at htype
                · subst hline
                  rfl
            have hname : streamRepresentation.BatchHeader.TableName ≠ stream := by
              intro heq
              apply hno
              unfold parseSchema at hparse
              split at hparse
              · cases hparse
              · rename_i sr hdec
                refine ⟨lineObject, sr, by rw [hmem], htype, hdec, ?_⟩
                split at hparse
                · cases hparse
                · split at hparse
                  · cases hparse
                  · injection hparse with hparse
                    subst hparse
                    exact heq
            simp only
            rw [GoMap.get_set_ne _ _ _ _ (Ne.symm hname), hget]
        · split at hstep
          · split at hstep
            · cases hstep
            · injection hstep with hstep
              subst hstep
              exact hget
          · split at hstep
            · split at hstep
              · cases hstep
              · rename_i tableName object hrec
                split at hstep
                · cases hstep
                · rename_i sr hsome
                  injection hstep with hstep
                  subst hstep
                  have hname : stream ≠ tableName := by
                    intro heq
                    subst heq
                    rw [hget] at hsome
                    cases hsome
                  simp only
                  rw [GoMap.get_set_ne _ _ _ _ hname, hget]
            · cases hstep

/-- While no accepted line declares the stream, it has no representation. -/
theorem scanLines_get_none (stream : String) (lines : List Line) :
    ∀ out out' : OutputRepresentation,
      scanLines lines out = .ok out' →
      (∀ line ∈ lines, ¬ DeclaresStream line stream) →
      out.Streams.get stream = none →
      out'.Streams.get stream = none := by
  induction lines with
  | nil =>
    intro out out' h _ hget
    simp only [scanLines] at h
    injection h with h
    subst h
    exact hget
  | cons line lines ih =>
    intro out out' h hno hget
    cases line with
    | tooLong => simp [scanLines] at h
    | text decoded =>
      simp only [scanLines] at h
      split at h
      · rename_i mid hstep
        exact ih mid out' h (fun l hl => hno l (List.mem_cons_of_mem _ hl))
          (processLine_get_none out mid decoded stream hstep
            (hno _ (List.mem_cons_self _ _)) hget)
      · cases h
      · cases h

/-- C2, on the code: when the lines before it are accepted and none of them
is a SCHEMA line whose decoded `SchemaRecord` names the stream, a RECORD line
for that stream makes `ParseOutput` panic (line 87 dereferences the nil
`*StreamRepresentation` that the lookup returns); no error is returned,
whatever lines follow. -/
theorem C2_record_for_unknown_stream_panics (pre post : List Line) (line : Line)
    (out : OutputRepresentation) (stream : String) (record : GoMap JVal)
    (hpre : ParseOutput pre = .ok out)
    (hno : ∀ l ∈ pre, ¬ DeclaresStream l stream)
    (hline : IsRecordLine line stream record) :
    ParseOutput (pre ++ line :: post) = .panic := by
  have hline' := hline
  obtain ⟨members, streamName, hl, -⟩ := hline'
  subst hl
  unfold ParseOutput at hpre ⊢
  rw [scanLines_append, hpre]
  have hget := scanLines_get_none stream pre _ out hpre hno (by simp [GoMap.get])
  simp only [scanLines]
  rw [processLine_record_unknown out _ stream record hline hget]

/-- C2 at a concrete input: a STATE line, then a RECORD line for the stream
`s`, which no SCHEMA line declared. -/
theorem C2_record_for_unknown_stream_panics_witness :
    ParseOutput ([exampleStateLine "1"] ++ exampleRecordLine "x" :: []) = .panic :=
  C2_record_for_unknown_stream_panics [exampleStateLine "1"] [] (exampleRecordLine "x")
    { State := .str "1", Streams := [] } "s" [("a", .str "x")] rfl
    (by
      intro l hl
      simp only [List.mem_singleton] at hl
      subst hl
      rintro ⟨members, sr, hm, htype, -⟩
      simp only [exampleStateLine, Line.text.injEq, Option.some.injEq, JVal.obj.injEq] at hm
      subst hm
      simp [GoMap.get] at htype)
    ⟨_, .str "s", rfl, rfl, rfl, rfl, rfl⟩

/-- C3, refuted as stated: after a SCHEMA line for `s`, a RECORD line for `s`
and a second SCHEMA line for `s`, the stream `s` of the returned output has
the fields and key fields of the second SCHEMA line and no buffered record:
the record that arrived before the second SCHEMA line is gone. -/
theorem C3_second_schema_discards_buffered_records :
    IsRecordLine (exampleRecordLine "x") "s" [("a", .str "x")] ∧
    ∃ out sr,
      ParseOutput [exampleSchemaLine "a" "string", exampleRecordLine "x",
        exampleSchemaLine "b" "integer"] = .ok out ∧
      out.Streams.get "s" = some sr ∧
      sr.BatchHeader.Fields = [("b", NewField .INT64)] ∧
      sr.KeyFields = ["b"] ∧
      sr.Objects = [] :=
  ⟨⟨_, .str "s", rfl, rfl, rfl, rfl, rfl⟩, _, _, rfl, rfl, rfl, rfl, rfl⟩

/-- C3, as the code has it: a SCHEMA line for a stream that has a schema, in
whose property tree no property is `null`, arriving after any accepted lines,
installs a new representation of the stream under its name, with the fields
type inference returns for the property tree of this SCHEMA line and its key
fields; whatever was buffered for the stream before is replaced with it, and
the buffered records of the stream are then exactly the payloads of the
RECORD lines that follow, in arrival order.  The checkpoint and the other
streams are unchanged. -/
theorem C3_schema_line_replaces_stream (pre : List Line) (out : OutputRepresentation)
    (schemaLine : Line) (recordLines : List Line) (stream : String)
    (properties : List (String × Option Property)) (keyProperties : List String)
    (records : List (GoMap JVal))
    (hpre : ParseOutput pre = .ok out)
    (hschema : IsSchemaLine schemaLine stream properties keyProperties)
    (hnonil : NoNilProperties properties)
    (hrecords : List.Forall₂ (fun line record => IsRecordLine line stream record)
      recordLines records) :
    ∃ fields, parseProperties "" properties [] = some fields ∧
      ParseOutput (pre ++ schemaLine :: recordLines) =
        .ok { State := out.State,
              Streams := out.Streams.set stream
                { BatchHeader := { TableName := stream, Fields := fields },
                  KeyFields := keyProperties, Objects := records } } := by
  obtain ⟨fields, hfields⟩ := parseProperties_total properties "" [] hnonil
  refine ⟨fields, hfields, ?_⟩
  unfold ParseOutput at hpre ⊢
  rw [scanLines_append, hpre]
  exact scanLines_schema_records out schemaLine recordLines stream properties keyProperties
    fields records hschema hfields hrecords

/-- C3, as the code has it, at a concrete input: SCHEMA, RECORD, SCHEMA,
RECORD for the stream `s`. -/
theorem C3_schema_line_replaces_stream_witness :
    ∃ fields, parseProperties "" [("b", some (.mk (.str "integer") "" []))] [] = some fields ∧
      ParseOutput ([exampleSchemaLine "a" "string", exampleRecordLine "x"] ++
          exampleSchemaLine "b" "integer" :: [exampleRecordLine "y"]) =
        .ok { State := .null,
              Streams := GoMap.set
                [("s", { BatchHeader := { TableName := "s",
                                          Fields := [("a", NewField .STRING)] },
                         KeyFields := ["a"],
                         Objects := [[("a", .str "x")]] })] "s"
                { BatchHeader := { TableName := "s", Fields := fields },
                  KeyFields := ["b"], Objects := [[("a", .str "y")]] } } :=
  C3_schema_line_replaces_stream [exampleSchemaLine "a" "string", exampleRecordLine "x"]
    { State := .null,
      Streams := [("s", { BatchHeader := { TableName := "s",
                                            Fields := [("a", NewField .STRING)] },
                          KeyFields := ["a"],
                          Objects := [[("a", .str "x")]] })] }
    (exampleSchemaLine "b" "integer") [exampleRecordLine "y"] "s"
    [("b", some (.mk (.str "integer") "" []))] ["b"]
    [[("a", .str "y")]] rfl
    ⟨_, ⟨"SCHEMA", "s", some ⟨[("b", some (.mk (.str "integer") "" []))]⟩, ["b"]⟩,
      rfl, rfl, rfl, rfl, rfl, rfl⟩
    (by simp [NoNilProperties, NoNilProperty])
    (List.Forall₂.cons ⟨_, .str "s", rfl, rfl, rfl, rfl, rfl⟩ List.Forall₂.nil)

/-- A SCHEMA line that decodes without a schema makes the loop body panic:
line 128 reads `sr.Schema.Properties` through the nil pointer. -/
theorem processLine_schema_nil (out : OutputRepresentation) (members : GoMap JVal)
    (sr : SchemaRecord)
    (htype : GoMap.get members "type" = some (.str "SCHEMA"))
    (hdec : decodeSchemaRecord members = some sr) (hnil : sr.Schema = none) :
    processLine out (some (.obj members)) = .panic := by
  simp [processLine, unmarshalLine, htype, JVal.isStr, parseSchema, hdec, hnil]

/-- A SCHEMA line in whose property tree the first property the loop visits
is `null` makes the loop body panic: line 140 reads `property.Type` through
the nil pointer. -/
theorem processLine_schema_nil_property (out : OutputRepresentation) (members : GoMap JVal)
    (sr : SchemaRecord) (name : String) (rest : List (String × Option Property))
    (htype : GoMap.get members "type" = some (.str "SCHEMA"))
    (hdec : decodeSchemaRecord members = some sr)
    (hschema : sr.Schema = some ⟨(name, none) :: rest⟩) :
    processLine out (some (.obj members)) = .panic := by
  simp [processLine, unmarshalLine, htype, JVal.isStr, parseSchema, hdec, hschema,
    parseProperties]

/-- C6, evaluated on the code: `ParseOutput` does not succeed on every SCHEMA
line followed by RECORD lines.  A SCHEMA line for `s` without `schema`
(`{"type":"SCHEMA","stream":"s"}`) makes it panic at line 128, and one with a
`null` property makes it panic at line 140, whatever lines follow.  For a
SCHEMA line for `s` that has a schema in whose property tree no property is
`null`, followed by any number of RECORD lines of `s` whose `record` is a JSON
object, `ParseOutput` succeeds; the output has the single stream `s`, with
table name `s`, the fields `parseProperties` returns for the tree under the
empty prefix, the key fields of `key_properties`, and as buffered records the
RECORD payloads, unchanged and in arrival order. -/
theorem C6_schema_then_records_round_trip :
    ParseOutput [exampleBareSchemaLine, exampleRecordLine "x"] = .panic ∧
    ParseOutput [exampleNullPropertyLine, exampleRecordLine "x"] = .panic ∧
    (∀ (members : GoMap JVal) (sr : SchemaRecord) (post : List Line),
      GoMap.get members "type" = some (.str "SCHEMA") →
      decodeSchemaRecord members = some sr →
      (sr.Schema = none ∨ ∃ name rest, sr.Schema = some ⟨(name, none) :: rest⟩) →
      ParseOutput (.text (some (.obj members)) :: post) = .panic) ∧
    (∀ (schemaLine : Line) (recordLines : List Line) (stream : String)
        (properties : List (String × Option Property)) (keyProperties : List String)
        (records : List (GoMap JVal)),
      IsSchemaLine schemaLine stream properties keyProperties →
      NoNilProperties properties →
      List.Forall₂ (fun line record => IsRecordLine line stream record) recordLines records →
      ∃ fields, parseProperties "" properties [] = some fields ∧
        ParseOutput (schemaLine :: recordLines) =
          .ok { State := .null,
                Streams := [(stream, { BatchHeader := { TableName := stream, Fields := fields },
                                       KeyFields := keyProperties,
                                       Objects := records })] }) := by
  refine ⟨rfl, rfl, ?_, ?_⟩
  · intro members sr post htype hdec hnil
    unfold ParseOutput
    simp only [scanLines]
    rcases hnil with hnil | ⟨name, rest, hnil⟩
    · rw [processLine_schema_nil _ members sr htype hdec hnil]
    · rw [processLine_schema_nil_property _ members sr name rest htype hdec hnil]
  · intro schemaLine recordLines stream properties keyProperties records hschema hnonil
      hrecords
    obtain ⟨fields, hfields⟩ := parseProperties_total properties "" [] hnonil
    refine ⟨fields, hfields, ?_⟩
    unfold ParseOutput
    rw [scanLines_schema_records _ schemaLine recordLines stream properties keyProperties
      fields records hschema hfields hrecords]
    simp [GoMap.set]

/-- C6 at a concrete input on which the round trip holds: a SCHEMA line for
`s` and two RECORD lines. -/
theorem C6_schema_then_records_round_trip_witness :
    ∃ fields, parseProperties "" [("a", some (.mk (.str "string") "" []))] [] = some fields ∧
      ParseOutput (exampleSchemaLine "a" "string" ::
          [exampleRecordLine "x", exampleRecordLine "y"]) =
        .ok { State := .null,
              Streams := [("s", { BatchHeader := { TableName := "s", Fields := fields },
                                  KeyFields := ["a"],
                                  Objects := [[("a", .str "x")], [("a", .str "y")]] })] } :=
  C6_schema_then_records_round_trip.2.2.2 (exampleSchemaLine "a" "string")
    [exampleRecordLine "x", exampleRecordLine "y"] "s"
    [("a", some (.mk (.str "string") "" []))] ["a"]
    [[("a", .str "x")], [("a", .str "y")]]
    ⟨_, ⟨"SCHEMA", "s", some ⟨[("a", some (.mk (.str "string") "" []))]⟩, ["a"]⟩,
      rfl, rfl, rfl, rfl, rfl, rfl⟩
    (by simp [NoNilProperties, NoNilProperty])
    (List.Forall₂.cons ⟨_, .str "s", rfl, rfl, rfl, rfl, rfl⟩
      (List.Forall₂.cons ⟨_, .str "s", rfl, rfl, rfl, rfl, rfl⟩ List.Forall₂.nil))

/-- Member names that differ in case from the names of the struct fields are
decoded into the fields: the stream of the line `exampleCapitalSchemaLine` is
`s`, with the field `a`, and a RECORD line for `s` after it is buffered. -/
theorem parseOutput_capital_member_names :
    ParseOutput [exampleCapitalSchemaLine, exampleRecordLine "x"] =
      .ok { State := .null,
            Streams := [("s", { BatchHeader := { TableName := "s",
                                                  Fields := [("a", NewField .STRING)] },
                                KeyFields := ["a"],
                                Objects := [[("a", .str "x")]] })] } :=
  rfl

/-- A line the loop body accepts is a JSON object. -/
theorem processLine_ok_obj (out out' : OutputRepresentation) (decoded : Option JVal)
    (hstep : processLine out decoded = .ok out') :
    ∃ members, decoded = some (.obj members) := by
  cases decoded with
  | none => simp [processLine, unmarshalLine] at hstep
  | some v =>
    cases v with
    | obj members => exact ⟨members, rfl⟩
    | null => simp [processLine, unmarshalLine, GoMap.get] at hstep
    | bool b => simp [processLine, unmarshalLine] at hstep
    | num t => simp [processLine, unmarshalLine] at hstep
    | str t => simp [processLine, unmarshalLine] at hstep
    | arr items => simp [processLine, unmarshalLine] at hstep

/-- The checkpoint after an accepted line: the `value` of a STATE line, and
the checkpoint as it was for any other line. -/
theorem processLine_state (out out' : OutputRepresentation) (decoded : Option JVal)
    (hstep : processLine out decoded = .ok out') :
    out'.State = (stateValue (.text decoded)).getD out.State := by
  obtain ⟨members, hd⟩ := processLine_ok_obj out out' decoded hstep
  subst hd
  simp only [processLine, unmarshalLine] at hstep
  split at hstep
  · cases hstep
  · rename_i objectType htype
    split at hstep
    · cases hstep
    · split at hstep
      · rename_i hschema
        rw [isStr_iff] at hschema
        subst hschema
        split at hstep
        · cases hstep
        · cases hstep
        · injection hstep with hstep
          subst hstep
          simp [stateValue, htype]
      · split at hstep
        · rename_i hstate
          rw [isStr_iff] at hstate
          subst hstate
          split at hstep
          · cases hstep
          · rename_i state hvalue
            injection hstep with hstep
            subst hstep
            simp [stateValue, htype, hvalue]
        · split at hstep
          · rename_i hns hrecord
            rw [isStr_iff] at hrecord
            subst hrecord
            split at hstep
            · cases hstep
            · split at hstep
              · cases hstep
              · injection hstep with hstep
                subst hstep
                simp [stateValue, htype]
          · cases hstep

theorem stateValue_none_of_not_state (line : Line) (h : ¬ IsStateLine line) :
    stateValue line = none := by
  cases line with
  | tooLong => rfl
  | text decoded =>
    cases decoded with
    | none => rfl
    | some v =>
      cases v with
      | obj members =>
        simp only [stateValue]
        split
        · rename_i t ht
          by_cases hs : t = "STATE"
          · subst hs
            exact absurd ⟨members, rfl, ht⟩ h
          · simp [hs]
        · rfl
      | null => rfl
      | bool b => rfl
      | num t => rfl
      | str t => rfl
      | arr items => rfl

/-- The checkpoint after an accepted sequence is the last STATE value, or the
checkpoint the loop started with. -/
theorem scanLines_state (lines : List Line) :
    ∀ out out' : OutputRepresentation,
      scanLines lines out = .ok out' →
      out'.State = ((lines.filterMap stateValue).getLast?).getD out.State := by
  induction lines with
  | nil =>
    intro out out' h
    simp only [scanLines] at h
    injection h with h
    subst h
    simp
  | cons line lines ih =>
    intro out out' h
    cases line with
    | tooLong => simp [scanLines] at h
    | text decoded =>
      simp only [scanLines] at h
      split at h
      · rename_i mid hstep
        have hmid := processLine_state out mid decoded hstep
        have hrest := ih mid out' h
        rw [hrest, hmid]
        cases hv : stateValue (.text decoded) with
        | none => simp [List.filterMap_cons, hv]
        | some v =>
          simp only [List.filterMap_cons, hv, Option.getD_some]
          rw [List.getLast?_cons]
          simp
      · cases h
      · cases h

/-- A STATE line without `value` is rejected by the loop body. -/
theorem processLine_state_without_value (out : OutputRepresentation) (members : GoMap JVal)
    (htype : GoMap.get members "type" = some (.str "STATE"))
    (hvalue : GoMap.get members "value" = none) :
    processLine out (some (.obj members)) = .error .stateValueMissing := by
  simp [processLine, unmarshalLine, htype, JVal.isStr, hvalue]

/-- A line the loop body rejects ends the scan with its error, unless an
earlier line already ended it. -/
theorem scanLines_rejected (pre post : List Line) (decoded : Option JVal) (e : ParseError)
    (hrej : ∀ out, processLine out decoded = .error e) (init : OutputRepresentation) :
    (∀ out, scanLines (pre ++ .text decoded :: post) init ≠ .ok out) ∧
    (scanLines pre init ≠ .panic →
      ∃ e', scanLines (pre ++ .text decoded :: post) init = .error e') ∧
    (∀ out, scanLines pre init = .ok out →
      scanLines (pre ++ .text decoded :: post) init = .error e) := by
  rw [scanLines_append]
  cases hpre : scanLines pre init with
  | ok mid => simp [scanLines, hrej mid]
  | error e0 => simp
  | panic => simp

/-- C7: when `ParseOutput` accepts the input, the returned checkpoint is the
`value` of the last STATE line, and nil when the input has no STATE line;
an accepted line that is not a STATE line leaves the checkpoint as the lines
before it left it; and a STATE line without `value` is fatal: no output is
returned, and the error is the one of line 77 when the lines before it were
accepted. -/
theorem C7_checkpoint_is_last_state_value (lines : List Line) (out : OutputRepresentation)
    (h : ParseOutput lines = .ok out) :
    out.State = lastStateValue lines ∧
    ((∀ line ∈ lines, ¬ IsStateLine line) → out.State = .null) ∧
    (∀ (pre : List Line) (line : Line) (out₁ out₂ : OutputRepresentation),
      ParseOutput pre = .ok out₁ → ParseOutput (pre ++ [line]) = .ok out₂ →
      ¬ IsStateLine line → out₂.State = out₁.State) ∧
    (∀ (pre post : List Line) (members : GoMap JVal),
      GoMap.get members "type" = some (.str "STATE") →
      GoMap.get members "value" = none →
      (∀ out', ParseOutput (pre ++ .text (some (.obj members)) :: post) ≠ .ok out') ∧
      (ParseOutput pre ≠ .panic →
        ∃ e, ParseOutput (pre ++ .text (some (.obj members)) :: post) = .error e) ∧
      (∀ out', ParseOutput pre = .ok out' →
        ParseOutput (pre ++ .text (some (.obj members)) :: post) =
          .error .stateValueMissing)) := by
  have hlast : out.State = lastStateValue lines := by
    have := scanLines_state lines _ out h
    simpa [lastStateValue] using this
  refine ⟨hlast, ?_, ?_, ?_⟩
  · intro hno
    rw [hlast]
    have hnil : lines.filterMap stateValue = [] := by
      rw [List.filterMap_eq_nil_iff]
      intro l hl
      exact stateValue_none_of_not_state l (hno l hl)
    simp [lastStateValue, hnil]
  · intro pre line out₁ out₂ h₁ h₂ hns
    unfold ParseOutput at h₁ h₂
    rw [scanLines_append, h₁] at h₂
    have := scanLines_state [line] out₁ out₂ h₂
    simpa [stateValue_none_of_not_state line hns] using this
  · intro pre post members htype hvalue
    exact scanLines_rejected pre post _ .stateValueMissing
      (fun o => processLine_state_without_value o members htype hvalue) _

/-- C7 at a concrete input: STATE 1, SCHEMA, RECORD, STATE 2 gives the
checkpoint 2. -/
theorem C7_checkpoint_is_last_state_value_witness :
    ParseOutput [exampleStateLine "1", exampleSchemaLine "a" "string",
        exampleRecordLine "x", exampleStateLine "2"] =
      .ok { State := .str "2",
            Streams := [("s", { BatchHeader := { TableName := "s",
                                                  Fields := [("a", NewField .STRING)] },
                                KeyFields := ["a"],
                                Objects := [[("a", .str "x")]] })] } ∧
    JVal.str "2" = lastStateValue [exampleStateLine "1", exampleSchemaLine "a" "string",
        exampleRecordLine "x", exampleStateLine "2"] :=
  ⟨rfl, (C7_checkpoint_is_last_state_value
    [exampleStateLine "1", exampleSchemaLine "a" "string",
      exampleRecordLine "x", exampleStateLine "2"]
    { State := .str "2",
      Streams := [("s", { BatchHeader := { TableName := "s",
                                            Fields := [("a", NewField .STRING)] },
                          KeyFields := ["a"],
                          Objects := [[("a", .str "x")]] })] } rfl).1⟩

/-- A line the protocol rejects is rejected by the loop body. -/
theorem processLine_bad (decoded : Option JVal) (hbad : BadLine decoded) :
    ∃ e, ∀ out, processLine out decoded = .error e := by
  cases decoded with
  | none => exact ⟨.unmarshalLine, fun out => by simp [processLine, unmarshalLine]⟩
  | some v =>
    cases v with
    | null => exact ⟨.typeMissing, fun out => by simp [processLine, unmarshalLine, GoMap.get]⟩
    | bool b => exact ⟨.unmarshalLine, fun out => by simp [processLine, unmarshalLine]⟩
    | num t => exact ⟨.unmarshalLine, fun out => by simp [processLine, unmarshalLine]⟩
    | str t => exact ⟨.unmarshalLine, fun out => by simp [processLine, unmarshalLine]⟩
    | arr items => exact ⟨.unmarshalLine, fun out => by simp [processLine, unmarshalLine]⟩
    | obj members =>
      simp only [BadLine] at hbad
      cases htype : GoMap.get members "type" with
      | none => exact ⟨.typeMissing, fun out => by simp [processLine, unmarshalLine, htype]⟩
      | some objectType =>
        rw [htype] at hbad
        obtain ⟨h1, h2, h3⟩ := hbad
        have e1 : objectType.isStr "SCHEMA" = false := by
          rw [Bool.eq_false_iff]; intro h; exact h1 ((isStr_iff _ _).1 h)
        have e2 : objectType.isStr "STATE" = false := by
          rw [Bool.eq_false_iff]; intro h; exact h2 ((isStr_iff _ _).1 h)
        have e3 : objectType.isStr "RECORD" = false := by
          rw [Bool.eq_false_iff]; intro h; exact h3 ((isStr_iff _ _).1 h)
        by_cases h0 : objectType.isStr "" = true
        · exact ⟨.typeMissing, fun out => by simp [processLine, unmarshalLine, htype, h0]⟩
        · exact ⟨.unknownLineType, fun out => by
            simp [processLine, unmarshalLine, htype, h0, e1, e2, e3]⟩

/-- C8: a line that is not a JSON object, or has no `type`, or whose `type`
is the empty string or anything other than `"SCHEMA"`, `"STATE"`, `"RECORD"`,
is fatal wherever it stands: no input that contains it yields an
`OutputRepresentation`, and `ParseOutput` returns an error for it whatever
lines follow, provided no earlier line made it panic (so in particular when
the lines before it are accepted). -/
theorem C8_bad_line_is_fatal (pre post : List Line) (decoded : Option JVal)
    (hbad : BadLine decoded) :
    (∀ out, ParseOutput (pre ++ .text decoded :: post) ≠ .ok out) ∧
    (ParseOutput pre ≠ .panic →
      ∃ e, ParseOutput (pre ++ .text decoded :: post) = .error e) := by
  obtain ⟨e, he⟩ := processLine_bad decoded hbad
  have := scanLines_rejected pre post decoded e he { State := .null, Streams := [] }
  exact ⟨this.1, this.2.1⟩

/-- C8 at a concrete input: a line whose `type` is the empty string, between
an accepted SCHEMA line and a RECORD line. -/
theorem C8_bad_line_is_fatal_witness :
    BadLine (some (.obj [("type", .str "")])) ∧
    (∀ out, ParseOutput ([exampleSchemaLine "a" "string"] ++
        .text (some (.obj [("type", .str "")])) :: [exampleRecordLine "x"]) ≠ .ok out) ∧
    ∃ e, ParseOutput ([exampleSchemaLine "a" "string"] ++
        .text (some (.obj [("type", .str "")])) :: [exampleRecordLine "x"]) = .error e :=
  ⟨by simp [BadLine, GoMap.get],
   (C8_bad_line_is_fatal [exampleSchemaLine "a" "string"] [exampleRecordLine "x"]
      (some (.obj [("type", .str "")])) (by simp [BadLine, GoMap.get])).1,
   (C8_bad_line_is_fatal [exampleSchemaLine "a" "string"] [exampleRecordLine "x"]
      (some (.obj [("type", .str "")])) (by simp [BadLine, GoMap.get])).2
      (by
        intro h
        have h2 : ParseOutput [exampleSchemaLine "a" "string"] =
            .ok { State := .null,
                  Streams := [("s", { BatchHeader := { TableName := "s",
                                                        Fields := [("a", NewField .STRING)] },
                                      KeyFields := ["a"], Objects := [] })] } := rfl
        rw [h2] at h
        cases h)⟩

end Singer

namespace Bridge

/-! ## Catalog discovery -/

theorem selectMetadata_selected (metadata : JVal) (metadataObj innerMetadataObj : GoMap JVal)
    (hobj : selectMetadata metadata = .obj metadataObj)
    (hinner : GoMap.get metadataObj "metadata" = some (.obj innerMetadataObj)) :
    GoMap.get innerMetadataObj "selected" = some (.bool true) := by
  cases metadata with
  | obj original =>
    simp only [selectMetadata] at hobj
    split at hobj
    · rename_i inner hget
      injection hobj with hobj
      subst hobj
      rw [GoMap.get_set_self] at hinner
      injection hinner with hinner
      injection hinner with hinner
      subst hinner
      exact GoMap.get_set_self _ _ _
    · rename_i hnot
      injection hobj with hobj
      subst hobj
      exact absurd hinner (hnot innerMetadataObj)
  | null => simp [selectMetadata] at hobj
  | bool b => simp [selectMetadata] at hobj
  | num t => simp [selectMetadata] at hobj
  | str t => simp [selectMetadata] at hobj
  | arr items => simp [selectMetadata] at hobj

theorem selectMetadataArray_schema (stream : GoMap JVal) :
    GoMap.get (selectMetadataArray stream) "schema" = GoMap.get stream "schema" := by
  unfold selectMetadataArray
  split
  · exact GoMap.get_set_ne _ _ _ _ (by decide)
  · rfl

theorem selectMetadataArray_selected (stream : GoMap JVal) :
    MetadataSelected (selectMetadataArray stream) := by
  intro metadataArray hget metadata hmem metadataObj innerMetadataObj hobj hinner
  unfold selectMetadataArray at hget
  split at hget
  · rename_i original horiginal
    rw [GoMap.get_set_self] at hget
    injection hget with hget
    injection hget with hget
    subst hget
    obtain ⟨x, -, hx⟩ := List.mem_map.1 hmem
    subst hobj
    exact selectMetadata_selected x metadataObj innerMetadataObj hx hinner
  · rename_i hnot
    exact absurd hget (hnot metadataArray)

theorem selectStream_selected (stream stream' : GoMap JVal)
    (h : selectStream stream = .ok stream') :
    SchemaSelected stream' ∧ MetadataSelected stream' := by
  unfold selectStream at h
  split at h
  · cases h
  · rename_i schemaObj hschema
    injection h with h
    subst h
    refine ⟨⟨GoMap.set schemaObj "selected" (.bool true), ?_, GoMap.get_set_self _ _ _⟩,
      selectMetadataArray_selected _⟩
    rw [selectMetadataArray_schema, GoMap.get_set_self]
  · cases h

theorem selectStreams_selected (streams : List (GoMap JVal)) :
    ∀ streams', selectStreams streams = .ok streams' →
      ∀ stream ∈ streams', SchemaSelected stream ∧ MetadataSelected stream := by
  induction streams with
  | nil =>
    intro streams' h stream hmem
    simp only [selectStreams] at h
    injection h with h
    subst h
    cases hmem
  | cons first rest ih =>
    intro streams' h stream hmem
    simp only [selectStreams] at h
    split at h
    · cases h
    · rename_i first' hfirst
      split at h
      · cases h
      · rename_i rest' hrest
        injection h with h
        subst h
        rcases List.mem_cons.1 hmem with heq | hin
        · subst heq
          exact selectStream_selected first _ hfirst
        · exact ih rest' hrest stream hin

theorem selectStreams_length (streams : List (GoMap JVal)) :
    ∀ streams', selectStreams streams = .ok streams' → streams'.length = streams.length := by
  induction streams with
  | nil =>
    intro streams' h
    simp only [selectStreams] at h
    injection h with h
    subst h
    rfl
  | cons first rest ih =>
    intro streams' h
    simp only [selectStreams] at h
    split at h
    · cases h
    · split at h
      · cases h
      · rename_i rest' hrest
        injection h with h
        subst h
        simp [ih rest' hrest]

theorem decodeStreams_length (items : List JVal) :
    ∀ streams, decodeStreams items = some streams → streams.length = items.length := by
  induction items with
  | nil =>
    intro streams h
    simp only [decodeStreams] at h
    injection h with h
    subst h
    rfl
  | cons first rest ih =>
    intro streams h
    simp only [decodeStreams] at h
    split at h
    · rename_i s ss hs hss
      injection h with h
      subst h
      simp [ih ss hss]
    · cases h

/-- What the decoding assigns to `Streams` is what the last member named
`streams` holds. -/
theorem decodeCatalogMembers_streams (members : List (String × JVal)) :
    ∀ catalog catalog' : RawCatalog,
      decodeCatalogMembers members catalog = some catalog' →
      match streamsMember members with
      | none => catalog' = catalog
      | some v => decodeStreamsField v = some catalog'.Streams := by
  induction members with
  | nil =>
    intro catalog catalog' h
    simp only [decodeCatalogMembers] at h
    injection h with h
    simp [streamsMember, h]
  | cons member rest ih =>
    intro catalog catalog' h
    obtain ⟨k, v⟩ := member
    simp only [decodeCatalogMembers] at h
    simp only [streamsMember]
    by_cases hk : JVal.equalFold "streams" k = true
    · rw [if_pos hk] at h
      cases hv : decodeStreamsField v with
      | none => rw [hv] at h; cases h
      | some streams =>
        rw [hv] at h
        simp only at h
        have := ih ⟨streams⟩ catalog' h
        cases hlast : streamsMember rest with
        | some w =>
          rw [hlast] at this
          exact this
        | none =>
          rw [hlast] at this
          simp only at this ⊢
          rw [if_pos hk, this]
          exact hv
    · rw [if_neg hk] at h
      have := ih catalog catalog' h
      cases hlast : streamsMember rest with
      | some w =>
        rw [hlast] at this
        exact this
      | none =>
        rw [hlast] at this
        simp only at this ⊢
        rw [if_neg hk]
        exact this

/-- C9: in every catalog `Discover` returns, each stream's `schema` is an
object with `selected == true`, and in each entry of a stream's `metadata`
list the nested `metadata` object has `selected == true`, whatever the tap
printed for these flags; the catalog has one stream for each element of the
output's list of streams, which is the list of the last member named
`streams`, in any letter case. -/
theorem C9_discover_forces_selection (singerConfigPath : String) (run : DiscoverRun)
    (catalog : RawCatalog) (h : Discover singerConfigPath run = .ok catalog) :
    (∀ stream ∈ catalog.Streams, SchemaSelected stream ∧ MetadataSelected stream) ∧
    ∀ (members : List (String × JVal)) (items : List JVal),
      run.stdout = some (.obj members) → streamsMember members = some (.arr items) →
      catalog.Streams.length = items.length := by
  unfold Discover at h
  split at h
  · cases h
  · split at h
    · cases h
    · split at h
      · cases h
      · cases h
      · rename_i decoded hdecoded
        split at h
        · cases h
        · rename_i streams hstreams
          injection h with h
          subst h
          refine ⟨selectStreams_selected _ streams hstreams, ?_⟩
          intro members items hstdout hlast
          rw [hstdout] at hdecoded
          simp only [unmarshalCatalog] at hdecoded
          split at hdecoded
          · rename_i catalog' hdec
            injection hdecoded with hdecoded
            injection hdecoded with hdecoded
            subst hdecoded
            have := decodeCatalogMembers_streams members _ _ hdec
            rw [hlast] at this
            simp only [decodeStreamsField] at this
            rw [selectStreams_length _ _ hstreams, decodeStreams_length _ _ this]
          · cases hdecoded

/-- C9 at concrete inputs: a catalog of two streams, each with one metadata
entry, whose selection flags are false or absent; and the same for a catalog
whose list of streams is under the member name `Streams`. -/
theorem C9_discover_forces_selection_witness :
    Discover "config.json"
        (exampleRun (.obj [("streams", .arr [exampleStreamUnselected, exampleStreamAbsent])])) =
      .ok ⟨[[("schema", .obj [("selected", .bool true)]),
             ("metadata", .arr [.obj [("metadata", .obj [("selected", .bool true)])]])],
            [("schema", .obj [("selected", .bool true)]),
             ("metadata", .arr [.obj [("metadata", .obj [("selected", .bool true)])]])]]⟩ ∧
    Discover "config.json" (exampleRun (.obj [("Streams", .arr [exampleStreamAbsent])])) =
      .ok ⟨[[("schema", .obj [("selected", .bool true)]),
             ("metadata", .arr [.obj [("metadata", .obj [("selected", .bool true)])]])]]⟩ ∧
    (∀ stream ∈
        [[("schema", JVal.obj [("selected", .bool true)]),
          ("metadata", .arr [.obj [("metadata", .obj [("selected", .bool true)])]])],
         [("schema", JVal.obj [("selected", .bool true)]),
          ("metadata", .arr [.obj [("metadata", .obj [("selected", .bool true)])]])]],
      SchemaSelected stream ∧ MetadataSelected stream) :=
  ⟨rfl, rfl, (C9_discover_forces_selection "config.json"
    (exampleRun (.obj [("streams", .arr [exampleStreamUnselected, exampleStreamAbsent])]))
    ⟨[[("schema", .obj [("selected", .bool true)]),
       ("metadata", .arr [.obj [("metadata", .obj [("selected", .bool true)])]])],
      [("schema", .obj [("selected", .bool true)]),
       ("metadata", .arr [.obj [("metadata", .obj [("selected", .bool true)])]])]]⟩ rfl).1⟩

theorem decodeStreams_mem (items : List JVal) :
    ∀ streams, decodeStreams items = some streams →
      ∀ item ∈ items, ∃ stream ∈ streams, decodeStream item = some stream := by
  induction items with
  | nil => intro streams _ item hmem; cases hmem
  | cons first rest ih =>
    intro streams h item hmem
    simp only [decodeStreams] at h
    split at h
    · rename_i s ss hs hss
      injection h with h
      subst h
      rcases List.mem_cons.1 hmem with heq | hin
      · subst heq
        exact ⟨s, List.mem_cons_self _ _, hs⟩
      · obtain ⟨stream, hstream, hdec⟩ := ih ss hss item hin
        exact ⟨stream, List.mem_cons_of_mem _ hstream, hdec⟩
    · cases h

theorem decodeStreams_none (items : List JVal) (item : JVal) (hmem : item ∈ items)
    (hnone : decodeStream item = none) : decodeStreams items = none := by
  cases h : decodeStreams items with
  | none => rfl
  | some streams =>
    obtain ⟨stream, -, hdec⟩ := decodeStreams_mem items streams h item hmem
    rw [hnone] at hdec
    cases hdec

theorem decodeStreams_objects (streams : List (GoMap JVal)) :
    decodeStreams (streams.map JVal.obj) = some streams := by
  induction streams with
  | nil => rfl
  | cons first rest ih => simp [decodeStreams, decodeStream, ih]

theorem decodeStreamsField_bad (v : JVal) (h : BadStreams v) : decodeStreamsField v = none := by
  cases v with
  | null => simp [BadStreams] at h
  | arr items =>
    simp only [BadStreams] at h
    obtain ⟨item, hmem, hbad⟩ := h
    simp only [decodeStreamsField]
    apply decodeStreams_none items item hmem
    cases item <;> simp [NotAStream] at hbad <;> rfl
  | bool b => rfl
  | num t => rfl
  | str t => rfl
  | obj members => rfl

theorem decodeStreamsField_good (v : JVal) (h : ¬ BadStreams v) :
    ∃ streams, decodeStreamsField v = some streams := by
  cases v with
  | null => exact ⟨[], rfl⟩
  | arr items =>
    simp only [BadStreams, not_exists, not_and] at h
    simp only [decodeStreamsField]
    induction items with
    | nil => exact ⟨[], rfl⟩
    | cons item items ih =>
      obtain ⟨streams, hstreams⟩ := ih (fun x hx => h x (List.mem_cons_of_mem _ hx))
      have hitem := h item (List.mem_cons_self _ _)
      cases item with
      | null => exact ⟨[] :: streams, by simp [decodeStreams, decodeStream, hstreams]⟩
      | obj members =>
        exact ⟨members :: streams, by simp [decodeStreams, decodeStream, hstreams]⟩
      | bool b => simp [NotAStream] at hitem
      | num t => simp [NotAStream] at hitem
      | str t => simp [NotAStream] at hitem
      | arr xs => simp [NotAStream] at hitem
  | bool b => simp [BadStreams] at h
  | num t => simp [BadStreams] at h
  | str t => simp [BadStreams] at h
  | obj members => simp [BadStreams] at h

theorem decodeCatalogMembers_bad (members : List (String × JVal)) :
    ∀ catalog : RawCatalog,
      (∃ member ∈ members, JVal.equalFold "streams" member.1 = true ∧ BadStreams member.2) →
      decodeCatalogMembers members catalog = none := by
  induction members with
  | nil => intro catalog h; obtain ⟨member, hmem, -⟩ := h; cases hmem
  | cons member rest ih =>
    intro catalog h
    obtain ⟨k, v⟩ := member
    obtain ⟨bad, hmem, hk, hbad⟩ := h
    simp only [decodeCatalogMembers]
    rcases List.mem_cons.1 hmem with heq | hin
    · subst heq
      simp only at hk hbad
      rw [if_pos hk, decodeStreamsField_bad v hbad]
    · split
      · split
        · rfl
        · exact ih _ ⟨bad, hin, hk, hbad⟩
      · exact ih _ ⟨bad, hin, hk, hbad⟩

theorem decodeCatalogMembers_good (members : List (String × JVal)) :
    ∀ catalog : RawCatalog,
      (¬ ∃ member ∈ members, JVal.equalFold "streams" member.1 = true ∧ BadStreams member.2) →
      ∃ catalog', decodeCatalogMembers members catalog = some catalog' := by
  induction members with
  | nil => intro catalog _; exact ⟨catalog, rfl⟩
  | cons member rest ih =>
    intro catalog h
    obtain ⟨k, v⟩ := member
    have hrest : ¬ ∃ member ∈ rest, JVal.equalFold "streams" member.1 = true ∧
        BadStreams member.2 := by
      rintro ⟨bad, hin, hk, hbad⟩
      exact h ⟨bad, List.mem_cons_of_mem _ hin, hk, hbad⟩
    simp only [decodeCatalogMembers]
    by_cases hk : JVal.equalFold "streams" k = true
    · rw [if_pos hk]
      have hgood : ¬ BadStreams v := fun hbad => h ⟨(k, v), List.mem_cons_self _ _, hk, hbad⟩
      obtain ⟨streams, hstreams⟩ := decodeStreamsField_good v hgood
      rw [hstreams]
      exact ih _ hrest
    · rw [if_neg hk]
      exact ih _ hrest

theorem selectStreams_error (streams : List (GoMap JVal)) (stream : GoMap JVal)
    (hmem : stream ∈ streams)
    (hschema : ∀ schemaObj, GoMap.get stream "schema" ≠ some (.obj schemaObj)) :
    ∃ e, selectStreams streams = .error e := by
  induction streams with
  | nil => cases hmem
  | cons first rest ih =>
    simp only [selectStreams]
    rcases List.mem_cons.1 hmem with heq | hin
    · subst heq
      cases hget : GoMap.get stream "schema" with
      | none => simp [selectStream, hget]
      | some v =>
        cases v with
        | obj schemaObj => exact absurd hget (hschema schemaObj)
        | null => simp [selectStream, hget]
        | bool b => simp [selectStream, hget]
        | num t => simp [selectStream, hget]
        | str t => simp [selectStream, hget]
        | arr items => simp [selectStream, hget]
    · obtain ⟨e, he⟩ := ih hin
      cases selectStream first with
      | error e0 => exact ⟨e0, rfl⟩
      | ok first' => exact ⟨e, by simp [he]⟩

theorem selectStreams_ok (streams : List (GoMap JVal))
    (hall : ∀ stream ∈ streams, ∃ schemaObj, GoMap.get stream "schema" = some (.obj schemaObj)) :
    ∃ streams', selectStreams streams = .ok streams' := by
  induction streams with
  | nil => exact ⟨[], rfl⟩
  | cons first rest ih =>
    obtain ⟨schemaObj, hschema⟩ := hall first (List.mem_cons_self _ _)
    obtain ⟨rest', hrest⟩ := ih (fun stream hin => hall stream (List.mem_cons_of_mem _ hin))
    simp only [selectStreams, selectStream, hschema, hrest]
    exact ⟨_, rfl⟩

/-- C10, refuted as stated: for the discovery output
`{"streams":[{"schema":{}}]}`, whose stream has no `metadata` member,
`Discover` returns the catalog (with the schema selected) and no error. -/
theorem C10_stream_without_metadata_is_accepted :
    GoMap.get [("schema", JVal.obj [])] "metadata" = none ∧
    Discover "config.json"
        (exampleRun (.obj [("streams", .arr [.obj [("schema", .obj [])]])])) =
      .ok ⟨[[("schema", .obj [("selected", .bool true)])]]⟩ :=
  ⟨rfl, rfl⟩

/-- C10, as the code has it: `Discover` returns an error and no catalog when
the discovery output is not JSON, is a JSON value that is neither an object
nor `null`, or is an object with a member named `streams` (in any letter
case) that is neither a list nor `null` or that is a list with an element
that is neither an object nor `null`; and when, in the list of the last
member named `streams`, some stream (an object, or `null`, which is a stream
without members) has no `schema` member or one that is not an object.  A
stream needs no `metadata` member: when the discovery process ran, the output
is an object that is catalog JSON, and every stream of its list is an object
with a `schema` object, `Discover` returns a catalog; and when the output has
no member named `streams`, or the last one is `null`, it returns the catalog
without streams. -/
theorem C10_discover_rejects_malformed_catalog (singerConfigPath : String)
    (run : DiscoverRun) :
    (NotCatalogJSON run.stdout → ∃ e, Discover singerConfigPath run = .error e) ∧
    (∀ (members : List (String × JVal)) (items : List JVal) (item : JVal)
        (stream : GoMap JVal),
      run.stdout = some (.obj members) →
      streamsMember members = some (.arr items) →
      item ∈ items →
      (item = .obj stream ∨ (item = .null ∧ stream = [])) →
      (∀ schemaObj, GoMap.get stream "schema" ≠ some (.obj schemaObj)) →
      ∃ e, Discover singerConfigPath run = .error e) ∧
    (∀ (members : List (String × JVal)) (streams : List (GoMap JVal)),
      run.saveConfigFails = false → run.execCmdFails = false →
      run.stdout = some (.obj members) →
      ¬ NotCatalogJSON run.stdout →
      streamsMember members = some (.arr (streams.map JVal.obj)) →
      (∀ stream ∈ streams, ∃ schemaObj, GoMap.get stream "schema" = some (.obj schemaObj)) →
      ∃ catalog, Discover singerConfigPath run = .ok catalog) ∧
    (∀ members : List (String × JVal),
      run.saveConfigFails = false → run.execCmdFails = false →
      run.stdout = some (.obj members) →
      ¬ NotCatalogJSON run.stdout →
      (streamsMember members = none ∨ streamsMember members = some .null) →
      Discover singerConfigPath run = .ok ⟨[]⟩) := by
  obtain ⟨saveFails, execFails, stdout⟩ := run
  refine ⟨?_, ?_, ?_, ?_⟩
  rotate_left 3
  · intro members hsave hexec hstdout hgood hnone
    simp only at hsave hexec hstdout hgood
    subst hsave hexec hstdout
    simp only [NotCatalogJSON] at hgood
    obtain ⟨catalog, hdec⟩ := decodeCatalogMembers_good members ⟨[]⟩ hgood
    have hlast := decodeCatalogMembers_streams members _ _ hdec
    have hcat : catalog = ⟨[]⟩ := by
      rcases hnone with h | h
      · rw [h] at hlast
        exact hlast
      · rw [h] at hlast
        simp only [decodeStreamsField] at hlast
        injection hlast with hlast
        obtain ⟨streams⟩ := catalog
        simp only at hlast
        rw [← hlast]
    subst hcat
    simp [Discover, unmarshalCatalog, hdec, selectStreams]
  · intro hnot
    simp only at hnot
    unfold Discover
    simp only
    split
    · exact ⟨_, rfl⟩
    · split
      · exact ⟨_, rfl⟩
      · have hdec : unmarshalCatalog stdout = none := by
          cases stdout with
          | none => rfl
          | some v =>
            cases v with
            | null => simp [NotCatalogJSON] at hnot
            | bool b => rfl
            | num t => rfl
            | str t => rfl
            | arr items => rfl
            | obj members =>
              simp only [NotCatalogJSON] at hnot
              simp only [unmarshalCatalog, decodeCatalogMembers_bad members _ hnot]
        rw [hdec]
        exact ⟨_, rfl⟩
  · intro members items item stream hstdout hstreams hmem hitem hschema
    simp only at hstdout
    subst hstdout
    unfold Discover
    simp only
    split
    · exact ⟨_, rfl⟩
    · split
      · exact ⟨_, rfl⟩
      · simp only [unmarshalCatalog]
        cases hdec : decodeCatalogMembers members ⟨[]⟩ with
        | none => exact ⟨_, rfl⟩
        | some catalog =>
          have hlast := decodeCatalogMembers_streams members _ _ hdec
          rw [hstreams] at hlast
          simp only [decodeStreamsField] at hlast
          obtain ⟨stream', hin, hdecs⟩ := decodeStreams_mem items _ hlast item hmem
          have hsame : stream' = stream := by
            rcases hitem with h | ⟨h, hnil⟩
            · subst h
              simp only [decodeStream] at hdecs
              injection hdecs with hdecs
              exact hdecs.symm
            · subst h
              subst hnil
              simp only [decodeStream] at hdecs
              injection hdecs with hdecs
              exact hdecs.symm
          subst hsame
          obtain ⟨e, he⟩ := selectStreams_error catalog.Streams stream' hin hschema
          exact ⟨e, by simp [he]⟩
  · intro members streams hsave hexec hstdout hgood hstreams hall
    simp only at hsave hexec hstdout hgood
    subst hsave hexec hstdout
    simp only [NotCatalogJSON] at hgood
    obtain ⟨catalog, hdec⟩ := decodeCatalogMembers_good members ⟨[]⟩ hgood
    have hlast := decodeCatalogMembers_streams members _ _ hdec
    rw [hstreams] at hlast
    simp only [decodeStreamsField, decodeStreams_objects] at hlast
    injection hlast with hlast
    obtain ⟨streams', hsel⟩ := selectStreams_ok streams hall
    exact ⟨⟨streams'⟩, by
      simp [Discover, unmarshalCatalog, hdec, ← hlast, hsel]⟩

/-- C10, as the code has it, at concrete inputs: an output that is not JSON,
an output whose only stream is `null`, an output whose stream lacks `schema`
under a member named `Streams`, and an output whose stream lacks
`metadata`. -/
theorem C10_discover_rejects_malformed_catalog_witness :
    (∃ e, Discover "config.json"
      { saveConfigFails := false, execCmdFails := false, stdout := none } = .error e) ∧
    (∃ e, Discover "config.json"
      (exampleRun (.obj [("streams", .arr [.null])])) = .error e) ∧
    (∃ e, Discover "config.json"
      (exampleRun (.obj [("Streams", .arr [.obj [("metadata", .arr [])]])])) = .error e) ∧
    (∃ catalog, Discover "config.json"
      (exampleRun (.obj [("streams", .arr [.obj [("schema", .obj [])]])])) = .ok catalog) :=
  ⟨(C10_discover_rejects_malformed_catalog "config.json"
      { saveConfigFails := false, execCmdFails := false, stdout := none }).1 trivial,
   (C10_discover_rejects_malformed_catalog "config.json"
      (exampleRun (.obj [("streams", .arr [.null])]))).2.1
      _ _ .null [] rfl rfl (List.mem_singleton.2 rfl) (Or.inr ⟨rfl, rfl⟩)
      (by intro schemaObj h; simp [GoMap.get] at h),
   (C10_discover_rejects_malformed_catalog "config.json"
      (exampleRun (.obj [("Streams", .arr [.obj [("metadata", .arr [])]])]))).2.1
      _ _ _ [("metadata", .arr [])] rfl rfl (List.mem_singleton.2 rfl) (Or.inl rfl)
      (by intro schemaObj h; simp [GoMap.get] at h),
   (C10_discover_rejects_malformed_catalog "config.json"
      (exampleRun (.obj [("streams", .arr [.obj [("schema", .obj [])]])]))).2.2.1
      _ [[("schema", .obj [])]] rfl rfl rfl
      (by
        rintro ⟨member, hmem, -, hbad⟩
        simp only [exampleRun, List.mem_singleton] at hmem
        subst hmem
        obtain ⟨item, hitem, hnot⟩ := hbad
        simp only [List.mem_singleton] at hitem
        subst hitem
        exact hnot)
      rfl
      (by
        intro stream hmem
        rw [List.mem_singleton.1 hmem]
        exact ⟨[], rfl⟩)⟩

end Bridge

/-! ## More properties of maps -/

namespace GoMap

theorem mem_keys_of_mem {α : Type} (m : GoMap α) (e : String × α) (h : e ∈ m) :
    e.1 ∈ keys m :=
  List.mem_map_of_mem Prod.fst h

theorem mem_set {α : Type} (m : GoMap α) (k : String) (v : α) (e : String × α)
    (hnd : (keys m).Nodup) (h : e ∈ m.set k v) : e = (k, v) ∨ (e ∈ m ∧ e.1 ≠ k) := by
  induction m with
  | nil =>
    simp only [set, List.mem_singleton] at h
    exact Or.inl h
  | cons e₀ rest ih =>
    obtain ⟨k₀, v₀⟩ := e₀
    simp only [keys, List.map_cons, List.nodup_cons] at hnd
    by_cases h₀ : k₀ = k
    · simp only [set, h₀, if_true, List.mem_cons] at h
      rcases h with h | h
      · exact Or.inl h
      · refine Or.inr ⟨List.mem_cons_of_mem _ h, ?_⟩
        intro hk
        apply hnd.1
        rw [h₀, ← hk]
        exact mem_keys_of_mem rest e h
    · simp only [set, h₀, if_false, List.mem_cons] at h
      rcases h with h | h
      · refine Or.inr ⟨?_, ?_⟩
        · rw [h]; exact List.mem_cons_self _ _
        · rw [h]; exact h₀
      · rcases ih hnd.2 h with h' | ⟨h', hk⟩
        · exact Or.inl h'
        · exact Or.inr ⟨List.mem_cons_of_mem _ h', hk⟩

theorem mem_delete {α : Type} (m : GoMap α) (k : String) (e : String × α)
    (h : e ∈ m.delete k) : e ∈ m ∧ e.1 ≠ k := by
  induction m with
  | nil => simp [delete] at h
  | cons e₀ rest ih =>
    obtain ⟨k₀, v₀⟩ := e₀
    by_cases h₀ : k₀ = k
    · simp only [delete, h₀, if_true] at h
      exact ⟨List.mem_cons_of_mem _ (ih h).1, (ih h).2⟩
    · simp only [delete, h₀, if_false, List.mem_cons] at h
      rcases h with h | h
      · refine ⟨?_, ?_⟩
        · rw [h]; exact List.mem_cons_self _ _
        · rw [h]; exact h₀
      · exact ⟨List.mem_cons_of_mem _ (ih h).1, (ih h).2⟩

theorem mem_keys_set {α : Type} (m : GoMap α) (k : String) (v : α) (x : String)
    (h : x ∈ keys (m.set k v)) : x = k ∨ x ∈ keys m := by
  induction m with
  | nil =>
    simp only [set, keys, List.map_cons, List.map_nil, List.mem_singleton] at h
    exact Or.inl h
  | cons e₀ rest ih =>
    obtain ⟨k₀, v₀⟩ := e₀
    by_cases h₀ : k₀ = k
    · simp only [set, h₀, if_true, keys, List.map_cons, List.mem_cons] at h ⊢
      rcases h with h | h
      · exact Or.inl h
      · exact Or.inr (Or.inr h)
    · simp only [set, h₀, if_false, keys, List.map_cons, List.mem_cons] at h ⊢
      rcases h with h | h
      · exact Or.inr (Or.inl h)
      · rcases ih h with h' | h'
        · exact Or.inl h'
        · exact Or.inr (Or.inr h')

theorem nodup_keys_set {α : Type} (m : GoMap α) (k : String) (v : α)
    (hnd : (keys m).Nodup) : (keys (m.set k v)).Nodup := by
  induction m with
  | nil => simp [set, keys]
  | cons e₀ rest ih =>
    obtain ⟨k₀, v₀⟩ := e₀
    simp only [keys, List.map_cons, List.nodup_cons] at hnd
    by_cases h₀ : k₀ = k
    · simp only [set, h₀, if_true, keys, List.map_cons, List.nodup_cons]
      rw [h₀] at hnd
      exact hnd
    · simp only [set, h₀, if_false, keys, List.map_cons, List.nodup_cons]
      refine ⟨?_, ih hnd.2⟩
      intro hmem
      rcases mem_keys_set rest k v k₀ hmem with h | h
      · exact h₀ h
      · exact hnd.1 h

theorem mem_keys_delete {α : Type} (m : GoMap α) (k : String) (x : String)
    (h : x ∈ keys (m.delete k)) : x ∈ keys m := by
  obtain ⟨e, he, hx⟩ := List.mem_map.1 h
  rw [← hx]
  exact mem_keys_of_mem m e (mem_delete m k e he).1

theorem nodup_keys_delete {α : Type} (m : GoMap α) (k : String)
    (hnd : (keys m).Nodup) : (keys (m.delete k)).Nodup := by
  induction m with
  | nil => simp [delete, keys]
  | cons e₀ rest ih =>
    obtain ⟨k₀, v₀⟩ := e₀
    simp only [keys, List.map_cons, List.nodup_cons] at hnd
    by_cases h₀ : k₀ = k
    · simp only [delete, h₀, if_true]
      exact ih hnd.2
    · simp only [delete, h₀, if_false, keys, List.map_cons, List.nodup_cons]
      exact ⟨fun hmem => hnd.1 (mem_keys_delete rest k k₀ hmem), ih hnd.2⟩

theorem get_delete_self {α : Type} (m : GoMap α) (k : String) :
    (m.delete k).get k = none := by
  induction m with
  | nil => simp [delete, get]
  | cons e₀ rest ih =>
    obtain ⟨k₀, v₀⟩ := e₀
    by_cases h₀ : k₀ = k
    · simp [delete, h₀, ih]
    · simp [delete, get, h₀, ih]

theorem get_delete_ne {α : Type} (m : GoMap α) (k k' : String) (h : k' ≠ k) :
    (m.delete k).get k' = m.get k' := by
  induction m with
  | nil => simp [delete, get]
  | cons e₀ rest ih =>
    obtain ⟨k₀, v₀⟩ := e₀
    by_cases h₀ : k₀ = k
    · subst h₀
      simp [delete, get, Ne.symm h, ih]
    · by_cases h₁ : k₀ = k'
      · subst h₁
        simp [delete, get, h₀]
      · simp [delete, get, h₀, h₁, ih]

theorem get_of_mem {α : Type} (m : GoMap α) (k : String) (v : α)
    (hnd : (keys m).Nodup) (h : (k, v) ∈ m) : m.get k = some v := by
  induction m with
  | nil => cases h
  | cons e₀ rest ih =>
    obtain ⟨k₀, v₀⟩ := e₀
    simp only [keys, List.map_cons, List.nodup_cons] at hnd
    rcases List.mem_cons.1 h with h | h
    · injection h with h1 h2
      subst h1 h2
      simp [get]
    · have hne : k₀ ≠ k := by
        intro heq
        apply hnd.1
        rw [heq]
        exact mem_keys_of_mem rest (k, v) h
      simp [get, hne, ih hnd.2 h]

theorem mem_of_get {α : Type} (m : GoMap α) (k : String) (v : α)
    (h : m.get k = some v) : (k, v) ∈ m := by
  induction m with
  | nil => simp [get] at h
  | cons e₀ rest ih =>
    obtain ⟨k₀, v₀⟩ := e₀
    by_cases h₀ : k₀ = k
    · simp only [get, h₀, if_true, Option.some.injEq] at h
      rw [h₀, h]
      exact List.mem_cons_self _ _
    · simp only [get, h₀, if_false] at h
      exact List.mem_cons_of_mem _ (ih h)

end GoMap

namespace FirebaseDriver

/-! ## `convertSpecificTypes` -/

theorem append_right_cancel (a b s : String) (h : a ++ s = b ++ s) : a = b := by
  have hd := congrArg String.data h
  simp only [String.data_append] at hd
  exact String.ext (List.append_cancel_right hd)

theorem latitude_ne_longitude (a b : String) : a ++ ".latitude" ≠ b ++ ".longitude" := by
  intro h
  have hd := congrArg (fun s => (String.data s).reverse.take 6) h
  simp [String.data_append, List.take_append_eq_append_take] at hd

theorem append_latitude_ne (a : String) : a ++ ".latitude" ≠ a := by
  intro h
  have hl := congrArg String.length h
  simp [String.length_append] at hl
  revert hl
  decide

theorem append_longitude_ne (a : String) : a ++ ".longitude" ≠ a := by
  intro h
  have hl := congrArg String.length h
  simp [String.length_append] at hl
  revert hl
  decide

end FirebaseDriver

namespace FirebaseDriver

theorem noLatLngFields_iff (fields : List (String × Value)) :
    NoLatLngFields fields ↔ ∀ e ∈ fields, NoLatLngValue e.2 := by
  induction fields with
  | nil => simp [NoLatLngFields]
  | cons e rest ih =>
    obtain ⟨k, v⟩ := e
    simp [NoLatLngFields, ih]

theorem uniqueKeys_nodup (fields : List (String × Value)) (h : UniqueKeys fields) :
    (GoMap.keys fields).Nodup := by
  induction fields with
  | nil => simp [GoMap.keys]
  | cons e rest ih =>
    obtain ⟨k, v⟩ := e
    simp only [UniqueKeys] at h
    simp only [GoMap.keys, List.map_cons, List.nodup_cons]
    exact ⟨h.1, ih h.2.2⟩

theorem uniqueKeys_values (fields : List (String × Value)) (h : UniqueKeys fields) :
    ∀ e ∈ fields, UniqueKeysValue e.2 := by
  induction fields with
  | nil => intro e he; cases he
  | cons e₀ rest ih =>
    obtain ⟨k, v⟩ := e₀
    simp only [UniqueKeys] at h
    intro e he
    rcases List.mem_cons.1 he with heq | hin
    · rw [heq]; exact h.2.1
    · exact ih h.2.2 e hin

/-- The loop leaves no point in a field: every entry of the map that is not
yet free of points is still to be visited. -/
theorem convertRange_noLatLng :
    ∀ (rest : List (String × Value)) (source : GoMap Value),
      (GoMap.keys source).Nodup →
      (∀ e ∈ rest, UniqueKeysValue e.2) →
      (∀ e ∈ source, NoLatLngValue e.2 ∨ e ∈ rest) →
      ∀ e ∈ convertRange rest source, NoLatLngValue e.2
  | [], source, _, _, hinv => by
    intro e he
    simp only [convertRange] at he
    rcases hinv e he with h | h
    · exact h
    · cases h
  | (name, value) :: rest, source, hnd, hwf, hinv => by
    simp only [convertRange]
    have hwf' : ∀ e ∈ rest, UniqueKeysValue e.2 :=
      fun e he => hwf e (List.mem_cons_of_mem _ he)
    split
    · rename_i x hget
      apply convertRange_noLatLng rest source hnd hwf'
      intro e he
      rcases hinv e he with h | h
      · exact Or.inl h
      · rcases List.mem_cons.1 h with heq | hin
        · subst heq
          have := GoMap.get_of_mem source name value hnd he
          rw [hget] at this
          injection this with this
          rw [← this]
          exact Or.inl (by simp [NoLatLngValue])
        · exact Or.inr hin
    · rename_i hguard
      cases value with
      | latLngPtr v =>
        simp only [convertCase]
        apply convertRange_noLatLng rest _
          (GoMap.nodup_keys_delete _ _ (GoMap.nodup_keys_set _ _ _
            (GoMap.nodup_keys_set _ _ _ hnd))) hwf'
        intro e he
        obtain ⟨he, hne⟩ := GoMap.mem_delete _ _ _ he
        rcases GoMap.mem_set _ _ _ _ (GoMap.nodup_keys_set _ _ _ hnd) he with h | ⟨he, -⟩
        · rw [h]; exact Or.inl (by simp [NoLatLngValue])
        · rcases GoMap.mem_set _ _ _ _ hnd he with h | ⟨he, -⟩
          · rw [h]; exact Or.inl (by simp [NoLatLngValue])
          · rcases hinv e he with h | h
            · exact Or.inl h
            · rcases List.mem_cons.1 h with heq | hin
              · rw [heq] at hne; exact absurd rfl hne
              · exact Or.inr hin
      | latLngVal v =>
        simp only [convertCase]
        apply convertRange_noLatLng rest _
          (GoMap.nodup_keys_delete _ _ (GoMap.nodup_keys_set _ _ _
            (GoMap.nodup_keys_set _ _ _ hnd))) hwf'
        intro e he
        obtain ⟨he, hne⟩ := GoMap.mem_delete _ _ _ he
        rcases GoMap.mem_set _ _ _ _ (GoMap.nodup_keys_set _ _ _ hnd) he with h | ⟨he, -⟩
        · rw [h]; exact Or.inl (by simp [NoLatLngValue])
        · rcases GoMap.mem_set _ _ _ _ hnd he with h | ⟨he, -⟩
          · rw [h]; exact Or.inl (by simp [NoLatLngValue])
          · rcases hinv e he with h | h
            · exact Or.inl h
            · rcases List.mem_cons.1 h with heq | hin
              · rw [heq] at hne; exact absurd rfl hne
              · exact Or.inr hin
      | map fields =>
        simp only [convertCase]
        have hfields : UniqueKeys fields := by
          have := hwf (name, .map fields) (List.mem_cons_self _ _)
          simpa [UniqueKeysValue] using this
        have hnested : ∀ e ∈ convertRange fields fields, NoLatLngValue e.2 :=
          convertRange_noLatLng fields fields (uniqueKeys_nodup fields hfields)
            (uniqueKeys_values fields hfields) (fun e he => Or.inr he)
        apply convertRange_noLatLng rest _ (GoMap.nodup_keys_set _ _ _ hnd) hwf'
        intro e he
        rcases GoMap.mem_set _ _ _ _ hnd he with h | ⟨he, hne⟩
        · rw [h]
          refine Or.inl ?_
          simp only [NoLatLngValue]
          exact (noLatLngFields_iff _).2 hnested
        · rcases hinv e he with h | h
          · exact Or.inl h
          · rcases List.mem_cons.1 h with heq | hin
            · rw [heq] at hne; exact absurd rfl hne
            · exact Or.inr hin
      | null | bool _ | int _ | float _ | str _ | other _ | arr _ =>
        simp only [convertCase]
        apply convertRange_noLatLng rest source hnd hwf'
        intro e he
        rcases hinv e he with h | h
        · exact Or.inl h
        · rcases List.mem_cons.1 h with heq | hin
          · rw [heq]; exact Or.inl (by simp [NoLatLngValue])
          · exact Or.inr hin

end FirebaseDriver

namespace FirebaseDriver

theorem convertRange_append (pre post : List (String × Value)) :
    ∀ source : GoMap Value,
      convertRange (pre ++ post) source = convertRange post (convertRange pre source) := by
  induction pre with
  | nil => intro source; simp [convertRange]
  | cons e pre ih =>
    intro source
    obtain ⟨k, u⟩ := e
    simp only [List.cons_append, convertRange]
    exact ih _

/-- One round of the `switch` writes only the key it visits and the two keys
of its coordinates. -/
theorem convertCase_get_other (u : Value) (k name : String) (source : GoMap Value)
    (h1 : k ≠ name) (h2 : k ++ ".latitude" ≠ name) (h3 : k ++ ".longitude" ≠ name) :
    (convertCase u k source).get name = source.get name := by
  cases u with
  | latLngPtr v =>
    simp only [convertCase]
    rw [GoMap.get_delete_ne _ _ _ (Ne.symm h1), GoMap.get_set_ne _ _ _ _ (Ne.symm h3),
      GoMap.get_set_ne _ _ _ _ (Ne.symm h2)]
  | latLngVal v =>
    simp only [convertCase]
    rw [GoMap.get_delete_ne _ _ _ (Ne.symm h1), GoMap.get_set_ne _ _ _ _ (Ne.symm h3),
      GoMap.get_set_ne _ _ _ _ (Ne.symm h2)]
  | map fields =>
    simp only [convertCase]
    rw [GoMap.get_set_ne _ _ _ _ (Ne.symm h1)]
  | null | bool _ | int _ | float _ | str _ | other _ | arr _ => simp only [convertCase]

/-- The rounds of other keys leave a key as it is, when none of them writes
its coordinates under that key. -/
theorem convertRange_get_other (name : String) (rounds : List (String × Value)) :
    ∀ source : GoMap Value,
      (∀ e ∈ rounds, e.1 ≠ name ∧ e.1 ++ ".latitude" ≠ name ∧ e.1 ++ ".longitude" ≠ name) →
      (convertRange rounds source).get name = source.get name := by
  induction rounds with
  | nil => intro source _; simp [convertRange]
  | cons e rounds ih =>
    intro source h
    obtain ⟨k, u⟩ := e
    obtain ⟨h1, h2, h3⟩ := h (k, u) (List.mem_cons_self _ _)
    simp only [convertRange]
    rw [ih _ (fun e he => h e (List.mem_cons_of_mem _ he))]
    split
    · rfl
    · exact convertCase_get_other u k name source h1 h2 h3

/-- A key that holds a `float64` keeps it, when no round writes its
coordinates under that key: the round that visits the key itself finds no
case for a `float64`. -/
theorem convertRange_get_float (name : String) (x : Float64) (rounds : List (String × Value)) :
    ∀ source : GoMap Value,
      source.get name = some (.float x) →
      (∀ e ∈ rounds, e.1 ++ ".latitude" ≠ name ∧ e.1 ++ ".longitude" ≠ name) →
      (convertRange rounds source).get name = some (.float x) := by
  induction rounds with
  | nil => intro source hget _; simpa [convertRange] using hget
  | cons e rounds ih =>
    intro source hget h
    obtain ⟨k, u⟩ := e
    obtain ⟨h2, h3⟩ := h (k, u) (List.mem_cons_self _ _)
    simp only [convertRange]
    apply ih _ _ (fun e he => h e (List.mem_cons_of_mem _ he))
    split
    · exact hget
    · rename_i hguard
      have h1 : k ≠ name := by
        intro heq
        subst heq
        exact hguard x hget
      rw [convertCase_get_other u k name source h1 h2 h3]
      exact hget

theorem get_none_of_not_mem_keys (m : GoMap Value) (k : String) (h : k ∉ GoMap.keys m) :
    m.get k = none := by
  cases hg : m.get k with
  | none => rfl
  | some v => exact absurd (GoMap.mem_keys_of_mem m (k, v) (GoMap.mem_of_get m k v hg)) h

/-- The `switch` has no case for a value that is neither a point nor a
map. -/
theorem convertCase_plain (value : Value) (name : String) (source : GoMap Value)
    (h : IsPlain value) : convertCase value name source = source := by
  cases value <;> simp [IsPlain] at h <;> simp only [convertCase]

/-- The rounds before, at and after a field that holds neither a point nor a
map. -/
theorem convertRange_kept (pre post : List (String × Value)) (src : GoMap Value)
    (name : String) (value : Value)
    (hget : src.get name = some value) (hplain : IsPlain value)
    (hpre : ∀ e ∈ pre, e.1 ≠ name ∧ e.1 ++ ".latitude" ≠ name ∧ e.1 ++ ".longitude" ≠ name)
    (hpost : ∀ e ∈ post, e.1 ≠ name ∧ e.1 ++ ".latitude" ≠ name ∧ e.1 ++ ".longitude" ≠ name) :
    (convertRange (pre ++ (name, value) :: post) src).get name = some value := by
  have hget0 : (convertRange pre src).get name = some value := by
    rw [convertRange_get_other name pre src hpre]
    exact hget
  rw [convertRange_append]
  simp only [convertRange]
  rw [convertRange_get_other name post _ hpost]
  split
  · exact hget0
  · rw [convertCase_plain value name _ hplain]
    exact hget0

/-- A key that no round visits, and under which no round of a point writes a
coordinate, stays absent. -/
theorem convertRange_get_none (k : String) (rounds : List (String × Value)) :
    ∀ source : GoMap Value,
      source.get k = none →
      (∀ e ∈ rounds, e.1 ≠ k ∧
        (IsPoint e.2 → e.1 ++ ".latitude" ≠ k ∧ e.1 ++ ".longitude" ≠ k)) →
      (convertRange rounds source).get k = none := by
  induction rounds with
  | nil => intro source hget _; simpa [convertRange] using hget
  | cons e rounds ih =>
    intro source hget h
    obtain ⟨n, u⟩ := e
    obtain ⟨h1, h2⟩ := h (n, u) (List.mem_cons_self _ _)
    simp only [convertRange]
    apply ih _ _ (fun e he => h e (List.mem_cons_of_mem _ he))
    split
    · exact hget
    · cases u with
      | latLngPtr v =>
        obtain ⟨h3, h4⟩ := h2 trivial
        rw [convertCase_get_other _ n k source h1 h3 h4]
        exact hget
      | latLngVal v =>
        obtain ⟨h3, h4⟩ := h2 trivial
        rw [convertCase_get_other _ n k source h1 h3 h4]
        exact hget
      | map fields =>
        simp only [convertCase]
        rw [GoMap.get_set_ne _ _ _ _ (Ne.symm h1)]
        exact hget
      | null | bool _ | int _ | float _ | str _ | other _ | arr _ =>
        simp only [convertCase]
        exact hget

/-- Where the keys are distinct, a field splits the fields into those
visited before it and those visited after it, all with other names. -/
theorem split_at_field (source : GoMap Value) (name : String) (value : Value)
    (hnd : (GoMap.keys source).Nodup) (hmem : (name, value) ∈ source) :
    ∃ pre post, source = pre ++ (name, value) :: post ∧
      (∀ e ∈ pre, e.1 ≠ name) ∧ (∀ e ∈ post, e.1 ≠ name) := by
  obtain ⟨pre, post, hsplit⟩ := List.append_of_mem hmem
  refine ⟨pre, post, hsplit, ?_, ?_⟩
  · intro e he heq
    rw [hsplit] at hnd
    simp only [GoMap.keys, List.map_append, List.map_cons] at hnd
    have := (List.nodup_append.1 hnd).2.2
    exact this (List.mem_map_of_mem Prod.fst he) (by rw [heq]; exact List.mem_cons_self _ _)
  · intro e he heq
    rw [hsplit] at hnd
    simp only [GoMap.keys, List.map_append, List.map_cons] at hnd
    have := ((List.nodup_append.1 hnd).2.1)
    rw [List.nodup_cons] at this
    apply this.1
    rw [← heq]
    exact List.mem_map_of_mem Prod.fst he

end FirebaseDriver

namespace FirebaseDriver

/-- The rounds before, at and after a field that holds a point. -/
theorem convertRange_point (pre post : List (String × Value)) (src : GoMap Value)
    (name : String) (value : Value) (x y : Float64)
    (hget : src.get name = some value)
    (hpre : ∀ e ∈ pre, e.1 ≠ name ∧ e.1 ++ ".latitude" ≠ name ∧ e.1 ++ ".longitude" ≠ name)
    (hpost : ∀ e ∈ post, e.1 ≠ name ∧ e.1 ++ ".latitude" ≠ name ∧ e.1 ++ ".longitude" ≠ name)
    (hcase : ∀ s, convertCase value name s =
      GoMap.delete (GoMap.set (GoMap.set s (name ++ ".latitude") (.float x))
        (name ++ ".longitude") (.float y)) name)
    (hnf : ∀ z, value ≠ .float z) :
    (convertRange (pre ++ (name, value) :: post) src).get (name ++ ".latitude") =
      some (.float x) ∧
    (convertRange (pre ++ (name, value) :: post) src).get (name ++ ".longitude") =
      some (.float y) ∧
    (convertRange (pre ++ (name, value) :: post) src).get name = none := by
  have hget0 : (convertRange pre src).get name = some value := by
    rw [convertRange_get_other name pre src hpre]
    exact hget
  rw [convertRange_append]
  simp only [convertRange]
  have hstep : (match GoMap.get (convertRange pre src) name with
      | some (.float _) => convertRange pre src
      | _ => convertCase value name (convertRange pre src)) =
      GoMap.delete (GoMap.set (GoMap.set (convertRange pre src) (name ++ ".latitude")
        (.float x)) (name ++ ".longitude") (.float y)) name := by
    split
    · rename_i z hz
      rw [hget0] at hz
      injection hz with hz
      exact absurd hz (hnf z)
    · exact hcase _
  rw [hstep]
  refine ⟨?_, ?_, ?_⟩
  · apply convertRange_get_float
    · rw [GoMap.get_delete_ne _ _ _ (append_latitude_ne name),
        GoMap.get_set_ne _ _ _ _ (latitude_ne_longitude name name), GoMap.get_set_self]
    · intro e he
      exact ⟨fun h => (hpost e he).1 (append_right_cancel _ _ _ h),
        fun h => latitude_ne_longitude name e.1 h.symm⟩
  · apply convertRange_get_float
    · rw [GoMap.get_delete_ne _ _ _ (append_longitude_ne name), GoMap.get_set_self]
    · intro e he
      exact ⟨fun h => latitude_ne_longitude e.1 name h,
        fun h => (hpost e he).1 (append_right_cancel _ _ _ h)⟩
  · rw [convertRange_get_other name post _ hpost]
    exact GoMap.get_delete_self _ _

/-- The rounds before, at and after a field that holds a map. -/
theorem convertRange_nested (pre post : List (String × Value)) (src : GoMap Value)
    (name : String) (fields : List (String × Value))
    (hget : src.get name = some (.map fields))
    (hpre : ∀ e ∈ pre, e.1 ≠ name ∧ e.1 ++ ".latitude" ≠ name ∧ e.1 ++ ".longitude" ≠ name)
    (hpost : ∀ e ∈ post, e.1 ≠ name ∧ e.1 ++ ".latitude" ≠ name ∧ e.1 ++ ".longitude" ≠ name) :
    (convertRange (pre ++ (name, .map fields) :: post) src).get name =
      some (.map (convertRange fields fields)) := by
  have hget0 : (convertRange pre src).get name = some (.map fields) := by
    rw [convertRange_get_other name pre src hpre]
    exact hget
  rw [convertRange_append]
  simp only [convertRange]
  rw [convertRange_get_other name post _ hpost]
  split
  · rename_i z hz
    rw [hget0] at hz
    injection hz with hz
    cases hz
  · simp only [convertCase]
    exact GoMap.get_set_self _ _ _

/-- The names around a field, where the keys are distinct and nothing
collides with the field. -/
theorem split_no_collision (source : GoMap Value) (name : String) (value : Value)
    (hnd : (GoMap.keys source).Nodup) (hmem : (name, value) ∈ source)
    (hcol : NoCollision source name) :
    ∃ pre post, source = pre ++ (name, value) :: post ∧
      (∀ e ∈ pre, e.1 ≠ name ∧ e.1 ++ ".latitude" ≠ name ∧ e.1 ++ ".longitude" ≠ name) ∧
      (∀ e ∈ post, e.1 ≠ name ∧ e.1 ++ ".latitude" ≠ name ∧ e.1 ++ ".longitude" ≠ name) := by
  obtain ⟨pre, post, hsplit, hpre, hpost⟩ := split_at_field source name value hnd hmem
  refine ⟨pre, post, hsplit, ?_, ?_⟩
  · intro e he
    refine ⟨hpre e he, hcol e.1 (GoMap.mem_keys_of_mem source e ?_)⟩
    rw [hsplit]
    exact List.mem_append_left _ he
  · intro e he
    refine ⟨hpost e he, hcol e.1 (GoMap.mem_keys_of_mem source e ?_)⟩
    rw [hsplit]
    exact List.mem_append_right _ (List.mem_cons_of_mem _ he)

/-- A field that holds a point, in a map where no other field collides with
its name, ends as its two coordinate fields. -/
theorem convertSpecificTypes_point (source : GoMap Value) (name : String) (value : Value)
    (x y : Float64) (hnd : (GoMap.keys source).Nodup) (hmem : (name, value) ∈ source)
    (hcol : NoCollision source name)
    (hcase : ∀ s, convertCase value name s =
      GoMap.delete (GoMap.set (GoMap.set s (name ++ ".latitude") (.float x))
        (name ++ ".longitude") (.float y)) name)
    (hnf : ∀ z, value ≠ .float z) :
    (convertSpecificTypes source).get (name ++ ".latitude") = some (.float x) ∧
    (convertSpecificTypes source).get (name ++ ".longitude") = some (.float y) ∧
    (convertSpecificTypes source).get name = none := by
  have hget := GoMap.get_of_mem source name value hnd hmem
  obtain ⟨pre, post, hsplit, hpre, hpost⟩ := split_no_collision source name value hnd hmem hcol
  have := convertRange_point pre post source name value x y hget hpre hpost hcase hnf
  rw [← hsplit] at this
  exact this

/-- A field that holds a map, in a map where no other field collides with its
name, ends as the conversion of that map. -/
theorem convertSpecificTypes_nested (source : GoMap Value) (name : String)
    (fields : List (String × Value)) (hnd : (GoMap.keys source).Nodup)
    (hmem : (name, .map fields) ∈ source) (hcol : NoCollision source name) :
    (convertSpecificTypes source).get name = some (.map (convertSpecificTypes fields)) := by
  have hget := GoMap.get_of_mem source name _ hnd hmem
  obtain ⟨pre, post, hsplit, hpre, hpost⟩ := split_no_collision source name _ hnd hmem hcol
  have := convertRange_nested pre post source name fields hget hpre hpost
  rw [← hsplit] at this
  exact this

/-- C11, refuted as stated: a point inside an array is not replaced: the body
`{"track": [LatLng(5, 6)]}` comes back unchanged, the point still in the
array. -/
theorem C11_point_inside_array_survives :
    convertSpecificTypes [("track", .arr [.latLngPtr (some ⟨⟨5⟩, ⟨6⟩⟩)])] =
      [("track", .arr [.latLngPtr (some ⟨⟨5⟩, ⟨6⟩⟩)])] :=
  rfl

/-- C11, as the code has it: for a document body whose maps have each key
once, after `convertSpecificTypes` no point is the value of a field of the
body or of a map nested in it through fields at any depth; a field `name`
that holds a point, and whose name no other field's coordinates are written
under, is replaced by the two fields `name.latitude` and `name.longitude`
holding its latitude and longitude, and `name` is gone; a field that holds a
map, under the same condition, holds the conversion of that map afterwards,
so the same is true at every depth of nested maps; a field that holds neither
a point nor a map, under the same condition, keeps its value: in particular
an array is kept as it is, with the points inside it; and no field is added
other than the coordinates of the fields that hold a point. -/
theorem C11_points_in_map_fields_are_flattened (source : GoMap Value)
    (hunique : UniqueKeys source) :
    NoLatLngFields (convertSpecificTypes source) ∧
    (∀ (name : String) (v : Option LatLng),
      (name, .latLngPtr v) ∈ source → NoCollision source name →
      (convertSpecificTypes source).get (name ++ ".latitude") = some (.float (GetLatitude v)) ∧
      (convertSpecificTypes source).get (name ++ ".longitude") =
        some (.float (GetLongitude v)) ∧
      (convertSpecificTypes source).get name = none) ∧
    (∀ (name : String) (v : LatLng),
      (name, .latLngVal v) ∈ source → NoCollision source name →
      (convertSpecificTypes source).get (name ++ ".latitude") = some (.float v.Latitude) ∧
      (convertSpecificTypes source).get (name ++ ".longitude") = some (.float v.Longitude) ∧
      (convertSpecificTypes source).get name = none) ∧
    (∀ (name : String) (fields : List (String × Value)),
      (name, .map fields) ∈ source → NoCollision source name →
      (convertSpecificTypes source).get name = some (.map (convertSpecificTypes fields))) ∧
    (∀ (name : String) (value : Value),
      (name, value) ∈ source → IsPlain value → NoCollision source name →
      (convertSpecificTypes source).get name = some value) ∧
    (∀ (name : String) (items : List Value),
      (name, .arr items) ∈ source → NoCollision source name →
      (convertSpecificTypes source).get name = some (.arr items)) ∧
    (∀ k : String, k ∉ GoMap.keys source →
      (∀ e ∈ source, IsPoint e.2 → e.1 ++ ".latitude" ≠ k ∧ e.1 ++ ".longitude" ≠ k) →
      (convertSpecificTypes source).get k = none) := by
  have hnd := uniqueKeys_nodup source hunique
  have hkept : ∀ (name : String) (value : Value),
      (name, value) ∈ source → IsPlain value → NoCollision source name →
      (convertSpecificTypes source).get name = some value := by
    intro name value hmem hplain hcol
    have hget := GoMap.get_of_mem source name value hnd hmem
    obtain ⟨pre, post, hsplit, hpre, hpost⟩ :=
      split_no_collision source name value hnd hmem hcol
    have := convertRange_kept pre post source name value hget hplain hpre hpost
    rw [← hsplit] at this
    exact this
  refine ⟨?_, ?_, ?_, ?_, hkept, ?_, ?_⟩
  · rw [noLatLngFields_iff]
    exact convertRange_noLatLng source source hnd (uniqueKeys_values source hunique)
      (fun e he => Or.inr he)
  · intro name v hmem hcol
    exact convertSpecificTypes_point source name _ _ _ hnd hmem hcol
      (fun s => by simp only [convertCase]) (fun z h => by cases h)
  · intro name v hmem hcol
    exact convertSpecificTypes_point source name _ _ _ hnd hmem hcol
      (fun s => by simp only [convertCase]) (fun z h => by cases h)
  · intro name fields hmem hcol
    exact convertSpecificTypes_nested source name fields hnd hmem hcol
  · intro name items hmem hcol
    exact hkept name (.arr items) hmem trivial hcol
  · intro k hk hpoints
    apply convertRange_get_none k source source (get_none_of_not_mem_keys source k hk)
    intro e he
    refine ⟨?_, hpoints e he⟩
    intro heq
    apply hk
    rw [← heq]
    exact GoMap.mem_keys_of_mem source e he

end FirebaseDriver

namespace FirebaseDriver

/-- C11, as the code has it, at a concrete body: a point in the field `home`,
a point in the nested map `office`, and a point inside the array `track`. -/
theorem C11_points_in_map_fields_are_flattened_witness :
    UniqueKeys exampleBody ∧
    NoLatLngFields (convertSpecificTypes exampleBody) ∧
    ((convertSpecificTypes exampleBody).get ("home" ++ ".latitude") = some (.float ⟨1⟩) ∧
     (convertSpecificTypes exampleBody).get ("home" ++ ".longitude") = some (.float ⟨2⟩) ∧
     (convertSpecificTypes exampleBody).get "home" = none) ∧
    (convertSpecificTypes exampleBody).get "office" =
      some (.map (convertSpecificTypes [("gate", .latLngVal ⟨⟨3⟩, ⟨4⟩⟩)])) ∧
    (convertSpecificTypes exampleBody).get "track" =
      some (.arr [.latLngPtr (some ⟨⟨5⟩, ⟨6⟩⟩)]) :=
  have hunique : UniqueKeys exampleBody := by
    simp [UniqueKeys, UniqueKeysValue, exampleBody, GoMap.keys]
  have hcol : ∀ name, name = "home" ∨ name = "office" ∨ name = "track" →
      NoCollision exampleBody name := by
    intro name hname
    rcases hname with h | h | h <;> subst h <;>
      simp [NoCollision, exampleBody, GoMap.keys]
  ⟨hunique,
   (C11_points_in_map_fields_are_flattened exampleBody hunique).1,
   (C11_points_in_map_fields_are_flattened exampleBody hunique).2.1 "home"
     (some ⟨⟨1⟩, ⟨2⟩⟩) (by simp [exampleBody]) (hcol _ (Or.inl rfl)),
   (C11_points_in_map_fields_are_flattened exampleBody hunique).2.2.2.1 "office"
     [("gate", .latLngVal ⟨⟨3⟩, ⟨4⟩⟩)] (by simp [exampleBody]) (hcol _ (Or.inr (Or.inl rfl))),
   (C11_points_in_map_fields_are_flattened exampleBody hunique).2.2.2.2.2.1 "track"
     [.latLngPtr (some ⟨⟨5⟩, ⟨6⟩⟩)] (by simp [exampleBody]) (hcol _ (Or.inr (Or.inr rfl)))⟩

end FirebaseDriver

namespace Lifecycle

/-! ## Tap lifecycle -/

/-- C18, evaluated on the code: an empty python exec path is rejected with
the error of line 42, but an empty venv dir is not rejected: the second test
(line 45) tests `pythonExecPath` again, so `Init("python3", "", ...)` creates
the bridge, with an empty `VenvDir`. -/
theorem C18_init_accepts_empty_venv_dir :
    (∀ (venvDir : String) (installTaps updateTaps : Bool)
        (readDir : Option (List (String × Bool))),
      Init "" venvDir installTaps updateTaps readDir = .error .pythonExecPathEmpty) ∧
    (∀ (installTaps updateTaps : Bool) (readDir : Option (List (String × Bool))),
      ∃ b, Init "python3" "" installTaps updateTaps readDir = .ok b ∧ b.VenvDir = "") := by
  refine ⟨?_, ?_⟩
  · intro venvDir installTaps updateTaps readDir
    simp [Init]
  · intro installTaps updateTaps readDir
    simp [Init]

theorem isTapReady_installed (b : Bridge) (tap : String) (v : Nat)
    (h : b.installedTaps.get tap = some v) :
    IsTapReady b tap = ⟨true, none, b, false⟩ := by
  simp [IsTapReady, h]

/-- C14: for a tap in the installed set, `IsTapReady` returns `(true, nil)`,
starts no installer and leaves the bridge as it is (installed set, in-flight
set and error map); so does each of any number of repeated calls. -/
theorem C14_installed_tap_is_ready (b : Bridge) (tap : String) (v : Nat)
    (h : b.installedTaps.get tap = some v) :
    IsTapReady b tap = ⟨true, none, b, false⟩ ∧
    ∀ n : Nat, afterCalls b (List.replicate n tap) = b ∧
      IsTapReady (afterCalls b (List.replicate n tap)) tap = ⟨true, none, b, false⟩ := by
  have h1 := isTapReady_installed b tap v h
  refine ⟨h1, ?_⟩
  intro n
  have h2 : afterCalls b (List.replicate n tap) = b := by
    induction n with
    | zero => rfl
    | succ n ih => simpa [List.replicate_succ, afterCalls, h1] using ih
  exact ⟨h2, by rw [h2, h1]⟩

/-- C14 at a concrete bridge on which `tap-github` is installed. -/
theorem C14_installed_tap_is_ready_witness :
    IsTapReady exampleBridge "tap-github" = ⟨true, none, exampleBridge, false⟩ :=
  (C14_installed_tap_is_ready exampleBridge "tap-github" 1 rfl).1

/-- On every bridge calls and completions lead to, the flag is the one given
to `Init`, nothing is recorded or in flight while installs are disabled, and
a tap in flight is not installed. -/
theorem reachable_invariant (installTaps : Bool) (b : Bridge)
    (h : Reachable installTaps b) :
    b.installTaps = installTaps ∧
    (installTaps = false → b.installErrorsByTap = [] ∧ b.installInProgressTaps = []) ∧
    (∀ t, b.installInProgressTaps.get t ≠ none → b.installedTaps.get t = none) := by
  induction h with
  | init pythonExecPath venvDir updateTaps readDir b hinit =>
    unfold Init at hinit
    split at hinit
    · cases hinit
    · injection hinit with hinit
      subst hinit
      exact ⟨rfl, fun _ => ⟨rfl, rfl⟩, fun t ht => absurd rfl ht⟩
  | call b tap _ ih =>
    obtain ⟨h1, h2, h3⟩ := ih
    unfold IsTapReady
    split
    · exact ⟨h1, h2, h3⟩
    · rename_i hnot
      simp only [ensureTap]
      split
      · rename_i hflag
        split
        · exact ⟨h1, h2, h3⟩
        · split
          · exact ⟨h1, h2, h3⟩
          · refine ⟨h1, ?_, ?_⟩
            · intro hf
              rw [hf] at h1
              rw [h1] at hflag
              cases hflag
            · intro t ht
              by_cases heq : t = tap
              · subst heq; exact hnot
              · simp only at ht ⊢
                rw [GoMap.get_set_ne _ _ _ _ heq] at ht
                exact h3 t ht
      · refine ⟨h1, ?_, ?_⟩
        · intro hf
          exact h2 hf
        · intro t ht
          rename_i hflag
          have hf : installTaps = false := by
            rw [← h1]
            simpa using hflag
          simp only at ht
          rw [(h2 hf).2] at ht
          exact absurd rfl ht
  | completion b tap err _ hflight ih =>
    obtain ⟨h1, h2, h3⟩ := ih
    have htrue : installTaps = true := by
      cases installTaps with
      | true => rfl
      | false =>
        rw [(h2 rfl).2] at hflight
        exact absurd rfl hflight
    cases err with
    | some e =>
      refine ⟨?_, ?_, ?_⟩
      · exact h1
      · intro hf; rw [htrue] at hf; cases hf
      intro t ht
      simp only [installerBody] at ht ⊢
      by_cases heq : t = tap
      · subst heq
        rw [GoMap.get_delete_self] at ht
        exact absurd rfl ht
      · rw [GoMap.get_delete_ne _ _ _ heq] at ht
        exact h3 t ht
    | none =>
      refine ⟨?_, ?_, ?_⟩
      · exact h1
      · intro hf; rw [htrue] at hf; cases hf
      intro t ht
      simp only [installerBody] at ht ⊢
      by_cases heq : t = tap
      · subst heq
        rw [GoMap.get_delete_self] at ht
        exact absurd rfl ht
      · rw [GoMap.get_delete_ne _ _ _ heq] at ht
        rw [GoMap.get_set_ne _ _ _ _ heq]
        exact h3 t ht

end Lifecycle

namespace Lifecycle

/-- C15, evaluated on the code: an install that fails can leave the tap in
the installed set.  On the schedule in which the second of two callers starts
a second installer after the first install has succeeded, the second install
fails with `e`: afterwards the error map holds `e`, but the tap is in the
installed set, and the next `IsTapReady` returns `(true, nil)` and starts no
installer.  What holds of every completion of an install: when it fails with
`e`, afterwards the error map holds `e` for the tap, its in-flight claim is
released and the installed set is as it was; when the tap is not in the
installed set (and installs are enabled) the next `IsTapReady` returns
`(false, e)`, claims the tap and starts a new installer.  When the install
succeeds, the tap has no entry in the error map, is in the installed set, and
its in-flight claim is released.  On a bridge that calls and completions
running one at a time lead to, a tap in flight is never in the installed
set. -/
theorem C15_install_completion :
    ((run "tap-github" (start (exampleFresh true) 2) lateFailureSchedule).installers =
        [.done, .done] ∧
      (run "tap-github" (start (exampleFresh true) 2)
          lateFailureSchedule).bridge.installErrorsByTap.get "tap-github" =
        some (.installTap "exit status 1") ∧
      (run "tap-github" (start (exampleFresh true) 2)
          lateFailureSchedule).bridge.installedTaps.get "tap-github" = some 1 ∧
      (IsTapReady (run "tap-github" (start (exampleFresh true) 2)
          lateFailureSchedule).bridge "tap-github").ready = true ∧
      (IsTapReady (run "tap-github" (start (exampleFresh true) 2)
          lateFailureSchedule).bridge "tap-github").err = none ∧
      (IsTapReady (run "tap-github" (start (exampleFresh true) 2)
          lateFailureSchedule).bridge "tap-github").installerStarted = false) ∧
    ∀ (b : Bridge) (tap : String),
      (∀ e : InstallError,
        (installerBody b tap (some e)).installErrorsByTap.get tap = some e ∧
        (installerBody b tap (some e)).installedTaps = b.installedTaps ∧
        (installerBody b tap (some e)).installInProgressTaps.get tap = none ∧
        (b.installTaps = true → b.installedTaps.get tap = none →
          (IsTapReady (installerBody b tap (some e)) tap).ready = false ∧
          (IsTapReady (installerBody b tap (some e)) tap).err = some e ∧
          (IsTapReady (installerBody b tap (some e)) tap).installerStarted = true ∧
          (IsTapReady (installerBody b tap (some e)) tap).bridge.installInProgressTaps.get
            tap = some 1)) ∧
      ((installerBody b tap none).installErrorsByTap.get tap = none ∧
        (installerBody b tap none).installedTaps.get tap = some 1 ∧
        (installerBody b tap none).installInProgressTaps.get tap = none) ∧
      (∀ installTaps : Bool, Reachable installTaps b →
        b.installInProgressTaps.get tap ≠ none →
        b.installTaps = true ∧ b.installedTaps.get tap = none) := by
  refine ⟨by decide, ?_⟩
  intro b tap
  refine ⟨?_, ?_, ?_⟩
  · intro e
    have e2 : (installerBody b tap (some e)).installInProgressTaps.get tap = none :=
      GoMap.get_delete_self _ _
    have e3 : (installerBody b tap (some e)).installErrorsByTap.get tap = some e :=
      GoMap.get_set_self _ _ _
    refine ⟨e3, rfl, e2, ?_⟩
    intro htrue hnot
    have e1 : (installerBody b tap (some e)).installedTaps.get tap = none := hnot
    have e4 : (installerBody b tap (some e)).installTaps = true := htrue
    refine ⟨?_, ?_, ?_, ?_⟩
    · simp [IsTapReady, e1]
    · simp [IsTapReady, ensureTap, e1, e2, e3, e4]
    · simp [IsTapReady, ensureTap, e1, e2, e4]
    · simp [IsTapReady, ensureTap, e1, e2, e4, GoMap.get_set_self]
  · exact ⟨GoMap.get_delete_self _ _, GoMap.get_set_self _ _ _, GoMap.get_delete_self _ _⟩
  · intro installTaps h hflight
    obtain ⟨h1, h2, h3⟩ := reachable_invariant installTaps b h
    refine ⟨?_, h3 tap hflight⟩
    rw [h1]
    cases installTaps with
    | true => rfl
    | false =>
      rw [(h2 rfl).2] at hflight
      exact absurd rfl hflight

/-- C15 at a concrete bridge on which calls and completions ran one at a
time: created by `Init` with installs enabled, then one readiness check of
`tap-github`, whose install fails at the first command. -/
theorem C15_install_completion_witness :
    Init "python3" "/venv" true false none = .ok (exampleFresh true) ∧
    (IsTapReady (exampleFresh true) "tap-github").bridge.installInProgressTaps.get
      "tap-github" ≠ none ∧
    (IsTapReady (installerBody (IsTapReady (exampleFresh true) "tap-github").bridge
        "tap-github" (some (.createVenv "exit status 1"))) "tap-github").err =
      some (.createVenv "exit status 1") ∧
    (installerBody (IsTapReady (exampleFresh true) "tap-github").bridge
        "tap-github" none).installedTaps.get "tap-github" = some 1 :=
  have hreach : Reachable true (IsTapReady (exampleFresh true) "tap-github").bridge :=
    Reachable.call _ _ (Reachable.init "python3" "/venv" false none _ rfl)
  have hflight : (IsTapReady (exampleFresh true) "tap-github").bridge.installInProgressTaps.get
      "tap-github" ≠ none := by decide
  have hstate := (C15_install_completion.2 (IsTapReady (exampleFresh true) "tap-github").bridge
    "tap-github").2.2 true hreach hflight
  ⟨rfl, hflight,
   (((C15_install_completion.2 (IsTapReady (exampleFresh true) "tap-github").bridge
      "tap-github").1 (.createVenv "exit status 1")).2.2.2 hstate.1 hstate.2).2.1,
   (C15_install_completion.2 (IsTapReady (exampleFresh true) "tap-github").bridge
      "tap-github").2.1.2.1⟩

theorem isTapReady_keeps_installed (b : Bridge) (tap other : String)
    (h : b.installedTaps.get tap ≠ none) :
    (IsTapReady b other).bridge.installedTaps.get tap ≠ none := by
  unfold IsTapReady
  split
  · exact h
  · simp only [ensureTap]
    split
    · split
      · exact h
      · split
        · exact h
        · exact h
    · by_cases heq : tap = other
      · subst heq
        simp [GoMap.get_set_self]
      · simp only
        rw [GoMap.get_set_ne _ _ _ _ heq]
        exact h

theorem afterCalls_keeps_installed (tap : String) (others : List String) :
    ∀ b : Bridge, b.installedTaps.get tap ≠ none →
      (afterCalls b others).installedTaps.get tap ≠ none := by
  induction others with
  | nil => intro b h; exact h
  | cons other others ih =>
    intro b h
    exact ih _ (isTapReady_keeps_installed b tap other h)

/-- C19: on a bridge created with tap installation disabled, the first
`IsTapReady` of a tap that is not installed starts no installer, puts the
tap in the installed set, and still returns `(false, nil)`; every later
`IsTapReady` of the tap, after any other readiness checks, returns
`(true, nil)` and starts no installer. -/
theorem C19_disabled_installs_mark_installed (b : Bridge) (tap : String)
    (h : Reachable false b) (hnot : b.installedTaps.get tap = none) :
    (IsTapReady b tap).ready = false ∧
    (IsTapReady b tap).err = none ∧
    (IsTapReady b tap).installerStarted = false ∧
    (IsTapReady b tap).bridge.installedTaps.get tap = some 1 ∧
    ∀ others : List String,
      (IsTapReady (afterCalls (IsTapReady b tap).bridge others) tap).ready = true ∧
      (IsTapReady (afterCalls (IsTapReady b tap).bridge others) tap).err = none ∧
      (IsTapReady (afterCalls (IsTapReady b tap).bridge others) tap).installerStarted =
        false := by
  obtain ⟨h1, h2, -⟩ := reachable_invariant false b h
  obtain ⟨herr, -⟩ := h2 rfl
  have hinst : (IsTapReady b tap).bridge.installedTaps.get tap = some 1 := by
    simp [IsTapReady, hnot, ensureTap, h1, GoMap.get_set_self]
  refine ⟨by simp [IsTapReady, hnot], ?_, ?_, hinst, ?_⟩
  · simp [IsTapReady, hnot, ensureTap, h1, herr, GoMap.get]
  · simp [IsTapReady, hnot, ensureTap, h1]
  · intro others
    have hlater := afterCalls_keeps_installed tap others (IsTapReady b tap).bridge
      (by rw [hinst]; simp)
    cases hget : (afterCalls (IsTapReady b tap).bridge others).installedTaps.get tap with
    | none => exact absurd hget hlater
    | some v =>
      rw [isTapReady_installed _ tap v hget]
      exact ⟨rfl, rfl, rfl⟩

/-- C19 at a concrete bridge: created by `Init` with installs disabled. -/
theorem C19_disabled_installs_mark_installed_witness :
    Init "python3" "/venv" false false none = .ok (exampleFresh false) ∧
    (IsTapReady (exampleFresh false) "tap-github").ready = false ∧
    (IsTapReady (exampleFresh false) "tap-github").err = none ∧
    (IsTapReady (IsTapReady (exampleFresh false) "tap-github").bridge "tap-github").ready =
      true :=
  ⟨rfl,
   (C19_disabled_installs_mark_installed (exampleFresh false) "tap-github"
      (Reachable.init "python3" "/venv" false none _ rfl) rfl).1,
   (C19_disabled_installs_mark_installed (exampleFresh false) "tap-github"
      (Reachable.init "python3" "/venv" false none _ rfl) rfl).2.1,
   ((C19_disabled_installs_mark_installed (exampleFresh false) "tap-github"
      (Reachable.init "python3" "/venv" false none _ rfl) rfl).2.2.2.2 []).1⟩

end Lifecycle

namespace Lifecycle

/-! ## Concurrent readiness checks -/

theorem countP_set {α : Type} (p : α → Bool) (l : List α) :
    ∀ (i : Nat) (x y : α), l[i]? = some x →
      (l.set i y).countP p + (if p x then 1 else 0) =
        l.countP p + (if p y then 1 else 0) := by
  induction l with
  | nil => intro i x y h; simp at h
  | cons a l ih =>
    intro i x y h
    cases i with
    | zero =>
      simp only [List.getElem?_cons_zero, Option.some.injEq] at h
      subst h
      simp only [List.set_cons_zero, List.countP_cons]
      omega
    | succ i =>
      simp only [List.getElem?_cons_succ] at h
      have := ih i x y h
      simp only [List.set_cons_succ, List.countP_cons]
      omega

end Lifecycle

namespace Lifecycle

/-- A step of a caller keeps the holders in step with the in-flight set. -/
theorem move_caller_invariant (tap : String) (s : System) (i : Nat)
    (h : ClaimHeldOnce tap s) : ClaimHeldOnce tap (move tap s (.caller i)) := by
  unfold ClaimHeldOnce holders at h ⊢
  cases hc : s.callers[i]? with
  | none =>
    simp only [move, hc]
    exact h
  | some c =>
    simp only [move, hc]
    have hcount := fun y => countP_set Caller.claimed s.callers i c y hc
    cases c with
    | line83 =>
      cases hg : s.bridge.installedTaps.get tap with
      | some v =>
        have := hcount (.returned true none)
        simp [callerStep, hg, Caller.claimed] at this ⊢
        omega
      | none =>
        have := hcount .line104
        simp [callerStep, hg, Caller.claimed] at this ⊢
        omega
    | line104 =>
      cases hf : s.bridge.installTaps with
      | true =>
        cases hg : s.bridge.installedTaps.get tap with
        | some v =>
          have := hcount .line90
          simp [callerStep, hf, hg, Caller.claimed] at this ⊢
          omega
        | none =>
          have := hcount .line112
          simp [callerStep, hf, hg, Caller.claimed] at this ⊢
          omega
      | false =>
        have := hcount .line90
        simp [callerStep, hf, Caller.claimed] at this ⊢
        omega
    | line112 =>
      cases hv : s.bridge.installInProgressTaps.get tap with
      | some v =>
        have := hcount .line90
        simp [callerStep, hv, Caller.claimed] at this h ⊢
        omega
      | none =>
        have := hcount .line117
        rw [if_pos hv] at h
        simp [callerStep, hv, Caller.claimed, GoMap.get_set_self] at this ⊢
        omega
    | line117 =>
      have := hcount .line90
      simp [callerStep, Caller.claimed, List.countP_append, Installer.inFlight] at this ⊢
      omega
    | line90 =>
      have := hcount (.returned false (s.bridge.installErrorsByTap.get tap))
      simp [callerStep, Caller.claimed] at this ⊢
      omega
    | returned ready err =>
      have := hcount (.returned ready err)
      simp [callerStep, Caller.claimed] at this ⊢
      omega

/-- A step of an installer keeps the holders in step with the in-flight
set. -/
theorem move_installer_invariant (tap : String) (s : System) (i : Nat)
    (outcome : Option InstallError) (h : ClaimHeldOnce tap s) :
    ClaimHeldOnce tap (move tap s (.installer i outcome)) := by
  unfold ClaimHeldOnce holders at h ⊢
  cases hc : s.installers[i]? with
  | none =>
    simp only [move, hc]
    exact h
  | some x =>
    simp only [move, hc]
    have hcount := fun y => countP_set Installer.inFlight s.installers i x y hc
    cases x with
    | line120 =>
      cases outcome with
      | some e =>
        have := hcount (.line123 e)
        simp [installerStep, Installer.inFlight] at this ⊢
        omega
      | none =>
        have := hcount .line129
        simp [installerStep, Installer.inFlight] at this ⊢
        omega
    | line123 e =>
      have := hcount .line118
      simp [installerStep, Installer.inFlight] at this ⊢
      omega
    | line129 =>
      have := hcount .line132
      simp [installerStep, Installer.inFlight] at this ⊢
      omega
    | line132 =>
      have := hcount .line118
      simp [installerStep, Installer.inFlight] at this ⊢
      omega
    | line118 =>
      have := hcount .done
      by_cases hg : s.bridge.installInProgressTaps.get tap = none
      · rw [if_pos hg] at h
        simp [installerStep, Installer.inFlight, GoMap.get_delete_self] at this ⊢
        omega
      · rw [if_neg hg] at h
        simp [Installer.inFlight] at this
        simp only [installerStep, GoMap.get_delete_self, if_true]
        omega
    | done =>
      have := hcount .done
      simp [installerStep, Installer.inFlight] at this ⊢
      omega

theorem run_invariant (tap : String) (schedule : List Move) :
    ∀ s : System, ClaimHeldOnce tap s → ClaimHeldOnce tap (run tap s schedule) := by
  induction schedule with
  | nil => intro s h; exact h
  | cons m schedule ih =>
    intro s h
    simp only [run]
    apply ih
    cases m with
    | caller i => exact move_caller_invariant tap s i h
    | installer i outcome => exact move_installer_invariant tap s i outcome h

/-- C16, evaluated on the code: with two concurrent callers on a fresh bridge
with installs enabled, there is an interleaving in which the installer is
started twice: the second caller passes the installed check of line 106
before the first caller's install has succeeded, and claims the tap after
that install has released it.  What holds: however `n` concurrent calls
`IsTapReady(tap)` and the installers they start are interleaved, from a bridge
on which the tap is not in flight, at every moment at most one goroutine holds
the in-flight claim of the tap (a caller about to start its installer, or an
installer that has not ended), and so at most one install of the tap is in
flight. -/
theorem C16_two_callers_start_two_installers :
    ((run "tap-github" (start (exampleFresh true) 2) raceSchedule).installers =
        [.done, .line120] ∧
      (run "tap-github" (start (exampleFresh true) 2) raceSchedule).callers =
        [.returned false none, .line90] ∧
      (run "tap-github" (start (exampleFresh true) 2) raceSchedule).bridge.installedTaps.get
        "tap-github" = some 1) ∧
    ∀ (tap : String) (b : Bridge) (n : Nat) (schedule : List Move),
      b.installInProgressTaps.get tap = none →
      ClaimHeldOnce tap (run tap (start b n) schedule) ∧
      holders (run tap (start b n) schedule) ≤ 1 ∧
      (run tap (start b n) schedule).installers.countP Installer.inFlight ≤ 1 := by
  refine ⟨by decide, ?_⟩
  intro tap b n schedule hfree
  have hstart : ClaimHeldOnce tap (start b n) := by
    simp [ClaimHeldOnce, holders, start, hfree, Caller.claimed]
  have hinv := run_invariant tap schedule (start b n) hstart
  have hle : holders (run tap (start b n) schedule) ≤ 1 := by
    rw [hinv]
    split <;> omega
  refine ⟨hinv, hle, ?_⟩
  unfold holders at hle
  omega

/-- C16 on the schedule in which two callers start two installers: the two
installs are never in flight together. -/
theorem C16_two_callers_start_two_installers_witness :
    (exampleFresh true).installInProgressTaps.get "tap-github" = none ∧
    (run "tap-github" (start (exampleFresh true) 2) raceSchedule).installers.countP
      Installer.inFlight ≤ 1 :=
  ⟨rfl, (C16_two_callers_start_two_installers.2 "tap-github" (exampleFresh true) 2
    raceSchedule rfl).2.2⟩

end Lifecycle

namespace Lifecycle

/-- A call of `IsTapReady` that no other goroutine interrupts is its atomic
steps in a row. -/
theorem isTapReady_as_steps (b : Bridge) (tap : String) :
    run tap { bridge := b, callers := [.line83], installers := [] }
        (List.replicate 5 (.caller 0)) =
      { bridge := (IsTapReady b tap).bridge,
        callers := [.returned (IsTapReady b tap).ready (IsTapReady b tap).err],
        installers := if (IsTapReady b tap).installerStarted then [.line120] else [] } := by
  cases hg : b.installedTaps.get tap with
  | some v => simp [List.replicate, run, move, callerStep, IsTapReady, hg]
  | none =>
    cases hf : b.installTaps with
    | false =>
      simp [List.replicate, run, move, callerStep, IsTapReady, ensureTap, hg, hf]
    | true =>
      cases hv : b.installInProgressTaps.get tap with
      | some w =>
        simp [List.replicate, run, move, callerStep, IsTapReady, ensureTap, hg, hf, hv]
      | none =>
        simp [List.replicate, run, move, callerStep, IsTapReady, ensureTap, hg, hf, hv]

/-- An installer that no other goroutine interrupts is `installerBody`. -/
theorem installerBody_as_steps (b : Bridge) (tap : String) (outcome : Option InstallError) :
    run tap { bridge := b, callers := [], installers := [.line120] }
        (List.replicate 4 (.installer 0 outcome)) =
      { bridge := installerBody b tap outcome, callers := [], installers := [.done] } := by
  cases outcome with
  | some e => simp [List.replicate, run, move, installerStep, installerBody]
  | none => simp [List.replicate, run, move, installerStep, installerBody]

end Lifecycle

namespace FirebaseDriver

/-! ## The Firestore traversal -/

theorem visitAll_append
    (visit : String → Option (GoMap Value) → LevelState → Except String LevelState)
    (xs ys : List Item) :
    ∀ st, visitAll visit (xs ++ ys) st =
      match visitAll visit xs st with
      | .error err => .error err
      | .ok st' => visitAll visit ys st' := by
  induction xs with
  | nil => intro st; simp [visitAll]
  | cons x xs ih =>
    intro st
    cases x with
    | fail err => simp [visitAll]
    | doc id data =>
      simp only [List.cons_append, visitAll]
      cases visit id data st with
      | error err => simp
      | ok st' => simpa using ih st'

/-- Within one page, the loop runs the body on each document the iterator
returns, then reaches the end of the iterator. -/
theorem levelLoop_iter
    (visit : String → Option (GoMap Value) → LevelState → Except String LevelState)
    (docs : List Item) (iter : List Item) :
    ∀ (current batchesCount : Nat) (offsets : List Nat) (st : LevelState),
      levelLoop visit docs iter current batchesCount offsets st =
        match visitAll visit iter st with
        | .error err => .error err
        | .ok st' => levelLoop visit docs [] (current + iter.length) batchesCount offsets st' := by
  induction iter with
  | nil => intro current batchesCount offsets st; simp [visitAll]
  | cons x iter ih =>
    intro current batchesCount offsets st
    cases x with
    | fail err =>
      rw [levelLoop]
      simp [visitAll]
    | doc id data =>
      rw [levelLoop]
      simp only [visitAll]
      cases visit id data st with
      | error err => simp
      | ok st' =>
        simp only
        rw [ih]
        simp only [List.length_cons]
        have : current + 1 + iter.length = current + (iter.length + 1) := by omega
        rw [this]

end FirebaseDriver

namespace FirebaseDriver

/-- From the start of page `k` on, the loop runs the body on each remaining
document once, in order, and requests the pages at the offsets that
follow. -/
theorem levelLoop_pages
    (visit : String → Option (GoMap Value) → LevelState → Except String LevelState)
    (docs : List Item) :
    ∀ (m k : Nat) (st : LevelState),
      docs.length - batchSize * k = m → batchSize * k ≤ docs.length →
      levelLoop visit docs (page docs (batchSize * k)) 0 k
          ((List.range (k + 1)).map (· * batchSize)) st =
        match visitAll visit (docs.drop (batchSize * k)) st with
        | .error err => .error err
        | .ok st' => .ok (st', pageOffsets docs.length) := by
  intro m
  induction m using Nat.strong_induction_on with
  | _ m ih =>
    intro k st hm hk
    rw [levelLoop_iter]
    by_cases hfull : batchSize ≤ docs.length - batchSize * k
    · have hsplit : docs.drop (batchSize * k) =
          page docs (batchSize * k) ++ docs.drop (batchSize * (k + 1)) := by
        have := List.take_append_drop batchSize (docs.drop (batchSize * k))
        rw [List.drop_drop] at this
        simp only [page]
        rw [show batchSize * (k + 1) = batchSize * k + batchSize from by ring]
        exact this.symm
      have hlen : (page docs (batchSize * k)).length = batchSize := by
        simp only [page, List.length_take, List.length_drop]
        omega
      rw [hsplit, visitAll_append]
      cases visitAll visit (page docs (batchSize * k)) st with
      | error err => rfl
      | ok st' =>
        simp only
        rw [hlen, levelLoop]
        simp only [Nat.zero_add, if_true]
        have hacc : (List.range (k + 1)).map (· * batchSize) ++ [batchSize * (k + 1)] =
            (List.range (k + 1 + 1)).map (· * batchSize) := by
          rw [List.range_succ (n := k + 1), List.map_append]
          simp [Nat.mul_comm]
        rw [hacc]
        exact ih (docs.length - batchSize * (k + 1))
          (by simp only [batchSize] at hfull hm ⊢; omega) (k + 1) st' rfl
          (by simp only [batchSize] at hfull hk ⊢; omega)
    · have hpage : page docs (batchSize * k) = docs.drop (batchSize * k) := by
        simp only [page]
        apply List.take_of_length_le
        simp only [List.length_drop]
        omega
      rw [hpage]
      cases visitAll visit (docs.drop (batchSize * k)) st with
      | error err => rfl
      | ok st' =>
        simp only
        rw [levelLoop]
        have hne : ¬ batchSize = 0 + (docs.drop (batchSize * k)).length := by
          simp only [List.length_drop]
          omega
        rw [if_neg hne]
        have hk' : docs.length / batchSize = k := by
          simp only [batchSize] at hfull hk ⊢
          omega
        simp only [pageOffsets, hk']

end FirebaseDriver

namespace FirebaseDriver

theorem levelLoop_eq_visitAll
    (visit : String → Option (GoMap Value) → LevelState → Except String LevelState)
    (docs : List Item) (st : LevelState) :
    levelLoop visit docs (page docs 0) 0 0 [0] st =
      match visitAll visit docs st with
      | .error err => .error err
      | .ok st' => .ok (st', pageOffsets docs.length) := by
  have := levelLoop_pages visit docs _ 0 st rfl (by simp)
  simpa using this

theorem page_length (docs : List Item) (i : Nat) (hi : i ≤ docs.length / batchSize) :
    (page docs (i * batchSize)).length =
      if i < docs.length / batchSize then batchSize else docs.length % batchSize := by
  simp only [page, List.length_take, List.length_drop, batchSize] at hi ⊢
  split <;> omega

theorem pageOffsets_increasing (n : Nat) : (pageOffsets n).Pairwise (· < ·) := by
  unfold pageOffsets
  rw [List.pairwise_map]
  refine List.Pairwise.imp ?_ (List.pairwise_lt_range _)
  intro a b hab
  simp only [batchSize]
  omega

/-- A level none of whose documents adds a record leaves the result as it
is. -/
theorem visitAll_result
    (visit : String → Option (GoMap Value) → LevelState → Except String LevelState)
    (hvisit : ∀ id data st, ∃ st', visit id data st = .ok st' ∧ st'.result = st.result)
    (docs : List Item) (hdocs : ∀ item ∈ docs, ∃ id data, item = .doc id data) :
    ∀ st, ∃ st', visitAll visit docs st = .ok st' ∧ st'.result = st.result := by
  induction docs with
  | nil => intro st; exact ⟨st, rfl, rfl⟩
  | cons x docs ih =>
    intro st
    obtain ⟨id, data, hx⟩ := hdocs x (List.mem_cons_self _ _)
    subst hx
    obtain ⟨st₁, h₁, hr₁⟩ := hvisit id data st
    obtain ⟨st₂, h₂, hr₂⟩ := ih (fun item hi => hdocs item (List.mem_cons_of_mem _ hi)) st₁
    exact ⟨st₂, by simp [visitAll, h₁, h₂], by rw [hr₂, hr₁]⟩

theorem drop_level_state (r : Except String LevelState) (n : List Nat) :
    (match (match r with
        | .error err => (Except.error err : Except String (LevelState × List Nat))
        | .ok st' => .ok (st', n)) with
      | .error err => (Except.error err : Except String (subCollectionResult × List Nat))
      | .ok (st, offsets) => .ok (st.result, offsets)) =
      match r with
      | .error err => .error err
      | .ok st => .ok (st.result, n) := by
  cases r <;> rfl

theorem diveAndFetch_nil (fs : Firestore) (collection : CollectionRef)
    (parentIDs : GoMap Value) (idFieldName : String) (result : subCollectionResult) :
    diveAndFetch fs [] collection parentIDs idFieldName result =
      match visitAll (fetchDocument idFieldName) (fs.Documents collection)
          ⟨parentIDs, result⟩ with
      | .error err => .error err
      | .ok st => .ok (st.result, pageOffsets (fs.Documents collection).length) := by
  rw [diveAndFetch, levelLoop_eq_visitAll]
  exact drop_level_state _ _

theorem diveAndFetch_cons (fs : Firestore) (subCollectionName : String) (paths : List String)
    (collection : CollectionRef) (parentIDs : GoMap Value) (idFieldName : String)
    (result : subCollectionResult) :
    diveAndFetch fs (subCollectionName :: paths) collection parentIDs idFieldName result =
      match visitAll
          (fun id _ st =>
            match fs.SubCollection collection id subCollectionName with
            | none => .ok st
            | some subCollection =>
              match diveAndFetch fs paths subCollection
                  (GoMap.set (CopyMap st.parentIDs) idFieldName (.str id))
                  (idFieldName ++ "_" ++ subCollectionName) st.result with
              | .error err => .error err
              | .ok (result', _) =>
                .ok ⟨GoMap.set (CopyMap st.parentIDs) idFieldName (.str id), result'⟩)
          (fs.Documents collection) ⟨parentIDs, result⟩ with
      | .error err => .error err
      | .ok st => .ok (st.result, pageOffsets (fs.Documents collection).length) := by
  rw [diveAndFetch, levelLoop_eq_visitAll]
  exact drop_level_state _ _

/-- C12: one level of `diveAndFetch` over a collection runs the body of its
loop on each document of the collection exactly once, in order (until a
failure), and requests the pages at the offsets 0, 100, 200, ..., which
increase strictly; each page has at most 100 documents, every page but the
last has exactly 100, and the last, after which the loop stops, has fewer.
In particular, for `A/*/B` where `A` has 150 documents, none of which has
documents in a sub-collection `B`, the pages of `A` at offsets 0 and 100 are
requested, with 100 and 50 documents, and no record is produced.  This holds
of every call of `diveAndFetch`, for every collection and every remaining
path: the call is the visit of each document of the collection once, in
order, by the body of its loop, and the offsets of its queries are those of
the pages of the collection. -/
theorem C12_pages_are_requested_forward
    (visit : String → Option (GoMap Value) → LevelState → Except String LevelState)
    (docs : List Item) (st : LevelState) :
    (levelLoop visit docs (page docs 0) 0 0 [0] st =
      match visitAll visit docs st with
      | .error err => .error err
      | .ok st' => .ok (st', pageOffsets docs.length)) ∧
    (pageOffsets docs.length).Pairwise (· < ·) ∧
    (∀ i, i ≤ docs.length / batchSize →
      (page docs (i * batchSize)).length =
        if i < docs.length / batchSize then batchSize else docs.length % batchSize) ∧
    docs.length % batchSize < batchSize ∧
    (∀ (fs : Firestore) (A : CollectionRef) (parentIDs : GoMap Value) (idFieldName : String)
        (result : subCollectionResult),
      fs.Documents A = docs → docs.length = 150 →
      (∀ item ∈ docs, ∃ id data, item = .doc id data) →
      (∀ id, fs.SubCollection A id "B" = none ∨
        ∃ B, fs.SubCollection A id "B" = some B ∧ fs.Documents B = []) →
      diveAndFetch fs ["B"] A parentIDs idFieldName result = .ok (result, [0, 100]) ∧
      (page docs 0).length = 100 ∧ (page docs 100).length = 50) ∧
    (∀ (fs : Firestore) (paths : List String) (collection : CollectionRef)
        (parentIDs : GoMap Value) (idFieldName : String) (result : subCollectionResult),
      diveAndFetch fs paths collection parentIDs idFieldName result =
        match visitAll (levelBody fs paths collection idFieldName) (fs.Documents collection)
            ⟨parentIDs, result⟩ with
        | .error err => .error err
        | .ok st' => .ok (st'.result, pageOffsets (fs.Documents collection).length)) := by
  refine ⟨levelLoop_eq_visitAll visit docs st, pageOffsets_increasing _, page_length docs,
    Nat.mod_lt _ (by decide), ?_, ?_⟩
  swap
  · intro fs paths collection parentIDs idFieldName result
    cases paths with
    | nil => exact diveAndFetch_nil fs collection parentIDs idFieldName result
    | cons subCollectionName paths =>
      exact diveAndFetch_cons fs subCollectionName paths collection parentIDs idFieldName
        result
  intro fs A parentIDs idFieldName result hdocs hlen hall hsub
  refine ⟨?_, ?_, ?_⟩
  · rw [diveAndFetch_cons, hdocs]
    have hvisit : ∀ (id : String) (data : Option (GoMap Value)) (st : LevelState),
        ∃ st', (match fs.SubCollection A id "B" with
          | none => Except.ok st
          | some subCollection =>
            match diveAndFetch fs [] subCollection
                (GoMap.set (CopyMap st.parentIDs) idFieldName (.str id))
                (idFieldName ++ "_" ++ "B") st.result with
            | .error err => Except.error err
            | .ok (result', _) =>
              Except.ok ⟨GoMap.set (CopyMap st.parentIDs) idFieldName (.str id), result'⟩) =
          .ok st' ∧ st'.result = st.result := by
      intro id data st
      rcases hsub id with hnone | ⟨B, hB, hempty⟩
      · rw [hnone]
        exact ⟨st, rfl, rfl⟩
      · rw [hB]
        simp only
        rw [diveAndFetch_nil, hempty]
        simp only [visitAll]
        exact ⟨_, rfl, rfl⟩
    obtain ⟨st', hst', hres⟩ := visitAll_result _ hvisit docs hall ⟨parentIDs, result⟩
    rw [hst']
    simp only [hlen]
    rw [hres]
    rfl
  · have := page_length docs 0 (Nat.zero_le _)
    simp only [batchSize, hlen] at this
    simpa using this
  · have := page_length docs 1 (by rw [hlen]; decide)
    simp only [batchSize, hlen] at this
    simpa using this

end FirebaseDriver

namespace FirebaseDriver

/-- The deepest level appends the record of each document that has data. -/
theorem visitAll_fetch (idFieldName : String) (docs : List Item)
    (hdocs : ∀ item ∈ docs, ∃ id data, item = .doc id data) :
    ∀ st : LevelState,
      visitAll (fetchDocument idFieldName) docs st =
        .ok ⟨st.parentIDs,
          ⟨st.result.objects ++ (docs.filterMap leafOfItem).map
            (recordOfLeaf st.parentIDs idFieldName [])⟩⟩ := by
  induction docs with
  | nil => intro st; simp [visitAll]
  | cons x docs ih =>
    intro st
    obtain ⟨id, data, hx⟩ := hdocs x (List.mem_cons_self _ _)
    subst hx
    have ih' := ih (fun item hi => hdocs item (List.mem_cons_of_mem _ hi))
    cases data with
    | none =>
      simp only [visitAll, fetchDocument]
      rw [ih']
      simp [leafOfItem]
    | some data =>
      simp only [visitAll, fetchDocument]
      rw [ih']
      simp [leafOfItem, recordOfLeaf, withAncestors, idFieldNames, selfIDField,
        List.append_assoc]

/-- A level above the deepest appends the records of the leaves under each
of its documents, when the levels below append theirs. -/
theorem visitAll_dive (fs : Firestore) (subCollectionName : String) (paths : List String)
    (collection : CollectionRef) (parentIDs : GoMap Value) (idFieldName : String)
    (docs : List Item) (hdocs : ∀ item ∈ docs, ∃ id data, item = .doc id data) :
    ∀ st : LevelState,
      (∀ v, GoMap.set st.parentIDs idFieldName v = GoMap.set parentIDs idFieldName v) →
      ∃ st', visitAll
          (fun id _ st =>
            match fs.SubCollection collection id subCollectionName with
            | none => .ok st
            | some subCollection =>
              .ok ⟨GoMap.set st.parentIDs idFieldName (.str id),
                ⟨st.result.objects ++ (reachedLeaves fs paths subCollection).map
                  (recordOfLeaf (GoMap.set st.parentIDs idFieldName (.str id))
                    (idFieldName ++ "_" ++ subCollectionName) paths)⟩⟩)
          docs st = .ok st' ∧
        st'.result.objects = st.result.objects ++
          (docs.flatMap fun item =>
            match item with
            | .doc id _ =>
              match fs.SubCollection collection id subCollectionName with
              | none => []
              | some subCollection =>
                (reachedLeaves fs paths subCollection).map fun leaf => (id :: leaf.1, leaf.2)
            | .fail _ => []).map
            (recordOfLeaf parentIDs idFieldName (subCollectionName :: paths)) := by
  induction docs with
  | nil => intro st _; exact ⟨st, rfl, by simp⟩
  | cons x docs ih =>
    intro st hst
    obtain ⟨id, data, hx⟩ := hdocs x (List.mem_cons_self _ _)
    subst hx
    have ih' := ih (fun item hi => hdocs item (List.mem_cons_of_mem _ hi))
    simp only [visitAll, List.flatMap_cons]
    cases hsub : fs.SubCollection collection id subCollectionName with
    | none =>
      obtain ⟨st', h1, h2⟩ := ih' st hst
      exact ⟨st', h1, by simpa using h2⟩
    | some subCollection =>
      obtain ⟨st', h1, h2⟩ := ih'
        ⟨GoMap.set st.parentIDs idFieldName (.str id),
          ⟨st.result.objects ++ (reachedLeaves fs paths subCollection).map
            (recordOfLeaf (GoMap.set st.parentIDs idFieldName (.str id))
              (idFieldName ++ "_" ++ subCollectionName) paths)⟩⟩
        (fun v => by simp only [GoMap.set_set]; exact hst v)
      refine ⟨st', h1, ?_⟩
      rw [h2]
      simp only [List.map_append, List.map_map, List.append_assoc, hst]
      rfl

/-- With no failing query, `diveAndFetch` appends the records of the leaves
the path reaches, in the order of the traversal. -/
theorem diveAndFetch_records (fs : Firestore) (hok : NoFailure fs) (paths : List String) :
    ∀ (collection : CollectionRef) (parentIDs : GoMap Value) (idFieldName : String)
      (result : subCollectionResult),
      diveAndFetch fs paths collection parentIDs idFieldName result =
        .ok (⟨result.objects ++ (reachedLeaves fs paths collection).map
            (recordOfLeaf parentIDs idFieldName paths)⟩,
          pageOffsets (fs.Documents collection).length) := by
  induction paths with
  | nil =>
    intro collection parentIDs idFieldName result
    rw [diveAndFetch_nil, visitAll_fetch idFieldName _ (hok collection)]
    rfl
  | cons subCollectionName paths ih =>
    intro collection parentIDs idFieldName result
    rw [diveAndFetch_cons]
    have hfun : (fun (id : String) (_ : Option (GoMap Value)) (st : LevelState) =>
          match fs.SubCollection collection id subCollectionName with
          | none => (Except.ok st : Except String LevelState)
          | some subCollection =>
            match diveAndFetch fs paths subCollection
                (GoMap.set (CopyMap st.parentIDs) idFieldName (.str id))
                (idFieldName ++ "_" ++ subCollectionName) st.result with
            | .error err => .error err
            | .ok (result', _) =>
              .ok ⟨GoMap.set (CopyMap st.parentIDs) idFieldName (.str id), result'⟩) =
        (fun id _ st =>
          match fs.SubCollection collection id subCollectionName with
          | none => .ok st
          | some subCollection =>
            .ok ⟨GoMap.set st.parentIDs idFieldName (.str id),
              ⟨st.result.objects ++ (reachedLeaves fs paths subCollection).map
                (recordOfLeaf (GoMap.set st.parentIDs idFieldName (.str id))
                  (idFieldName ++ "_" ++ subCollectionName) paths)⟩⟩) := by
      funext id _ st
      cases fs.SubCollection collection id subCollectionName with
      | none => rfl
      | some subCollection => simp only [CopyMap, ih]
    rw [hfun]
    obtain ⟨st', h1, h2⟩ := visitAll_dive fs subCollectionName paths collection parentIDs
      idFieldName (fs.Documents collection) (hok collection)
      ⟨parentIDs, result⟩ (fun _ => rfl)
    rw [h1]
    simp only
    have : st'.result = ⟨st'.result.objects⟩ := rfl
    rw [this, h2]
    rfl

end FirebaseDriver

namespace FirebaseDriver

/-- The ancestor ids are written over the record: a key of `parentIDs` has the
value of `parentIDs` in the merged record, and any other key keeps the value
of the record. -/
theorem mergeParentIDs_get (parentIDs : List (String × Value)) (k : String) :
    ∀ data : GoMap Value, (GoMap.keys parentIDs).Nodup →
      (mergeParentIDs parentIDs data).get k =
        match GoMap.get parentIDs k with
        | some v => some v
        | none => data.get k := by
  induction parentIDs with
  | nil => intro data _; simp [mergeParentIDs, GoMap.get]
  | cons e rest ih =>
    intro data hnd
    obtain ⟨k₀, v₀⟩ := e
    simp only [GoMap.keys, List.map_cons, List.nodup_cons] at hnd
    simp only [mergeParentIDs]
    rw [ih _ hnd.2]
    by_cases h₀ : k₀ = k
    · subst h₀
      rw [get_none_of_not_mem_keys rest k₀ hnd.1]
      simp [GoMap.get, GoMap.get_set_self]
    · simp only [GoMap.get, h₀, if_false]
      rw [GoMap.get_set_ne _ _ _ _ (Ne.symm h₀)]

theorem withAncestors_get_other (names : List String) :
    ∀ (ids : List String) (parentIDs : GoMap Value) (k : String), k ∉ names →
      (withAncestors parentIDs names ids).get k = parentIDs.get k := by
  induction names with
  | nil => intro ids parentIDs k _; simp [withAncestors]
  | cons name names ih =>
    intro ids parentIDs k hk
    cases ids with
    | nil => simp [withAncestors]
    | cons id ids =>
      simp only [List.mem_cons, not_or] at hk
      simp only [withAncestors]
      rw [ih ids _ k hk.2, GoMap.get_set_ne _ _ _ _ hk.1]

theorem withAncestors_nodup (names : List String) :
    ∀ (ids : List String) (parentIDs : GoMap Value), (GoMap.keys parentIDs).Nodup →
      (GoMap.keys (withAncestors parentIDs names ids)).Nodup := by
  induction names with
  | nil => intro ids parentIDs h; simpa [withAncestors] using h
  | cons name names ih =>
    intro ids parentIDs h
    cases ids with
    | nil => simpa [withAncestors] using h
    | cons id ids =>
      simp only [withAncestors]
      exact ih ids _ (GoMap.nodup_keys_set _ _ _ h)

/-- The id field names of deeper levels are longer than the name the level
above started with. -/
theorem idFieldNames_length (paths : List String) :
    ∀ (idFieldName : String), ∀ name ∈ idFieldNames idFieldName paths,
      idFieldName.length ≤ name.length := by
  induction paths with
  | nil =>
    intro idFieldName name h
    simp only [idFieldNames, List.mem_singleton] at h
    rw [h]
  | cons s paths ih =>
    intro idFieldName name h
    simp only [idFieldNames, List.mem_cons] at h
    rcases h with h | h
    · rw [h]
    · have := ih _ name h
      simp only [String.length_append] at this
      omega

theorem selfIDField_mem (paths : List String) :
    ∀ idFieldName : String, selfIDField idFieldName paths ∈ idFieldNames idFieldName paths := by
  induction paths with
  | nil => intro idFieldName; simp [selfIDField, idFieldNames]
  | cons s paths ih =>
    intro idFieldName
    simp only [selfIDField, idFieldNames]
    exact List.mem_cons_of_mem _ (ih _)

theorem not_mem_deeper_names (idFieldName s : String) (paths : List String) :
    idFieldName ∉ idFieldNames (idFieldName ++ "_" ++ s) paths := by
  intro h
  have := idFieldNames_length paths _ idFieldName h
  simp only [String.length_append] at this
  have h1 : "_".length = 1 := rfl
  omega

/-- The ancestors map, for ancestors of every level above the leaf: each
level's field holds the id of the ancestor of that level, and the field of
the leaf's own id is not written. -/
theorem withAncestors_levels (paths : List String) :
    ∀ (idFieldName : String) (parentIDs : GoMap Value) (ancestors : List String),
      ancestors.length = paths.length →
      (withAncestors parentIDs (idFieldNames idFieldName paths) ancestors).get
          (selfIDField idFieldName paths) =
        parentIDs.get (selfIDField idFieldName paths) ∧
      ∀ p ∈ (idFieldNames idFieldName paths).zip ancestors,
        (withAncestors parentIDs (idFieldNames idFieldName paths) ancestors).get p.1 =
          some (.str p.2) := by
  induction paths with
  | nil =>
    intro idFieldName parentIDs ancestors hlen
    cases ancestors with
    | nil => simp [withAncestors, idFieldNames]
    | cons a as => simp at hlen
  | cons s paths ih =>
    intro idFieldName parentIDs ancestors hlen
    cases ancestors with
    | nil => simp at hlen
    | cons a as =>
      simp only [List.length_cons, Nat.add_right_cancel_iff] at hlen
      obtain ⟨h1, h2⟩ := ih (idFieldName ++ "_" ++ s)
        (GoMap.set parentIDs idFieldName (.str a)) as hlen
      simp only [idFieldNames, selfIDField, withAncestors, List.zip_cons_cons, List.mem_cons]
      refine ⟨?_, ?_⟩
      · rw [h1]
        apply GoMap.get_set_ne
        intro heq
        have hm := selfIDField_mem paths (idFieldName ++ "_" ++ s)
        rw [heq] at hm
        exact not_mem_deeper_names idFieldName s paths hm
      · intro p hp
        rcases hp with hp | hp
        · subst hp
          simp only
          rw [withAncestors_get_other _ _ _ _ (not_mem_deeper_names idFieldName s paths),
            GoMap.get_set_self]
        · exact h2 p hp

theorem reachedLeaves_depth (fs : Firestore) (paths : List String) :
    ∀ (collection : CollectionRef), ∀ leaf ∈ reachedLeaves fs paths collection,
      leaf.1.length = paths.length := by
  induction paths with
  | nil =>
    intro collection leaf h
    simp only [reachedLeaves, List.mem_filterMap] at h
    obtain ⟨item, -, hitem⟩ := h
    cases item with
    | fail err => simp [leafOfItem] at hitem
    | doc id data =>
      cases data with
      | none => simp [leafOfItem] at hitem
      | some data =>
        simp only [leafOfItem, Option.some.injEq] at hitem
        rw [← hitem]
  | cons s paths ih =>
    intro collection leaf h
    simp only [reachedLeaves, List.mem_flatMap] at h
    obtain ⟨item, -, hitem⟩ := h
    cases item with
    | fail err => simp at hitem
    | doc id data =>
      simp only at hitem
      cases hsub : fs.SubCollection collection id s with
      | none => simp [hsub] at hitem
      | some c =>
        simp only [hsub, List.mem_map] at hitem
        obtain ⟨leaf', hleaf', heq⟩ := hitem
        rw [← heq]
        simp only [List.length_cons]
        rw [ih c leaf' hleaf']

end FirebaseDriver

namespace FirebaseDriver

/-- C13: when no query fails, `loadCollection` on the path
`S0/*/S1/*/.../*/Sk` returns one record for each leaf document (with data)
that the path reaches, in the order of the traversal; the record of a leaf
holds the leaf's id in the field `_firestore_document_id_S1_..._Sk` and, for
every level above, the id of the leaf's own ancestor of that level in the
field `_firestore_document_id_S1_..._Si` (`_firestore_document_id` for the
first level), whatever fields the body of the document has. -/
theorem C13_leaf_records_carry_ancestor_ids (fs : Firestore) (firstPathPart : String)
    (paths : List String) (collection : CollectionRef)
    (hcollection : fs.Collection firstPathPart = some collection) (hok : NoFailure fs) :
    loadCollection fs firstPathPart paths =
      .ok ((reachedLeaves fs paths collection).map
        (recordOfLeaf [] firestoreDocumentIDField paths)) ∧
    ∀ leaf ∈ reachedLeaves fs paths collection,
      leaf.1.length = paths.length ∧
      (recordOfLeaf [] firestoreDocumentIDField paths leaf).get
          (selfIDField firestoreDocumentIDField paths) = some (.str leaf.2.1) ∧
      ∀ p ∈ (idFieldNames firestoreDocumentIDField paths).zip leaf.1,
        (recordOfLeaf [] firestoreDocumentIDField paths leaf).get p.1 = some (.str p.2) := by
  refine ⟨?_, ?_⟩
  · simp only [loadCollection, hcollection]
    rw [diveAndFetch_records fs hok]
    simp
  · intro leaf hleaf
    have hdepth := reachedLeaves_depth fs paths collection leaf hleaf
    obtain ⟨hself, hlevels⟩ := withAncestors_levels paths firestoreDocumentIDField [] leaf.1
      hdepth
    have hnd : (GoMap.keys (withAncestors [] (idFieldNames firestoreDocumentIDField paths)
        leaf.1)).Nodup :=
      withAncestors_nodup _ _ _ (by simp [GoMap.keys])
    refine ⟨hdepth, ?_, ?_⟩
    · simp only [recordOfLeaf, leafRecord]
      rw [mergeParentIDs_get _ _ _ hnd, hself]
      simp [GoMap.get, GoMap.get_set_self]
    · intro p hp
      simp only [recordOfLeaf, leafRecord]
      rw [mergeParentIDs_get _ _ _ hnd, hlevels p hp]

theorem exampleTree_noFailure : NoFailure exampleTree := by
  intro collection item hitem
  simp only [exampleTree] at hitem
  split at hitem
  · simp only [List.mem_cons, List.mem_singleton, List.not_mem_nil, or_false] at hitem
    rcases hitem with h | h <;> exact ⟨_, _, h⟩
  · split at hitem
    · simp only [List.mem_singleton] at hitem
      exact ⟨_, _, hitem⟩
    · split at hitem
      · simp only [List.mem_singleton] at hitem
        exact ⟨_, _, hitem⟩
      · cases hitem

/-- C13 at a concrete store: `A/*/B` with the documents `a1/b1` and `a2/b2`,
where the body of `b1` has a field with the name of its parent's id field. -/
theorem C13_leaf_records_carry_ancestor_ids_witness :
    exampleTree.Collection "A" = some ["A"] ∧ NoFailure exampleTree ∧
    (recordOfLeaf [] firestoreDocumentIDField ["B"]
        (["a1"], "b1", [("_firestore_document_id", .str "forged")])).get
      (selfIDField firestoreDocumentIDField ["B"]) = some (.str "b1") ∧
    (recordOfLeaf [] firestoreDocumentIDField ["B"]
        (["a1"], "b1", [("_firestore_document_id", .str "forged")])).get
      "_firestore_document_id" = some (.str "a1") :=
  have hleaf : ((["a1"], "b1", [("_firestore_document_id", Value.str "forged")]) :
      List String × String × GoMap Value) ∈ reachedLeaves exampleTree ["B"] ["A"] := by
    simp [reachedLeaves, exampleTree, leafOfItem]
  ⟨rfl, exampleTree_noFailure,
   ((C13_leaf_records_carry_ancestor_ids exampleTree "A" ["B"] ["A"] rfl
      exampleTree_noFailure).2 _ hleaf).2.1,
   ((C13_leaf_records_carry_ancestor_ids exampleTree "A" ["B"] ["A"] rfl
      exampleTree_noFailure).2 _ hleaf).2.2 ("_firestore_document_id", "a1")
      (by simp [idFieldNames, firestoreDocumentIDField])⟩

/-- C17: for a driver whose collection is of kind `firestore` or `users`, when
the load fails `GetObjectsFor` returns the error of the load as it is and
never calls the callback; when it succeeds, `GetObjectsFor` calls the
callback exactly once, with all loaded objects, position 0, the number of
objects as total and 0 percent, and returns what the callback returns. -/
theorem C17_objects_are_delivered_once (f : Firebase) (fs : Firestore)
    (ToISOFormat : Int → String) (users : List UserItem)
    (objectsLoader : List (GoMap Value) → Int → Int → Int → Option String) :
    (f.collectionType = FirestoreCollection →
      match loadCollection fs f.firstPathPart f.collectionPaths with
      | .error err =>
        GetObjectsFor f fs ToISOFormat users objectsLoader = ([], some (.load err))
      | .ok array =>
        GetObjectsFor f fs ToISOFormat users objectsLoader =
          ([⟨array, 0, array.length, 0⟩],
            (objectsLoader array 0 array.length 0).map DriverError.callback)) ∧
    (f.collectionType = UsersCollection →
      match loadUsers ToISOFormat users with
      | .error err =>
        GetObjectsFor f fs ToISOFormat users objectsLoader = ([], some (.load err))
      | .ok array =>
        GetObjectsFor f fs ToISOFormat users objectsLoader =
          ([⟨array, 0, array.length, 0⟩],
            (objectsLoader array 0 array.length 0).map DriverError.callback)) := by
  refine ⟨?_, ?_⟩
  · intro hkind
    simp only [GetObjectsFor, hkind, if_true]
    cases loadCollection fs f.firstPathPart f.collectionPaths with
    | error err => rfl
    | ok array => rfl
  · intro hkind
    have hne : ¬ f.collectionType = FirestoreCollection := by
      rw [hkind]
      decide
    simp only [GetObjectsFor, hne, if_false, hkind, if_true]
    cases loadUsers ToISOFormat users with
    | error err => rfl
    | ok array => rfl

end FirebaseDriver

namespace FirebaseDriver

/-- C12 at a concrete store: the collection `A` of `exampleStore` has 150
documents and no document of it has documents in a sub-collection `B`; the
traversal of `A/*/B` requests the pages of `A` at offsets 0 and 100, of 100
and 50 documents, and produces no record. -/
theorem C12_pages_are_requested_forward_witness :
    (exampleStore.Documents ["A"]).length = 150 ∧
    diveAndFetch exampleStore ["B"] ["A"] [] firestoreDocumentIDField ⟨[]⟩ =
      .ok (⟨[]⟩, [0, 100]) ∧
    (page (exampleStore.Documents ["A"]) 0).length = 100 ∧
    (page (exampleStore.Documents ["A"]) 100).length = 50 :=
  have hlen : (exampleStore.Documents ["A"]).length = 150 := by
    simp [exampleStore]
  ⟨hlen,
   (C12_pages_are_requested_forward (fun _ _ st => .ok st) (exampleStore.Documents ["A"])
      ⟨[], ⟨[]⟩⟩).2.2.2.2.1 exampleStore ["A"] [] firestoreDocumentIDField ⟨[]⟩ rfl hlen
      (by
        intro item hitem
        simp only [exampleStore, if_true, List.mem_map] at hitem
        obtain ⟨i, -, hi⟩ := hitem
        exact ⟨_, _, hi.symm⟩)
      (by
        intro id
        right
        exact ⟨["A"] ++ [id, "B"], rfl, by simp [exampleStore]⟩)⟩

end FirebaseDriver

namespace FirebaseDriver

/-- C17 at a concrete driver of kind `users`: when the iterator fails after
the first user, the error is returned and the callback is not called; when
the iterator ends after the first user, the callback is called once with the
one object, and its error is returned. -/
theorem C17_objects_are_delivered_once_witness :
    GetObjectsFor exampleUsersDriver exampleTree toString
        [.user exampleUser, .fail "deadline exceeded"] (fun _ _ _ _ => none) =
      ([], some (.load (.backend "deadline exceeded"))) ∧
    GetObjectsFor exampleUsersDriver exampleTree toString
        [.user exampleUser] (fun _ _ _ _ => some "stop") =
      ([⟨[userObject toString exampleUser], 0, 1, 0⟩], some (.callback "stop")) :=
  ⟨(C17_objects_are_delivered_once exampleUsersDriver exampleTree toString
      [.user exampleUser, .fail "deadline exceeded"] (fun _ _ _ _ => none)).2 rfl,
   (C17_objects_are_delivered_once exampleUsersDriver exampleTree toString
      [.user exampleUser] (fun _ _ _ _ => some "stop")).2 rfl⟩

end FirebaseDriver
